import Mathlib

/-!
# Conntrack netlink decoding (`pkg/ebpf/netlink/decoding.go`)

A shallow embedding of the conntrack tuple decoder: `DecodeEvent`, `unmarshalCon`,
`unmarshalTuple`, `unmarshalTupleIP`, `unmarshalProto` and `copySlice`, together with
the attribute scanner they drive.

Conventions of the embedding.

* A byte is a `Fin 256`; a byte slice is a `List Byte`.
* A Go pointer field that may be nil is an `Option`.
* The Go functions mutate the scanner and the tuple they are handed; here the scanner and
  the tuple are passed in and the updated ones are returned.
* A run-time panic of the Go code (index out of range) is the `Except.error` outcome.
* The `for` loops are functions recursive on a fuel argument; each decoder seeds the fuel
  with the number of unread bytes at its level, which a successful `Next` strictly
  decreases (`Next_rest_length`), and any larger fuel gives the same result
  (the `*_fuel` lemmas).
-/

namespace Netlink

/-! ## Data model -/

/-- One octet of a message buffer. -/
abbrev Byte := Fin 256

/-- Go `error` values that flow through the decoder: an error of the netlink socket,
carried by the batch, or the scanner's malformed-attribute error. -/
inductive Error where
  | transport (code : Nat)
  | invalidAttribute
  deriving DecidableEq, Repr

/-- Run-time panics of the Go code. -/
inductive Panic where
  | indexOutOfRange
  deriving DecidableEq, Repr

/-- The fields of `ct.ProtoTuple` written by the decoder (`*uint8`, `*uint16`, `*uint16`). -/
structure ProtoTuple where
  Number : Option Nat := none
  SrcPort : Option Nat := none
  DstPort : Option Nat := none
  deriving DecidableEq, Repr

/-- The fields of `ct.IPTuple` written by the decoder (`*net.IP`, `*net.IP`, `*ProtoTuple`). -/
structure IPTuple where
  Src : Option (List Byte) := none
  Dst : Option (List Byte) := none
  Proto : Option ProtoTuple := none
  deriving DecidableEq, Repr

/-- The fields of `ct.Con` written by the decoder (`*IPTuple`, `*IPTuple`). -/
structure Con where
  Origin : Option IPTuple := none
  Reply : Option IPTuple := none
  deriving DecidableEq, Repr

/-- A netlink message: only its payload `Data` is read by the decoder. -/
structure Message where
  Data : List Byte
  deriving DecidableEq, Repr

/-- A batch handed over by the socket: the messages and an optional transport error. -/
structure Event where
  Reply : List Message
  Error : Option Error
  deriving DecidableEq, Repr

/-! ## Attribute type codes (`decoding.go`, lines 11-34) -/

def ctaUnspec : Nat := 0
def ctaTupleOrig : Nat := 1
def ctaTupleReply : Nat := 2

def ctaTupleIP : Nat := 1
def ctaTupleProto : Nat := 2
def ctaTupleZone : Nat := 3

def ctaIPv4Src : Nat := 1
def ctaIPv4Dst : Nat := 2
def ctaIPv6Src : Nat := 3
def ctaIPv6Dst : Nat := 4

def ctaProtoNum : Nat := 1
def ctaProtoSrcPort : Nat := 2
def ctaProtoDstPort : Nat := 3

/-! ## Attribute scanner -/

/-- Size of a netlink attribute header: a 16-bit length followed by a 16-bit type. -/
def nlaHeaderLen : Nat := 4

/-- The length `n` rounded up to the next multiple of 4. -/
def nlaAlign (n : Nat) : Nat := (n + 3) / 4 * 4

/-- Mask that clears the nested and network-byte-order flags of a type field. -/
def nlaTypeMask : Nat := 0x3FFF

/-- A 16-bit header field in host byte order (little-endian), low byte first. -/
def hostUint16 (lo hi : Byte) : Nat := lo.val + 256 * hi.val

/-- Modelled from the spec: the `AttributeScanner` type of this package, whose source file
is not part of the sources at hand (section 4.1). `rest` is the cursor: the unread part
of the attribute list at the current nesting level. `typ` is the type field of the
current attribute, flags included, `data` is its value, and `err` is the shared error
state: the first decode error recorded since the last `ResetTo`. -/
structure AttributeScanner where
  rest : List Byte := []
  typ : Nat := 0
  data : List Byte := []
  err : Option Error := none
  deriving DecidableEq, Repr

/-- Modelled from the spec: `NewAttributeScanner()`, a scanner bound to no buffer. -/
def NewAttributeScanner : AttributeScanner := {}

namespace AttributeScanner

/-- Modelled from the spec: `ResetTo(buffer)` rebinds the scanner to a new buffer and
discards the prior position and error state. -/
def ResetTo (_s : AttributeScanner) (buffer : List Byte) : AttributeScanner :=
  { rest := buffer, typ := 0, data := [], err := none }

/-- Modelled from the spec: records a decode error on the shared error state; `Err`
reports the first error recorded, so an earlier one is kept. -/
def record (s : AttributeScanner) (e : Error) : AttributeScanner :=
  match s.err with
  | none => { s with err := some e }
  | some _ => s

/-- Modelled from the spec: `Next()` advances to the next attribute at the current level.
It returns false with no error recorded when no byte is left at this level; it returns
false and records an error when the header is malformed (fewer than 4 bytes left, a
length shorter than the header, or a length extending past the remaining buffer).
Otherwise the attribute becomes the current one and the cursor advances by the length
rounded up to a multiple of 4, bounded by the remaining buffer (`List.drop` stops where
the list ends). -/
def Next (s : AttributeScanner) : Bool × AttributeScanner :=
  match s.rest with
  | [] => (false, s)
  | l0 :: l1 :: t0 :: t1 :: body =>
    let len := hostUint16 l0 l1
    if len < nlaHeaderLen ∨ nlaHeaderLen + body.length < len then
      (false, s.record Error.invalidAttribute)
    else
      (true, { s with
        typ := hostUint16 t0 t1
        data := body.take (len - nlaHeaderLen)
        rest := body.drop (nlaAlign len - nlaHeaderLen) })
  | _ => (false, s.record Error.invalidAttribute)

/-- Modelled from the spec: `Type()` is the type code of the current attribute, low bits
only (the mask `0x3FFF`, written as a remainder). `Type` is reserved in Lean. -/
def Type_ (s : AttributeScanner) : Nat := s.typ % (nlaTypeMask + 1)

/-- Modelled from the spec: `Bytes()` is the value of the current attribute. -/
def Bytes (s : AttributeScanner) : List Byte := s.data

/-- Modelled from the spec: `Err()` is the first decode error recorded since the last
`ResetTo`, or none. -/
def Err (s : AttributeScanner) : Option Error := s.err

/-- Modelled from the spec: `Nested(fn)` enters the value of the current attribute as a
fresh attribute list, runs `fn` on that scoped view and restores the outer cursor
afterwards whether or not `fn` succeeded. An error raised inside `fn` is recorded on the
shared error state; the outer iteration is not aborted. A panic inside `fn` unwinds.
`fn` returns the scanner it leaves behind, the data it updated and its Go return value. -/
def Nested {α : Type} (s : AttributeScanner)
    (fn : AttributeScanner → Except Panic (AttributeScanner × α × Option Error)) :
    Except Panic (AttributeScanner × α) :=
  match fn { rest := s.data, typ := 0, data := [], err := s.err } with
  | .error p => .error p
  | .ok (inner, a, e) =>
    let outer := { s with err := inner.err }
    match e with
    | none => .ok (outer, a)
    | some e => .ok (outer.record e, a)

end AttributeScanner

/-! ## The decoder (`decoding.go`, lines 40-154) -/

/-- The builtin `copy(dst, src)`: the first `min (len dst) (len src)` elements of `dst`
are overwritten with those of `src`. -/
def goCopy (dst src : List Byte) : List Byte :=
  src.take (min dst.length src.length) ++ dst.drop (min dst.length src.length)

/-- `copySlice` (lines 150-154): `dst := make([]byte, len(src)); copy(dst, src)`. -/
def copySlice (src : List Byte) : List Byte :=
  goCopy (List.replicate src.length 0) src

/-- The index expression `b[0]` converted by `uint8`: panics on an empty slice. -/
def firstByte (b : List Byte) : Except Panic Nat :=
  match b with
  | [] => .error Panic.indexOutOfRange
  | b0 :: _ => .ok (b0.val % 256)

/-- `binary.BigEndian.Uint16(b)`: `_ = b[1]; uint16(b[1]) | uint16(b[0])<<8`, which
panics when `b` has fewer than 2 bytes. -/
def bigEndianUint16 (b : List Byte) : Except Panic Nat :=
  match b with
  | b0 :: b1 :: _ => .ok ((b1.val ||| (b0.val <<< 8) % 65536) % 65536)
  | _ => .error Panic.indexOutOfRange

/-- The loop of `unmarshalProto` (lines 130-145):
`for toDecode := 3; toDecode > 0 && s.Next(); { switch s.Type() ... }`. -/
def unmarshalProtoLoop :
    Nat → Nat → AttributeScanner → ProtoTuple →
      Except Panic (AttributeScanner × ProtoTuple)
  | 0, _, s, p => .ok (s, p)
  | fuel + 1, toDecode, s, p =>
    if toDecode = 0 then .ok (s, p)
    else
      match s.Next with
      | (false, s1) => .ok (s1, p)
      | (true, s1) =>
        if s1.Type_ = ctaProtoNum then
          match firstByte s1.Bytes with
          | .error e => .error e
          | .ok protoNum =>
            unmarshalProtoLoop fuel (toDecode - 1) s1 { p with Number := some protoNum }
        else if s1.Type_ = ctaProtoSrcPort then
          match bigEndianUint16 s1.Bytes with
          | .error e => .error e
          | .ok port =>
            unmarshalProtoLoop fuel (toDecode - 1) s1 { p with SrcPort := some port }
        else if s1.Type_ = ctaProtoDstPort then
          match bigEndianUint16 s1.Bytes with
          | .error e => .error e
          | .ok port =>
            unmarshalProtoLoop fuel (toDecode - 1) s1 { p with DstPort := some port }
        else
          unmarshalProtoLoop fuel toDecode s1 p

/-- `unmarshalProto` (lines 127-148): `t.Proto` is set to a fresh `ProtoTuple`, which the
loop fills in through the pointer; the return value is `s.Err()`. -/
def unmarshalProto (s : AttributeScanner) (t : IPTuple) :
    Except Panic (AttributeScanner × IPTuple × Option Error) :=
  match unmarshalProtoLoop s.rest.length 3 s {} with
  | .error e => .error e
  | .ok (s1, p) => .ok (s1, { t with Proto := some p }, s1.Err)

/-- The loop of `unmarshalTupleIP` (lines 109-122). -/
def unmarshalTupleIPLoop :
    Nat → Nat → AttributeScanner → IPTuple → AttributeScanner × IPTuple
  | 0, _, s, t => (s, t)
  | fuel + 1, toDecode, s, t =>
    if toDecode = 0 then (s, t)
    else
      match s.Next with
      | (false, s1) => (s1, t)
      | (true, s1) =>
        if s1.Type_ = ctaIPv4Src ∨ s1.Type_ = ctaIPv6Src then
          unmarshalTupleIPLoop fuel (toDecode - 1) s1 { t with Src := some (copySlice s1.Bytes) }
        else if s1.Type_ = ctaIPv4Dst ∨ s1.Type_ = ctaIPv6Dst then
          unmarshalTupleIPLoop fuel (toDecode - 1) s1 { t with Dst := some (copySlice s1.Bytes) }
        else
          unmarshalTupleIPLoop fuel toDecode s1 t

/-- `unmarshalTupleIP` (lines 108-125); it has no panicking operation. -/
def unmarshalTupleIP (s : AttributeScanner) (t : IPTuple) :
    Except Panic (AttributeScanner × IPTuple × Option Error) :=
  match unmarshalTupleIPLoop s.rest.length 2 s t with
  | (s1, t1) => .ok (s1, t1, s1.Err)

/-- The loop of `unmarshalTuple` (lines 89-102). -/
def unmarshalTupleLoop :
    Nat → Nat → AttributeScanner → IPTuple → Except Panic (AttributeScanner × IPTuple)
  | 0, _, s, t => .ok (s, t)
  | fuel + 1, toDecode, s, t =>
    if toDecode = 0 then .ok (s, t)
    else
      match s.Next with
      | (false, s1) => .ok (s1, t)
      | (true, s1) =>
        if s1.Type_ = ctaTupleIP then
          match s1.Nested (fun s2 => unmarshalTupleIP s2 t) with
          | .error e => .error e
          | .ok (s3, t1) => unmarshalTupleLoop fuel (toDecode - 1) s3 t1
        else if s1.Type_ = ctaTupleProto then
          match s1.Nested (fun s2 => unmarshalProto s2 t) with
          | .error e => .error e
          | .ok (s3, t1) => unmarshalTupleLoop fuel (toDecode - 1) s3 t1
        else
          unmarshalTupleLoop fuel toDecode s1 t

/-- `unmarshalTuple` (lines 88-104). -/
def unmarshalTuple (s : AttributeScanner) (t : IPTuple) :
    Except Panic (AttributeScanner × IPTuple × Option Error) :=
  match unmarshalTupleLoop s.rest.length 2 s t with
  | .error e => .error e
  | .ok (s1, t1) => .ok (s1, t1, s1.Err)

/-- The loop of `unmarshalCon` (lines 70-83). `origin` and `reply` are the two tuples
that `c.Origin` and `c.Reply` point to. -/
def unmarshalConLoop :
    Nat → Nat → AttributeScanner → IPTuple → IPTuple →
      Except Panic (AttributeScanner × IPTuple × IPTuple)
  | 0, _, s, origin, reply => .ok (s, origin, reply)
  | fuel + 1, toDecode, s, origin, reply =>
    if toDecode = 0 then .ok (s, origin, reply)
    else
      match s.Next with
      | (false, s1) => .ok (s1, origin, reply)
      | (true, s1) =>
        if s1.Type_ = ctaTupleOrig then
          match s1.Nested (fun s2 => unmarshalTuple s2 origin) with
          | .error e => .error e
          | .ok (s3, origin1) => unmarshalConLoop fuel (toDecode - 1) s3 origin1 reply
        else if s1.Type_ = ctaTupleReply then
          match s1.Nested (fun s2 => unmarshalTuple s2 reply) with
          | .error e => .error e
          | .ok (s3, reply1) => unmarshalConLoop fuel (toDecode - 1) s3 origin reply1
        else
          unmarshalConLoop fuel toDecode s1 origin reply

/-- `unmarshalCon` (lines 66-86): `c.Origin` and `c.Reply` are set to fresh tuples, the
loop fills them in through the pointers, and the return value is `s.Err()`. -/
def unmarshalCon (s : AttributeScanner) (c : Con) :
    Except Panic (AttributeScanner × Con × Option Error) :=
  match unmarshalConLoop s.rest.length 2 s {} {} with
  | .error e => .error e
  | .ok (s1, origin, reply) =>
    .ok (s1, { c with Origin := some origin, Reply := some reply }, s1.Err)

/-- The loop of `DecodeEvent` (lines 51-61) over the messages still to decode; `conns`
is the slice built so far. -/
def decodeLoop :
    List Message → AttributeScanner → List Con → Except Panic (AttributeScanner × List Con)
  | [], scanner, conns => .ok (scanner, conns)
  | msg :: msgs, scanner, conns =>
    match unmarshalCon (scanner.ResetTo msg.Data) {} with
    | .error e => .error e
    | .ok (s1, _, some _) => decodeLoop msgs s1 conns
    | .ok (s1, c, none) => decodeLoop msgs s1 (conns ++ [c])

/-- `DecodeEvent` (lines 40-64). `scanner` is the package-level scanner; the result is the
scanner left behind, the returned slice (`none` is the nil slice) and the returned error. -/
def DecodeEvent (scanner : AttributeScanner) (e : Event) :
    Except Panic (AttributeScanner × Option (List Con) × Option Error) :=
  match e.Error with
  | some err => .ok (scanner, none, some err)
  | none =>
    match decodeLoop e.Reply scanner [] with
    | .error p => .error p
    | .ok (s1, conns) => .ok (s1, some conns, none)

deriving instance DecidableEq for Except

/-! ## Reference encoding of attributes -/

/-- The two bytes of a 16-bit header field in host byte order. -/
def putHostUint16 (n : Nat) : List Byte := [Fin.ofNat n, Fin.ofNat (n / 256)]

/-- One attribute on the wire: the length (header included, padding excluded), the type
field, the value, and zero padding up to a multiple of 4. -/
def encodeAttr (typ : Nat) (value : List Byte) : List Byte :=
  putHostUint16 (nlaHeaderLen + value.length) ++ putHostUint16 typ ++ value ++
    List.replicate (nlaAlign value.length - value.length) 0

/-! ## Reference encoding of a connection -/

/-- One direction of a connection as handed to the reference encoder: the two addresses,
the address family used for their type codes, the protocol number and the two ports. -/
structure Flow where
  v6 : Bool
  src : List Byte
  dst : List Byte
  proto : Nat
  srcPort : Nat
  dstPort : Nat
  deriving DecidableEq, Repr

/-- A port in network byte order. -/
def encodePort (port : Nat) : List Byte := [Fin.ofNat (port / 256), Fin.ofNat port]

/-- The value of a tuple-proto attribute: proto-num, proto-src-port, proto-dst-port. -/
def encodeProto (fl : Flow) : List Byte :=
  encodeAttr ctaProtoNum [Fin.ofNat fl.proto] ++
    (encodeAttr ctaProtoSrcPort (encodePort fl.srcPort) ++
      encodeAttr ctaProtoDstPort (encodePort fl.dstPort))

/-- The value of a tuple-ip attribute: the source and the destination address. -/
def encodeAddrs (fl : Flow) : List Byte :=
  encodeAttr (if fl.v6 then ctaIPv6Src else ctaIPv4Src) fl.src ++
    encodeAttr (if fl.v6 then ctaIPv6Dst else ctaIPv4Dst) fl.dst

/-- The value of a tuple-orig or tuple-reply attribute: tuple-ip, then tuple-proto. -/
def encodeTuple (fl : Flow) : List Byte :=
  encodeAttr ctaTupleIP (encodeAddrs fl) ++ encodeAttr ctaTupleProto (encodeProto fl)

/-- A message: tuple-orig followed by tuple-reply. -/
def encodeCon (origin reply : Flow) : List Byte :=
  encodeAttr ctaTupleOrig (encodeTuple origin) ++ encodeAttr ctaTupleReply (encodeTuple reply)

/-- The `IPTuple` with every field set to the values of `fl`. -/
def Flow.toIPTuple (fl : Flow) : IPTuple :=
  { Src := some fl.src, Dst := some fl.dst,
    Proto := some { Number := some fl.proto, SrcPort := some fl.srcPort,
                    DstPort := some fl.dstPort } }

/-- The values of `fl` fit their fields and its addresses fit an attribute. -/
def Flow.WellFormed (fl : Flow) : Prop :=
  fl.src.length + fl.dst.length ≤ 65000 ∧ fl.proto < 256 ∧ fl.srcPort < 65536 ∧
    fl.dstPort < 65536

instance (fl : Flow) : Decidable fl.WellFormed := by
  unfold Flow.WellFormed; infer_instance

/-! ## Attribute lists and what a level's loop lets its caller observe -/

/-- A list of attributes on the wire, one after the other. -/
def encodeAttrs : List (Nat × List Byte) → List Byte
  | [] => []
  | a :: as => encodeAttr a.1 a.2 ++ encodeAttrs as

/-- The type field and the length of the attribute fit their 16-bit header fields. -/
def AttrFits (a : Nat × List Byte) : Prop :=
  a.1 < 65536 ∧ nlaHeaderLen + a.2.length < 65536

instance (a : Nat × List Byte) : Decidable (AttrFits a) := by
  unfold AttrFits; infer_instance

/-- What the caller of a loop can observe once it is over: the recorded error and the
decoded data (the type and value of the last attribute visited are not read again). -/
def observe {σ : Type} (r : Except Panic (AttributeScanner × σ)) :
    Except Panic (Option Error × σ) :=
  match r with
  | .error p => .error p
  | .ok (s, x) => .ok (s.err, x)

/-- The loop `L` gives the same observable outcome on the attribute lists `A` and `B`,
whatever the countdown, the recorded error and the data decoded so far. -/
def SameOutcome {σ : Type}
    (L : Nat → Nat → AttributeScanner → σ → Except Panic (AttributeScanner × σ))
    (A B : List Byte) : Prop :=
  ∀ (n : Nat) (err : Option Error) (ty0 ty1 : Nat) (d0 d1 : List Byte) (x : σ),
    observe (L A.length n ⟨A, ty0, d0, err⟩ x) = observe (L B.length n ⟨B, ty1, d1, err⟩ x)

/-! ## Type codes a level dispatches on, and outcomes up to a countdown -/

/-- The type field `typ` selects a case of the switch of `unmarshalCon`. -/
def conKnown (typ : Nat) : Prop :=
  typ % (nlaTypeMask + 1) = ctaTupleOrig ∨ typ % (nlaTypeMask + 1) = ctaTupleReply

/-- The type field `typ` selects a case of the switch of `unmarshalTuple`. -/
def tupleKnown (typ : Nat) : Prop :=
  typ % (nlaTypeMask + 1) = ctaTupleIP ∨ typ % (nlaTypeMask + 1) = ctaTupleProto

/-- The type field `typ` selects a case of the switch of `unmarshalTupleIP`. -/
def addrKnown (typ : Nat) : Prop :=
  (typ % (nlaTypeMask + 1) = ctaIPv4Src ∨ typ % (nlaTypeMask + 1) = ctaIPv6Src) ∨
    (typ % (nlaTypeMask + 1) = ctaIPv4Dst ∨ typ % (nlaTypeMask + 1) = ctaIPv6Dst)

/-- The type field `typ` selects a case of the switch of `unmarshalProto`. -/
def protoKnown (typ : Nat) : Prop :=
  typ % (nlaTypeMask + 1) = ctaProtoNum ∨ typ % (nlaTypeMask + 1) = ctaProtoSrcPort ∨
    typ % (nlaTypeMask + 1) = ctaProtoDstPort

instance (typ : Nat) : Decidable (conKnown typ) := by unfold conKnown; infer_instance

instance (typ : Nat) : Decidable (tupleKnown typ) := by unfold tupleKnown; infer_instance

instance (typ : Nat) : Decidable (addrKnown typ) := by unfold addrKnown; infer_instance

instance (typ : Nat) : Decidable (protoKnown typ) := by unfold protoKnown; infer_instance

/-- The loop `L` gives the same observable outcome on the attribute lists `A` and `B`
as long as the countdown it starts with is at most `k`. -/
def SameOutcomeUpTo {σ : Type} (k : Nat)
    (L : Nat → Nat → AttributeScanner → σ → Except Panic (AttributeScanner × σ))
    (A B : List Byte) : Prop :=
  ∀ (n : Nat), n ≤ k → ∀ (err : Option Error) (ty0 ty1 : Nat) (d0 d1 : List Byte) (x : σ),
    observe (L A.length n ⟨A, ty0, d0, err⟩ x) = observe (L B.length n ⟨B, ty1, d1, err⟩ x)

/-! ## Malformed headers and decoders that report them -/

/-- The bytes `b` start with a malformed attribute header: 1 to 3 bytes only, a declared
length below the header size, or a declared length past the bytes that are there. -/
def MalformedHeader (b : List Byte) : Prop :=
  (1 ≤ b.length ∧ b.length ≤ 3) ∨
    ∃ l0 l1 t0 t1 body, b = l0 :: l1 :: t0 :: t1 :: body ∧
      (hostUint16 l0 l1 < nlaHeaderLen ∨ nlaHeaderLen + body.length < hostUint16 l0 l1)

/-- The number of attributes of `as` whose type field selects a case of the switch. -/
def knownCount (known : Nat → Prop) [DecidablePred known] (as : List (Nat × List Byte)) :
    Nat :=
  (as.filter (fun a => decide (known a.1))).length

/-- Whenever the decoder `D` returns on the attribute list `v`, it returns a non-nil
error, whatever the scanner held before and whatever data it is handed. -/
def Fails {σ : Type}
    (D : AttributeScanner → σ → Except Panic (AttributeScanner × σ × Option Error))
    (v : List Byte) : Prop :=
  ∀ (ty : Nat) (d : List Byte) (err : Option Error) (x : σ)
    (r : AttributeScanner × σ × Option Error),
    D ⟨v, ty, d, err⟩ x = .ok r → r.2.2 ≠ none

instance : DecidablePred conKnown := fun typ => by unfold conKnown; infer_instance

instance : DecidablePred tupleKnown := fun typ => by unfold tupleKnown; infer_instance

instance : DecidablePred addrKnown := fun typ => by unfold addrKnown; infer_instance

instance : DecidablePred protoKnown := fun typ => by unfold protoKnown; infer_instance

/-! ## The error a scanner held before a decoder ran -/

/-- The first of two errors in recording order: `a` when it is set, `b` otherwise. -/
def firstError (a b : Option Error) : Option Error :=
  match a with
  | some e => some e
  | none => b

/-- The outcome `r` of a loop that started with no error, seen from a scanner that held
the error `err` before: `err` comes first. -/
def withErr {σ : Type} (err : Option Error) (r : Except Panic (AttributeScanner × σ)) :
    Except Panic (AttributeScanner × σ) :=
  match r with
  | .error p => .error p
  | .ok (s, x) => .ok ({ s with err := firstError err s.err }, x)

/-- The same as `withErr` for the result of a decoder, which also returns the error. -/
def withErrReturned {σ : Type} (err : Option Error)
    (r : Except Panic (AttributeScanner × σ × Option Error)) :
    Except Panic (AttributeScanner × σ × Option Error) :=
  match r with
  | .error p => .error p
  | .ok (s, x, e) => .ok ({ s with err := firstError err s.err }, x, firstError err e)

/-! ## Decoding one message on its own -/

/-- The body of the loop of `DecodeEvent` for one message, on a scanner of its own: the
scanner is reset to the message's buffer and `unmarshalCon` is run on a new `ct.Con`.
The result is the tuple, or `none` when `unmarshalCon` returned an error. -/
def decodeMessage (msg : Message) : Except Panic (Option Con) :=
  match unmarshalCon (AttributeScanner.ResetTo NewAttributeScanner msg.Data) {} with
  | .error p => .error p
  | .ok (_, c, none) => .ok (some c)
  | .ok (_, _, some _) => .ok none

/-- The tuple a message contributes to the output: the decoded tuple when `unmarshalCon`
returned no error, nothing otherwise. -/
def tupleOf (msg : Message) : Option Con :=
  match decodeMessage msg with
  | .ok (some c) => some c
  | _ => none

/-! ## Sample messages -/

/-- A message with a full origin tuple (10.0.0.1:80 to 10.0.0.2:8080, TCP) and a full
reply tuple. -/
def sampleMessage1 : Message :=
  ⟨[52, 0, 1, 0,
      20, 0, 1, 0, 8, 0, 1, 0, 10, 0, 0, 1, 8, 0, 2, 0, 10, 0, 0, 2,
      28, 0, 2, 0, 5, 0, 1, 0, 6, 0, 0, 0, 6, 0, 2, 0, 0, 80, 0, 0, 6, 0, 3, 0, 31, 144, 0, 0,
    52, 0, 2, 0,
      20, 0, 1, 0, 8, 0, 1, 0, 10, 0, 0, 2, 8, 0, 2, 0, 10, 0, 0, 1,
      28, 0, 2, 0, 5, 0, 1, 0, 6, 0, 0, 0, 6, 0, 2, 0, 31, 144, 0, 0, 6, 0, 3, 0, 0, 80, 0, 0]⟩

/-- The tuple encoded by `sampleMessage1`. -/
def sampleCon1 : Con :=
  { Origin := some { Src := some [10, 0, 0, 1], Dst := some [10, 0, 0, 2],
                     Proto := some { Number := some 6, SrcPort := some 80, DstPort := some 8080 } }
    Reply := some { Src := some [10, 0, 0, 2], Dst := some [10, 0, 0, 1],
                    Proto := some { Number := some 6, SrcPort := some 8080, DstPort := some 80 } } }

/-- The origin direction of `sampleMessage1`. -/
def sampleFlow1 : Flow := ⟨false, [10, 0, 0, 1], [10, 0, 0, 2], 6, 80, 8080⟩

/-- The reply direction of `sampleMessage1`. -/
def sampleFlow2 : Flow := ⟨false, [10, 0, 0, 2], [10, 0, 0, 1], 6, 8080, 80⟩

/-- A message whose origin tuple holds a tuple-ip attribute with the declared length 3. -/
def malformedMessage : Message :=
  ⟨[8, 0, 1, 0, 3, 0, 1, 0]⟩

/-- A message with an origin tuple only (192.168.1.9:443 to 172.16.0.5:53, UDP). -/
def sampleMessage3 : Message :=
  ⟨[52, 0, 1, 0,
      20, 0, 1, 0, 8, 0, 1, 0, 192, 168, 1, 9, 8, 0, 2, 0, 172, 16, 0, 5,
      28, 0, 2, 0, 5, 0, 1, 0, 17, 0, 0, 0, 6, 0, 2, 0, 1, 187, 0, 0, 6, 0, 3, 0, 0, 53, 0, 0]⟩

/-- The tuple encoded by `sampleMessage3`. -/
def sampleCon3 : Con :=
  { Origin := some { Src := some [192, 168, 1, 9], Dst := some [172, 16, 0, 5],
                     Proto := some { Number := some 17, SrcPort := some 443, DstPort := some 53 } }
    Reply := some {} }

/-- A message with two tuple-orig attributes: the first holds the source address
10.0.0.1, the second the source address 10.9.9.9. -/
def duplicateOrigMessage : Message :=
  ⟨[16, 0, 1, 0, 12, 0, 1, 0, 8, 0, 1, 0, 10, 0, 0, 1,
    16, 0, 1, 0, 12, 0, 1, 0, 8, 0, 1, 0, 10, 9, 9, 9]⟩

/-- The first tuple-orig attribute of `duplicateOrigMessage` on its own. -/
def firstOrigMessage : Message :=
  ⟨[16, 0, 1, 0, 12, 0, 1, 0, 8, 0, 1, 0, 10, 0, 0, 1]⟩

/-- A message with a header of declared length 3 at the connection level. -/
def malformedAtCon : Message := ⟨[3, 0, 1, 0]⟩

/-- A message whose tuple-orig holds a tuple-ip with a header of declared length 2 at the
address-pair level. -/
def malformedAtAddrs : Message := ⟨[12, 0, 1, 0, 8, 0, 1, 0, 2, 0, 1, 0]⟩

/-- A message whose tuple-orig holds a tuple-proto with a header at the protocol-tuple
level that declares 9 bytes where 4 are left. -/
def malformedAtProto : Message := ⟨[12, 0, 1, 0, 8, 0, 2, 0, 9, 0, 1, 0]⟩

/-- A message whose tuple-orig holds a tuple-ip with a header of declared length 3 at the
address-pair level, and then a tuple-proto whose proto-num attribute has an empty
value. -/
def malformedThenShortProto : Message :=
  ⟨[20, 0, 1, 0, 8, 0, 1, 0, 3, 0, 1, 0, 8, 0, 2, 0, 4, 0, 1, 0]⟩

/-! ## Lemmas on the scanner and on the fuel of the loops -/

theorem nlaAlign_ge (n : Nat) : n ≤ nlaAlign n := by
  unfold nlaAlign; omega

theorem nlaAlign_add_four (n : Nat) : nlaAlign (4 + n) = 4 + nlaAlign n := by
  unfold nlaAlign; omega

theorem hostUint16_put (n : Nat) (h : n < 65536) :
    hostUint16 (Fin.ofNat n) (Fin.ofNat (n / 256)) = n := by
  simp only [hostUint16, Fin.ofNat]
  omega

namespace AttributeScanner

theorem Next_rest_length {s s1 : AttributeScanner} (h : s.Next = (true, s1)) :
    s1.rest.length + 4 ≤ s.rest.length := by
  unfold Next at h
  split at h
  · simp at h
  · rename_i heq
    dsimp only at h
    split at h
    · simp at h
    · simp only [Prod.mk.injEq, true_and] at h
      subst h
      simp only [heq, List.length_drop, List.length_cons]
      omega
  · simp at h

theorem Next_false_rest {s s1 : AttributeScanner} (h : s.Next = (false, s1)) :
    s1.rest = s.rest := by
  unfold Next at h
  split at h
  · simp only [Prod.mk.injEq, true_and] at h; rw [← h]
  · dsimp only at h
    split at h
    · simp only [Prod.mk.injEq, true_and] at h
      subst h
      unfold record; split <;> rfl
    · simp at h
  · simp only [Prod.mk.injEq, true_and] at h
    subst h
    unfold record; split <;> rfl

theorem Next_encodeAttr (s : AttributeScanner) (typ : Nat) (value tail : List Byte)
    (ht : typ < 65536) (hv : nlaHeaderLen + value.length < 65536)
    (hs : s.rest = encodeAttr typ value ++ tail) :
    s.Next = (true, { s with typ := typ, data := value, rest := tail }) := by
  unfold Next
  rw [hs]
  simp only [encodeAttr, putHostUint16, List.cons_append, List.nil_append, List.append_assoc]
  rw [hostUint16_put _ hv, hostUint16_put _ ht]
  have h1 : nlaAlign (nlaHeaderLen + value.length) - nlaHeaderLen
      = value.length + (nlaAlign value.length - value.length) := by
    have := nlaAlign_ge value.length
    simp only [nlaHeaderLen, nlaAlign_add_four]; omega
  have h2 : ¬ (nlaHeaderLen + value.length < nlaHeaderLen ∨
      nlaHeaderLen +
          (value ++ (List.replicate (nlaAlign value.length - value.length) 0 ++ tail)).length
        < nlaHeaderLen + value.length) := by
    simp only [List.length_append]; omega
  rw [if_neg h2, h1]
  have h3 : nlaHeaderLen + value.length - nlaHeaderLen = value.length := by omega
  rw [h3, List.take_left, ← List.append_assoc, List.drop_append_of_le_length (by simp)]
  congr 2
  rw [List.drop_of_length_le (by simp)]
  simp

theorem Next_nil {s : AttributeScanner} (h : s.rest = []) : s.Next = (false, s) := by
  unfold Next; rw [h]

theorem Nested_rest {α : Type} {s s3 : AttributeScanner} {a : α}
    {fn : AttributeScanner → Except Panic (AttributeScanner × α × Option Error)}
    (h : s.Nested fn = .ok (s3, a)) : s3.rest = s.rest := by
  unfold Nested at h
  split at h
  · simp at h
  · dsimp only at h
    split at h
    · simp only [Except.ok.injEq, Prod.mk.injEq] at h
      rw [← h.1]
    · simp only [Except.ok.injEq, Prod.mk.injEq] at h
      rw [← h.1]
      unfold record; split <;> rfl

end AttributeScanner

open AttributeScanner

theorem unmarshalProtoLoop_nil (f n : Nat) (s : AttributeScanner) (p : ProtoTuple)
    (h : s.rest = []) : unmarshalProtoLoop f n s p = .ok (s, p) := by
  cases f with
  | zero => rfl
  | succ f =>
    unfold unmarshalProtoLoop
    split
    · rfl
    · rw [Next_nil h]

theorem unmarshalProtoLoop_fuel (f1 f2 n : Nat) (s : AttributeScanner) (p : ProtoTuple)
    (h1 : s.rest.length ≤ f1) (h2 : s.rest.length ≤ f2) :
    unmarshalProtoLoop f1 n s p = unmarshalProtoLoop f2 n s p := by
  induction f1 generalizing f2 n s p with
  | zero =>
    have hnil : s.rest = [] := List.length_eq_zero.mp (by omega)
    rw [unmarshalProtoLoop_nil _ _ _ _ hnil, unmarshalProtoLoop_nil _ _ _ _ hnil]
  | succ f1 ih =>
    cases f2 with
    | zero =>
      have hnil : s.rest = [] := List.length_eq_zero.mp (by omega)
      rw [unmarshalProtoLoop_nil _ _ _ _ hnil, unmarshalProtoLoop_nil _ _ _ _ hnil]
    | succ f2 =>
      unfold unmarshalProtoLoop
      split
      · rfl
      · cases hN : s.Next with
        | mk b s1 =>
          cases b with
          | false => rfl
          | true =>
            have hlen := Next_rest_length hN
            have e : ∀ m q, unmarshalProtoLoop f1 m s1 q = unmarshalProtoLoop f2 m s1 q :=
              fun m q => ih f2 m s1 q (by omega) (by omega)
            simp only [e]

theorem unmarshalTupleIPLoop_nil (f n : Nat) (s : AttributeScanner) (t : IPTuple)
    (h : s.rest = []) : unmarshalTupleIPLoop f n s t = (s, t) := by
  cases f with
  | zero => rfl
  | succ f =>
    unfold unmarshalTupleIPLoop
    split
    · rfl
    · rw [Next_nil h]

theorem unmarshalTupleIPLoop_fuel (f1 f2 n : Nat) (s : AttributeScanner) (t : IPTuple)
    (h1 : s.rest.length ≤ f1) (h2 : s.rest.length ≤ f2) :
    unmarshalTupleIPLoop f1 n s t = unmarshalTupleIPLoop f2 n s t := by
  induction f1 generalizing f2 n s t with
  | zero =>
    have hnil : s.rest = [] := List.length_eq_zero.mp (by omega)
    rw [unmarshalTupleIPLoop_nil _ _ _ _ hnil, unmarshalTupleIPLoop_nil _ _ _ _ hnil]
  | succ f1 ih =>
    cases f2 with
    | zero =>
      have hnil : s.rest = [] := List.length_eq_zero.mp (by omega)
      rw [unmarshalTupleIPLoop_nil _ _ _ _ hnil, unmarshalTupleIPLoop_nil _ _ _ _ hnil]
    | succ f2 =>
      unfold unmarshalTupleIPLoop
      split
      · rfl
      · cases hN : s.Next with
        | mk b s1 =>
          cases b with
          | false => rfl
          | true =>
            have hlen := Next_rest_length hN
            have e : ∀ m q, unmarshalTupleIPLoop f1 m s1 q = unmarshalTupleIPLoop f2 m s1 q :=
              fun m q => ih f2 m s1 q (by omega) (by omega)
            simp only [e]

theorem unmarshalTupleLoop_nil (f n : Nat) (s : AttributeScanner) (t : IPTuple)
    (h : s.rest = []) : unmarshalTupleLoop f n s t = .ok (s, t) := by
  cases f with
  | zero => rfl
  | succ f =>
    unfold unmarshalTupleLoop
    split
    · rfl
    · rw [Next_nil h]

theorem unmarshalTupleLoop_fuel (f1 f2 n : Nat) (s : AttributeScanner) (t : IPTuple)
    (h1 : s.rest.length ≤ f1) (h2 : s.rest.length ≤ f2) :
    unmarshalTupleLoop f1 n s t = unmarshalTupleLoop f2 n s t := by
  induction f1 generalizing f2 n s t with
  | zero =>
    have hnil : s.rest = [] := List.length_eq_zero.mp (by omega)
    rw [unmarshalTupleLoop_nil _ _ _ _ hnil, unmarshalTupleLoop_nil _ _ _ _ hnil]
  | succ f1 ih =>
    cases f2 with
    | zero =>
      have hnil : s.rest = [] := List.length_eq_zero.mp (by omega)
      rw [unmarshalTupleLoop_nil _ _ _ _ hnil, unmarshalTupleLoop_nil _ _ _ _ hnil]
    | succ f2 =>
      unfold unmarshalTupleLoop
      split
      · rfl
      · cases hN : s.Next with
        | mk b s1 =>
          cases b with
          | false => rfl
          | true =>
            have hlen := Next_rest_length hN
            have e : ∀ m s3 q, s3.rest = s1.rest →
                unmarshalTupleLoop f1 m s3 q = unmarshalTupleLoop f2 m s3 q :=
              fun m s3 q hr => ih f2 m s3 q (by rw [hr]; omega) (by rw [hr]; omega)
            dsimp only
            split
            · cases hI : s1.Nested (fun s2 => unmarshalTupleIP s2 t) with
              | error x => rfl
              | ok r => exact e _ _ _ (Nested_rest hI)
            · split
              · cases hI : s1.Nested (fun s2 => unmarshalProto s2 t) with
                | error x => rfl
                | ok r => exact e _ _ _ (Nested_rest hI)
              · exact e _ _ _ rfl

theorem unmarshalConLoop_nil (f n : Nat) (s : AttributeScanner) (o r : IPTuple)
    (h : s.rest = []) : unmarshalConLoop f n s o r = .ok (s, o, r) := by
  cases f with
  | zero => rfl
  | succ f =>
    unfold unmarshalConLoop
    split
    · rfl
    · rw [Next_nil h]

theorem unmarshalConLoop_fuel (f1 f2 n : Nat) (s : AttributeScanner) (o r : IPTuple)
    (h1 : s.rest.length ≤ f1) (h2 : s.rest.length ≤ f2) :
    unmarshalConLoop f1 n s o r = unmarshalConLoop f2 n s o r := by
  induction f1 generalizing f2 n s o r with
  | zero =>
    have hnil : s.rest = [] := List.length_eq_zero.mp (by omega)
    rw [unmarshalConLoop_nil _ _ _ _ _ hnil, unmarshalConLoop_nil _ _ _ _ _ hnil]
  | succ f1 ih =>
    cases f2 with
    | zero =>
      have hnil : s.rest = [] := List.length_eq_zero.mp (by omega)
      rw [unmarshalConLoop_nil _ _ _ _ _ hnil, unmarshalConLoop_nil _ _ _ _ _ hnil]
    | succ f2 =>
      unfold unmarshalConLoop
      split
      · rfl
      · cases hN : s.Next with
        | mk b s1 =>
          cases b with
          | false => rfl
          | true =>
            have hlen := Next_rest_length hN
            have e : ∀ m s3 q q2, s3.rest = s1.rest →
                unmarshalConLoop f1 m s3 q q2 = unmarshalConLoop f2 m s3 q q2 :=
              fun m s3 q q2 hr => ih f2 m s3 q q2 (by rw [hr]; omega) (by rw [hr]; omega)
            dsimp only
            split
            · cases hI : s1.Nested (fun s2 => unmarshalTuple s2 o) with
              | error x => rfl
              | ok r => exact e _ _ _ _ (Nested_rest hI)
            · split
              · cases hI : s1.Nested (fun s2 => unmarshalTuple s2 r) with
                | error x => rfl
                | ok r => exact e _ _ _ _ (Nested_rest hI)
              · exact e _ _ _ _ rfl


/-! ## One iteration of each loop, with the fuel out of the way -/

theorem unmarshalProtoLoop_zero (f : Nat) (s : AttributeScanner) (p : ProtoTuple) :
    unmarshalProtoLoop f 0 s p = .ok (s, p) := by
  cases f <;> simp [unmarshalProtoLoop]

theorem unmarshalProtoLoop_stop {f : Nat} (n : Nat) {s s1 : AttributeScanner} (p : ProtoTuple)
    (hf : s.rest.length ≤ f) (hN : s.Next = (false, s1)) :
    unmarshalProtoLoop f (n + 1) s p = .ok (s1, p) := by
  cases f with
  | zero =>
    have hnil : s.rest = [] := List.length_eq_zero.mp (by omega)
    rw [Next_nil hnil] at hN
    simp only [Prod.mk.injEq, true_and] at hN
    subst hN
    rfl
  | succ f => simp [unmarshalProtoLoop, hN]

theorem unmarshalProtoLoop_step {f : Nat} (n : Nat) {s s1 : AttributeScanner} (p : ProtoTuple)
    (hf : s.rest.length ≤ f) (hN : s.Next = (true, s1)) :
    unmarshalProtoLoop f (n + 1) s p =
      if s1.Type_ = ctaProtoNum then
        match firstByte s1.Bytes with
        | .error e => .error e
        | .ok protoNum =>
          unmarshalProtoLoop s1.rest.length n s1 { p with Number := some protoNum }
      else if s1.Type_ = ctaProtoSrcPort then
        match bigEndianUint16 s1.Bytes with
        | .error e => .error e
        | .ok port => unmarshalProtoLoop s1.rest.length n s1 { p with SrcPort := some port }
      else if s1.Type_ = ctaProtoDstPort then
        match bigEndianUint16 s1.Bytes with
        | .error e => .error e
        | .ok port => unmarshalProtoLoop s1.rest.length n s1 { p with DstPort := some port }
      else
        unmarshalProtoLoop s1.rest.length (n + 1) s1 p := by
  have hlen := Next_rest_length hN
  cases f with
  | zero => omega
  | succ f =>
    have e : ∀ m q, unmarshalProtoLoop f m s1 q = unmarshalProtoLoop s1.rest.length m s1 q :=
      fun m q => unmarshalProtoLoop_fuel _ _ m s1 q (by omega) (le_refl _)
    simp [unmarshalProtoLoop, hN, e]

theorem unmarshalTupleIPLoop_zero (f : Nat) (s : AttributeScanner) (t : IPTuple) :
    unmarshalTupleIPLoop f 0 s t = (s, t) := by
  cases f <;> simp [unmarshalTupleIPLoop]

theorem unmarshalTupleIPLoop_stop {f : Nat} (n : Nat) {s s1 : AttributeScanner} (t : IPTuple)
    (hf : s.rest.length ≤ f) (hN : s.Next = (false, s1)) :
    unmarshalTupleIPLoop f (n + 1) s t = (s1, t) := by
  cases f with
  | zero =>
    have hnil : s.rest = [] := List.length_eq_zero.mp (by omega)
    rw [Next_nil hnil] at hN
    simp only [Prod.mk.injEq, true_and] at hN
    subst hN
    rfl
  | succ f => simp [unmarshalTupleIPLoop, hN]

theorem unmarshalTupleIPLoop_step {f : Nat} (n : Nat) {s s1 : AttributeScanner} (t : IPTuple)
    (hf : s.rest.length ≤ f) (hN : s.Next = (true, s1)) :
    unmarshalTupleIPLoop f (n + 1) s t =
      if s1.Type_ = ctaIPv4Src ∨ s1.Type_ = ctaIPv6Src then
        unmarshalTupleIPLoop s1.rest.length n s1 { t with Src := some (copySlice s1.Bytes) }
      else if s1.Type_ = ctaIPv4Dst ∨ s1.Type_ = ctaIPv6Dst then
        unmarshalTupleIPLoop s1.rest.length n s1 { t with Dst := some (copySlice s1.Bytes) }
      else
        unmarshalTupleIPLoop s1.rest.length (n + 1) s1 t := by
  have hlen := Next_rest_length hN
  cases f with
  | zero => omega
  | succ f =>
    have e : ∀ m q, unmarshalTupleIPLoop f m s1 q = unmarshalTupleIPLoop s1.rest.length m s1 q :=
      fun m q => unmarshalTupleIPLoop_fuel _ _ m s1 q (by omega) (le_refl _)
    simp [unmarshalTupleIPLoop, hN, e]

theorem unmarshalTupleLoop_zero (f : Nat) (s : AttributeScanner) (t : IPTuple) :
    unmarshalTupleLoop f 0 s t = .ok (s, t) := by
  cases f <;> simp [unmarshalTupleLoop]

theorem unmarshalTupleLoop_stop {f : Nat} (n : Nat) {s s1 : AttributeScanner} (t : IPTuple)
    (hf : s.rest.length ≤ f) (hN : s.Next = (false, s1)) :
    unmarshalTupleLoop f (n + 1) s t = .ok (s1, t) := by
  cases f with
  | zero =>
    have hnil : s.rest = [] := List.length_eq_zero.mp (by omega)
    rw [Next_nil hnil] at hN
    simp only [Prod.mk.injEq, true_and] at hN
    subst hN
    rfl
  | succ f => simp [unmarshalTupleLoop, hN]

theorem unmarshalTupleLoop_step {f : Nat} (n : Nat) {s s1 : AttributeScanner} (t : IPTuple)
    (hf : s.rest.length ≤ f) (hN : s.Next = (true, s1)) :
    unmarshalTupleLoop f (n + 1) s t =
      if s1.Type_ = ctaTupleIP then
        match s1.Nested (fun s2 => unmarshalTupleIP s2 t) with
        | .error e => .error e
        | .ok (s3, t1) => unmarshalTupleLoop s3.rest.length n s3 t1
      else if s1.Type_ = ctaTupleProto then
        match s1.Nested (fun s2 => unmarshalProto s2 t) with
        | .error e => .error e
        | .ok (s3, t1) => unmarshalTupleLoop s3.rest.length n s3 t1
      else
        unmarshalTupleLoop s1.rest.length (n + 1) s1 t := by
  have hlen := Next_rest_length hN
  cases f with
  | zero => omega
  | succ f =>
    have e : ∀ m s3 q, s3.rest = s1.rest →
        unmarshalTupleLoop f m s3 q = unmarshalTupleLoop s3.rest.length m s3 q :=
      fun m s3 q hr => unmarshalTupleLoop_fuel _ _ m s3 q (by rw [hr]; omega) (le_refl _)
    simp only [unmarshalTupleLoop, hN, Nat.add_sub_cancel, Nat.succ_ne_zero, if_false]
    split
    · cases hI : s1.Nested (fun s2 => unmarshalTupleIP s2 t) with
      | error x => rfl
      | ok r => exact e _ _ _ (Nested_rest hI)
    · split
      · cases hI : s1.Nested (fun s2 => unmarshalProto s2 t) with
        | error x => rfl
        | ok r => exact e _ _ _ (Nested_rest hI)
      · exact e _ _ _ rfl

theorem unmarshalConLoop_zero (f : Nat) (s : AttributeScanner) (o r : IPTuple) :
    unmarshalConLoop f 0 s o r = .ok (s, o, r) := by
  cases f <;> simp [unmarshalConLoop]

theorem unmarshalConLoop_stop {f : Nat} (n : Nat) {s s1 : AttributeScanner} (o r : IPTuple)
    (hf : s.rest.length ≤ f) (hN : s.Next = (false, s1)) :
    unmarshalConLoop f (n + 1) s o r = .ok (s1, o, r) := by
  cases f with
  | zero =>
    have hnil : s.rest = [] := List.length_eq_zero.mp (by omega)
    rw [Next_nil hnil] at hN
    simp only [Prod.mk.injEq, true_and] at hN
    subst hN
    rfl
  | succ f => simp [unmarshalConLoop, hN]

theorem unmarshalConLoop_step {f : Nat} (n : Nat) {s s1 : AttributeScanner} (o r : IPTuple)
    (hf : s.rest.length ≤ f) (hN : s.Next = (true, s1)) :
    unmarshalConLoop f (n + 1) s o r =
      if s1.Type_ = ctaTupleOrig then
        match s1.Nested (fun s2 => unmarshalTuple s2 o) with
        | .error e => .error e
        | .ok (s3, o1) => unmarshalConLoop s3.rest.length n s3 o1 r
      else if s1.Type_ = ctaTupleReply then
        match s1.Nested (fun s2 => unmarshalTuple s2 r) with
        | .error e => .error e
        | .ok (s3, r1) => unmarshalConLoop s3.rest.length n s3 o r1
      else
        unmarshalConLoop s1.rest.length (n + 1) s1 o r := by
  have hlen := Next_rest_length hN
  cases f with
  | zero => omega
  | succ f =>
    have e : ∀ m s3 q q2, s3.rest = s1.rest →
        unmarshalConLoop f m s3 q q2 = unmarshalConLoop s3.rest.length m s3 q q2 :=
      fun m s3 q q2 hr => unmarshalConLoop_fuel _ _ m s3 q q2 (by rw [hr]; omega) (le_refl _)
    simp only [unmarshalConLoop, hN, Nat.add_sub_cancel, Nat.succ_ne_zero, if_false]
    split
    · cases hI : s1.Nested (fun s2 => unmarshalTuple s2 o) with
      | error x => rfl
      | ok r => exact e _ _ _ _ (Nested_rest hI)
    · split
      · cases hI : s1.Nested (fun s2 => unmarshalTuple s2 r) with
        | error x => rfl
        | ok r => exact e _ _ _ _ (Nested_rest hI)
      · exact e _ _ _ _ rfl


/-! ## `DecodeEvent` -/

theorem decodeLoop_append (msgs : List Message) (sc : AttributeScanner) (conns : List Con)
    (h : ∀ m ∈ msgs, (decodeMessage m).isOk = true) :
    ∃ sc1, decodeLoop msgs sc conns = .ok (sc1, conns ++ msgs.filterMap tupleOf) := by
  induction msgs generalizing sc conns with
  | nil => exact ⟨sc, by simp [decodeLoop]⟩
  | cons m msgs ih =>
    have hm := h m (List.mem_cons_self _ _)
    have hrest : ∀ x ∈ msgs, (decodeMessage x).isOk = true :=
      fun x hx => h x (List.mem_cons_of_mem _ hx)
    have hreset : sc.ResetTo m.Data = AttributeScanner.ResetTo NewAttributeScanner m.Data := rfl
    unfold decodeLoop
    rw [hreset]
    unfold decodeMessage at hm
    cases hU : unmarshalCon (AttributeScanner.ResetTo NewAttributeScanner m.Data) {} with
    | error p => rw [hU] at hm; simp [Except.isOk, Except.toBool] at hm
    | ok r =>
      obtain ⟨s1, c, e⟩ := r
      cases e with
      | none =>
        have ht : tupleOf m = some c := by simp [tupleOf, decodeMessage, hU]
        obtain ⟨sc1, h1⟩ := ih s1 (conns ++ [c]) hrest
        refine ⟨sc1, ?_⟩
        simp only [h1, List.filterMap_cons, ht, List.append_assoc, List.singleton_append]
      | some err =>
        have ht : tupleOf m = none := by simp [tupleOf, decodeMessage, hU]
        obtain ⟨sc1, h1⟩ := ih s1 conns hrest
        refine ⟨sc1, ?_⟩
        simp only [h1, List.filterMap_cons, ht]

theorem decodeLoop_panics (msgs : List Message) (sc : AttributeScanner) (conns : List Con)
    (h : ∃ m ∈ msgs, (decodeMessage m).isOk = false) :
    decodeLoop msgs sc conns = .error Panic.indexOutOfRange := by
  induction msgs generalizing sc conns with
  | nil => simp at h
  | cons m msgs ih =>
    have hreset : sc.ResetTo m.Data = AttributeScanner.ResetTo NewAttributeScanner m.Data := rfl
    unfold decodeLoop
    rw [hreset]
    cases hU : unmarshalCon (AttributeScanner.ResetTo NewAttributeScanner m.Data) {} with
    | error p => cases p; rfl
    | ok r =>
      obtain ⟨s1, c, e⟩ := r
      have hm : (decodeMessage m).isOk = true := by
        unfold decodeMessage; rw [hU]; cases e <;> rfl
      have hrest : ∃ x ∈ msgs, (decodeMessage x).isOk = false := by
        obtain ⟨x, hx, hx2⟩ := h
        rcases List.mem_cons.mp hx with rfl | hx
        · rw [hm] at hx2; cases hx2
        · exact ⟨x, hx, hx2⟩
      cases e with
      | none => exact ih s1 _ hrest
      | some err => exact ih s1 _ hrest

/-- C1: when the transport error of the batch is set, `DecodeEvent` returns that error
with the nil slice, whatever the messages of the batch are, and the scanner is left as
it was: no message is decoded. -/
theorem DecodeEvent_transport_error (scanner : AttributeScanner) (msgs : List Message)
    (err : Error) :
    DecodeEvent scanner { Reply := msgs, Error := some err } = .ok (scanner, none, some err) := by
  rfl

/-- C2: without a transport error, and when no message makes the decoder panic,
`DecodeEvent` returns, in input order, the tuples of the messages decoded one by one
(`tupleOf`), the messages whose decode returned an error being left out; a panicking
message makes the whole call panic. The result is no longer than the batch, a message
whose decode fails changes neither what comes before it nor what comes after it, and
the batch of `sampleMessage1`, `malformedMessage`, `sampleMessage3` gives the tuples of
the first and the third message. -/
theorem DecodeEvent_omits_failed_messages :
    (∀ (scanner : AttributeScanner) (msgs : List Message),
      (∀ m ∈ msgs, (decodeMessage m).isOk = true) →
      ∃ scanner1, DecodeEvent scanner { Reply := msgs, Error := none }
        = .ok (scanner1, some (msgs.filterMap tupleOf), none)) ∧
    (∀ (scanner : AttributeScanner) (msgs : List Message),
      (∃ m ∈ msgs, (decodeMessage m).isOk = false) →
      DecodeEvent scanner { Reply := msgs, Error := none } = .error Panic.indexOutOfRange) ∧
    (∀ msgs : List Message, (msgs.filterMap tupleOf).length ≤ msgs.length) ∧
    (∀ (before after : List Message) (m : Message), tupleOf m = none →
      (before ++ m :: after).filterMap tupleOf
        = before.filterMap tupleOf ++ after.filterMap tupleOf) ∧
    (∃ scanner1, DecodeEvent NewAttributeScanner
        { Reply := [sampleMessage1, malformedMessage, sampleMessage3], Error := none }
      = .ok (scanner1, some [sampleCon1, sampleCon3], none)) := by
  refine ⟨?_, ?_, ?_, ?_, ?_⟩
  · intro scanner msgs h
    obtain ⟨sc1, h1⟩ := decodeLoop_append msgs scanner [] h
    exact ⟨sc1, by simp [DecodeEvent, h1]⟩
  · intro scanner msgs h
    simp [DecodeEvent, decodeLoop_panics msgs scanner [] h]
  · intro msgs
    exact List.length_filterMap_le _ _
  · intro before after m hm
    simp [List.filterMap_append, List.filterMap_cons, hm]
  · exact ⟨_, rfl⟩


theorem DecodeEvent_omits_failed_messages_witness :
    (∀ m ∈ [sampleMessage1, malformedMessage, sampleMessage3],
        (decodeMessage m).isOk = true) ∧
    ∃ scanner1, DecodeEvent NewAttributeScanner
        { Reply := [sampleMessage1, malformedMessage, sampleMessage3], Error := none }
      = .ok (scanner1,
          some ([sampleMessage1, malformedMessage, sampleMessage3].filterMap tupleOf), none) :=
  ⟨by decide, DecodeEvent_omits_failed_messages.1 NewAttributeScanner _ (by decide)⟩

/-- C3: without a transport error `DecodeEvent` never returns an error. When no message
makes the decoder panic it returns a non-nil slice and the nil error; when every
message fails to decode the slice is empty; on a batch with no message it returns the
empty slice, the nil error and the scanner untouched. -/
theorem DecodeEvent_returns_no_error :
    (∀ (scanner scanner1 : AttributeScanner) (msgs : List Message) (conns : Option (List Con))
        (err : Error),
      DecodeEvent scanner { Reply := msgs, Error := none } ≠ .ok (scanner1, conns, some err)) ∧
    (∀ (scanner : AttributeScanner) (msgs : List Message),
      (∀ m ∈ msgs, (decodeMessage m).isOk = true) →
      ∃ scanner1 conns, DecodeEvent scanner { Reply := msgs, Error := none }
        = .ok (scanner1, some conns, none)) ∧
    (∀ (scanner : AttributeScanner) (msgs : List Message),
      (∀ m ∈ msgs, decodeMessage m = .ok none) →
      ∃ scanner1, DecodeEvent scanner { Reply := msgs, Error := none }
        = .ok (scanner1, some [], none)) ∧
    (∀ scanner : AttributeScanner,
      DecodeEvent scanner { Reply := [], Error := none } = .ok (scanner, some [], none)) := by
  refine ⟨?_, ?_, ?_, ?_⟩
  · intro scanner scanner1 msgs conns err h
    simp only [DecodeEvent] at h
    split at h <;> simp at h
  · intro scanner msgs h
    obtain ⟨sc1, h1⟩ := decodeLoop_append msgs scanner [] h
    exact ⟨sc1, _, by simp only [DecodeEvent, h1]; rfl⟩
  · intro scanner msgs h
    have hok : ∀ m ∈ msgs, (decodeMessage m).isOk = true := by
      intro m hm; rw [h m hm]; rfl
    have hnone : msgs.filterMap tupleOf = [] := by
      rw [List.filterMap_eq_nil_iff]
      intro m hm
      simp [tupleOf, h m hm]
    obtain ⟨sc1, h1⟩ := decodeLoop_append msgs scanner [] hok
    exact ⟨sc1, by simp only [DecodeEvent, h1, hnone, List.append_nil]⟩
  · intro scanner
    rfl

theorem DecodeEvent_returns_no_error_witness :
    (∀ m ∈ [malformedMessage, malformedMessage], decodeMessage m = .ok none) ∧
    ∃ scanner1, DecodeEvent NewAttributeScanner
        { Reply := [malformedMessage, malformedMessage], Error := none }
      = .ok (scanner1, some [], none) :=
  ⟨by decide, DecodeEvent_returns_no_error.2.2.1 NewAttributeScanner _ (by decide)⟩

theorem decodeLoop_invariant (P : Con → Prop) (hP : ∀ s s1 c c1 e,
      unmarshalCon s c = .ok (s1, c1, e) → P c1)
    (msgs : List Message) (sc sc1 : AttributeScanner) (conns out : List Con)
    (hc : ∀ c ∈ conns, P c) (h : decodeLoop msgs sc conns = .ok (sc1, out)) :
    ∀ c ∈ out, P c := by
  induction msgs generalizing sc conns with
  | nil =>
    simp only [decodeLoop, Except.ok.injEq, Prod.mk.injEq] at h
    rw [← h.2]; exact hc
  | cons m msgs ih =>
    unfold decodeLoop at h
    cases hU : unmarshalCon (sc.ResetTo m.Data) {} with
    | error p => rw [hU] at h; simp at h
    | ok r =>
      obtain ⟨s1, c, e⟩ := r
      rw [hU] at h
      cases e with
      | none =>
        refine ih s1 (conns ++ [c]) ?_ h
        intro x hx
        rcases List.mem_append.mp hx with hx | hx
        · exact hc x hx
        · rw [List.mem_singleton.mp hx]; exact hP _ _ _ _ _ hU
      | some err => exact ih s1 conns hc h

/-- C8: every tuple that `unmarshalCon` produces has its `Origin` and its `Reply` set
(non-nil), and so has every element of the slice returned by `DecodeEvent`. On a buffer
with no byte left both are the empty `IPTuple` and the scanner is untouched; on a
buffer that holds only an attribute of type 9 both are the empty `IPTuple` as well. -/
theorem unmarshalCon_containers_non_nil :
    (∀ (s s1 : AttributeScanner) (c c1 : Con) (e : Option Error),
      unmarshalCon s c = .ok (s1, c1, e) → c1.Origin.isSome = true ∧ c1.Reply.isSome = true) ∧
    (∀ (scanner scanner1 : AttributeScanner) (ev : Event) (conns : List Con)
        (e : Option Error),
      DecodeEvent scanner ev = .ok (scanner1, some conns, e) →
      ∀ c ∈ conns, c.Origin.isSome = true ∧ c.Reply.isSome = true) ∧
    (∀ (s : AttributeScanner) (c : Con), s.rest = [] →
      unmarshalCon s c = .ok (s, { Origin := some {}, Reply := some {} }, s.err)) ∧
    (unmarshalCon (AttributeScanner.ResetTo NewAttributeScanner [8, 0, 9, 0, 1, 2, 3, 4]) {}
      = .ok ({ rest := [], typ := 9, data := [1, 2, 3, 4], err := none },
             { Origin := some {}, Reply := some {} }, none)) := by
  have h1 : ∀ (s s1 : AttributeScanner) (c c1 : Con) (e : Option Error),
      unmarshalCon s c = .ok (s1, c1, e) →
        c1.Origin.isSome = true ∧ c1.Reply.isSome = true := by
    intro s s1 c c1 e h
    unfold unmarshalCon at h
    split at h
    · simp at h
    · simp only [Except.ok.injEq, Prod.mk.injEq] at h
      rw [← h.2.1]
      exact ⟨rfl, rfl⟩
  refine ⟨h1, ?_, ?_, ?_⟩
  · intro scanner scanner1 ev conns e h
    unfold DecodeEvent at h
    split at h
    · simp at h
    · cases hL : decodeLoop ev.Reply scanner [] with
      | error p => rw [hL] at h; simp at h
      | ok r =>
        obtain ⟨s1, out⟩ := r
        rw [hL] at h
        simp only [Except.ok.injEq, Prod.mk.injEq, Option.some.injEq] at h
        rw [← h.2.1]
        exact decodeLoop_invariant (fun c => c.Origin.isSome = true ∧ c.Reply.isSome = true)
          h1 _ _ _ _ _ (by simp) hL
  · intro s c hs
    unfold unmarshalCon
    rw [unmarshalConLoop_nil _ _ _ _ _ hs]
    rfl
  · rfl

theorem unmarshalCon_containers_non_nil_witness :
    unmarshalCon (AttributeScanner.ResetTo NewAttributeScanner malformedMessage.Data) {}
      = .ok ({ rest := [], typ := 1, data := [3, 0, 1, 0], err := some Error.invalidAttribute },
          { Origin := some {}, Reply := some {} }, some Error.invalidAttribute) ∧
    ((some ({} : IPTuple)).isSome = true ∧ (some ({} : IPTuple)).isSome = true) :=
  ⟨by rfl, unmarshalCon_containers_non_nil.1 _ _ {} _ _
    (show unmarshalCon (AttributeScanner.ResetTo NewAttributeScanner malformedMessage.Data) {}
      = .ok ({ rest := [], typ := 1, data := [3, 0, 1, 0], err := some Error.invalidAttribute },
          { Origin := some {}, Reply := some {} }, some Error.invalidAttribute) from rfl)⟩


/-! ## `unmarshalProto`: values shorter than the field that is read -/

/-- C4: evaluation at the failing inputs. A message whose protocol tuple holds a
proto-num attribute with an empty value makes `unmarshalCon` panic (`s.Bytes()[0]`), and
so does one whose port attribute has a value of 0 bytes or of 1 byte
(`binary.BigEndian.Uint16`); the panic is not absorbed by `DecodeEvent`. -/
theorem unmarshalCon_panics_on_short_proto_value :
    unmarshalCon (AttributeScanner.ResetTo NewAttributeScanner
        [12, 0, 1, 0, 8, 0, 2, 0, 4, 0, 1, 0]) {}
      = .error Panic.indexOutOfRange ∧
    unmarshalCon (AttributeScanner.ResetTo NewAttributeScanner
        [12, 0, 1, 0, 8, 0, 2, 0, 4, 0, 2, 0]) {}
      = .error Panic.indexOutOfRange ∧
    unmarshalCon (AttributeScanner.ResetTo NewAttributeScanner
        [16, 0, 2, 0, 12, 0, 2, 0, 5, 0, 3, 0, 80, 0, 0, 0]) {}
      = .error Panic.indexOutOfRange ∧
    DecodeEvent NewAttributeScanner
        { Reply := [sampleMessage1, ⟨[12, 0, 1, 0, 8, 0, 2, 0, 4, 0, 1, 0]⟩], Error := none }
      = .error Panic.indexOutOfRange := by
  refine ⟨?_, ?_, ?_, ?_⟩ <;> rfl

/-- C5: evaluation at the failing input. In a protocol tuple that holds the protocol
number 6 followed by a proto-src-port attribute with a 1-byte value, `unmarshalProto`
panics: it neither records a malformed-attribute error nor returns the protocol number
already decoded. The same holds for a 1-byte proto-dst-port value and when the
protocol tuple sits inside a message given to `unmarshalCon`. -/
theorem unmarshalProto_panics_on_truncated_port :
    (∀ t : IPTuple, unmarshalProto
        { rest := [5, 0, 1, 0, 6, 0, 0, 0, 5, 0, 2, 0, 80, 0, 0, 0] } t
      = .error Panic.indexOutOfRange) ∧
    (∀ t : IPTuple, unmarshalProto
        { rest := [5, 0, 1, 0, 6, 0, 0, 0, 5, 0, 3, 0, 80, 0, 0, 0] } t
      = .error Panic.indexOutOfRange) ∧
    unmarshalCon (AttributeScanner.ResetTo NewAttributeScanner
        [24, 0, 1, 0, 20, 0, 2, 0, 5, 0, 1, 0, 6, 0, 0, 0, 5, 0, 2, 0, 80, 0, 0, 0]) {}
      = .error Panic.indexOutOfRange := by
  refine ⟨?_, ?_, ?_⟩
  · intro t; rfl
  · intro t; rfl
  · rfl

/-! ## Ports are read in network byte order -/

theorem bigEndianUint16_pair (b0 b1 : Byte) (tail : List Byte) :
    bigEndianUint16 (b0 :: b1 :: tail) = .ok (256 * b0.val + b1.val) := by
  have h0 := b0.isLt
  have h1 := b1.isLt
  have hor : 2 ^ 8 * b0.val + b1.val = 2 ^ 8 * b0.val ||| b1.val :=
    Nat.mul_add_lt_is_or (by omega) _
  simp only [bigEndianUint16, Nat.shiftLeft_eq]
  rw [Nat.mod_eq_of_lt (by omega : b0.val * 2 ^ 8 < 65536), Nat.lor_comm,
    Nat.mul_comm b0.val, ← hor, Nat.mod_eq_of_lt (by omega)]
  norm_num

/-! ## Nested scopes -/

theorem copySlice_eq (src : List Byte) : copySlice src = src := by
  simp [copySlice, goCopy]

theorem encodeAttr_length (typ : Nat) (value : List Byte) :
    (encodeAttr typ value).length = nlaHeaderLen + nlaAlign value.length := by
  have := nlaAlign_ge value.length
  simp only [encodeAttr, putHostUint16, List.length_append, List.length_cons, List.length_nil,
    List.length_replicate, nlaHeaderLen]
  omega

theorem unmarshalProto_err {s s1 : AttributeScanner} {t t1 : IPTuple} {e : Option Error}
    (h : unmarshalProto s t = .ok (s1, t1, e)) : e = s1.err := by
  unfold unmarshalProto at h
  split at h
  · simp at h
  · simp only [Except.ok.injEq, Prod.mk.injEq] at h
    rw [← h.2.2, ← h.1]; rfl

theorem unmarshalTupleIP_err {s s1 : AttributeScanner} {t t1 : IPTuple} {e : Option Error}
    (h : unmarshalTupleIP s t = .ok (s1, t1, e)) : e = s1.err := by
  unfold unmarshalTupleIP at h
  simp only [Except.ok.injEq, Prod.mk.injEq] at h
  rw [← h.2.2, ← h.1]; rfl

theorem unmarshalTuple_err {s s1 : AttributeScanner} {t t1 : IPTuple} {e : Option Error}
    (h : unmarshalTuple s t = .ok (s1, t1, e)) : e = s1.err := by
  unfold unmarshalTuple at h
  split at h
  · simp at h
  · simp only [Except.ok.injEq, Prod.mk.injEq] at h
    rw [← h.2.2, ← h.1]; rfl

/-- `Nested` around a decoder that returns the scanner's own error: the error recorded
afterwards is the one the inner scope left, and the outer cursor is restored. -/
theorem Nested_of_err {α : Type} (s : AttributeScanner)
    (fn : AttributeScanner → Except Panic (AttributeScanner × α × Option Error))
    (hfn : ∀ s2 s1 a e, fn s2 = .ok (s1, a, e) → e = s1.err) :
    s.Nested fn =
      match fn { rest := s.data, typ := 0, data := [], err := s.err } with
      | .error p => .error p
      | .ok (s1, a, _) => .ok ({ s with err := s1.err }, a) := by
  unfold AttributeScanner.Nested
  cases h : fn { rest := s.data, typ := 0, data := [], err := s.err } with
  | error p => rfl
  | ok r =>
    obtain ⟨s1, a, e⟩ := r
    have he := hfn _ _ _ _ h
    subst he
    cases h1 : s1.err with
    | none => simp [h1]
    | some x => simp [h1, AttributeScanner.record]


/-! ## One encoded attribute at the head of a level -/

theorem unmarshalProtoLoop_num {f : Nat} (n : Nat) (p : ProtoTuple)
    {ty0 : Nat} {d0 : List Byte} {err : Option Error}
    {typ : Nat} {b : Byte} {vs tail : List Byte}
    (ht : typ < 65536) (hm : typ % (nlaTypeMask + 1) = ctaProtoNum)
    (hv : nlaHeaderLen + (b :: vs).length < 65536)
    (hf : (encodeAttr typ (b :: vs) ++ tail).length ≤ f) :
    unmarshalProtoLoop f (n + 1) ⟨encodeAttr typ (b :: vs) ++ tail, ty0, d0, err⟩ p =
      unmarshalProtoLoop tail.length n ⟨tail, typ, b :: vs, err⟩
        { p with Number := some b.val } := by
  have hN :=
    Next_encodeAttr ⟨encodeAttr typ (b :: vs) ++ tail, ty0, d0, err⟩ typ (b :: vs) tail ht hv rfl
  have hb : b.val % 256 = b.val := Nat.mod_eq_of_lt b.isLt
  rw [unmarshalProtoLoop_step n p hf hN]
  simp [AttributeScanner.Type_, AttributeScanner.Bytes, hm, firstByte, hb]

theorem unmarshalProtoLoop_srcPort {f : Nat} (n : Nat) (p : ProtoTuple)
    {ty0 : Nat} {d0 : List Byte} {err : Option Error}
    {typ : Nat} {b0 b1 : Byte} {vs tail : List Byte}
    (ht : typ < 65536) (hm : typ % (nlaTypeMask + 1) = ctaProtoSrcPort)
    (hv : nlaHeaderLen + (b0 :: b1 :: vs).length < 65536)
    (hf : (encodeAttr typ (b0 :: b1 :: vs) ++ tail).length ≤ f) :
    unmarshalProtoLoop f (n + 1) ⟨encodeAttr typ (b0 :: b1 :: vs) ++ tail, ty0, d0, err⟩ p =
      unmarshalProtoLoop tail.length n
        ⟨tail, typ, b0 :: b1 :: vs, err⟩
        { p with SrcPort := some (256 * b0.val + b1.val) } := by
  have hN :=
    Next_encodeAttr ⟨encodeAttr typ (b0 :: b1 :: vs) ++ tail, ty0, d0, err⟩ typ (b0 :: b1 :: vs) tail ht hv rfl
  rw [unmarshalProtoLoop_step n p hf hN]
  simp [AttributeScanner.Type_, AttributeScanner.Bytes, hm, bigEndianUint16_pair,
    ctaProtoSrcPort, ctaProtoNum]

theorem unmarshalProtoLoop_dstPort {f : Nat} (n : Nat) (p : ProtoTuple)
    {ty0 : Nat} {d0 : List Byte} {err : Option Error}
    {typ : Nat} {b0 b1 : Byte} {vs tail : List Byte}
    (ht : typ < 65536) (hm : typ % (nlaTypeMask + 1) = ctaProtoDstPort)
    (hv : nlaHeaderLen + (b0 :: b1 :: vs).length < 65536)
    (hf : (encodeAttr typ (b0 :: b1 :: vs) ++ tail).length ≤ f) :
    unmarshalProtoLoop f (n + 1) ⟨encodeAttr typ (b0 :: b1 :: vs) ++ tail, ty0, d0, err⟩ p =
      unmarshalProtoLoop tail.length n
        ⟨tail, typ, b0 :: b1 :: vs, err⟩
        { p with DstPort := some (256 * b0.val + b1.val) } := by
  have hN :=
    Next_encodeAttr ⟨encodeAttr typ (b0 :: b1 :: vs) ++ tail, ty0, d0, err⟩ typ (b0 :: b1 :: vs) tail ht hv rfl
  rw [unmarshalProtoLoop_step n p hf hN]
  simp [AttributeScanner.Type_, AttributeScanner.Bytes, hm, bigEndianUint16_pair,
    ctaProtoSrcPort, ctaProtoNum, ctaProtoDstPort]

theorem unmarshalProtoLoop_skip {f : Nat} (n : Nat) (p : ProtoTuple)
    {ty0 : Nat} {d0 : List Byte} {err : Option Error}
    {typ : Nat} {value tail : List Byte}
    (ht : typ < 65536) (h1 : typ % (nlaTypeMask + 1) ≠ ctaProtoNum)
    (h2 : typ % (nlaTypeMask + 1) ≠ ctaProtoSrcPort)
    (h3 : typ % (nlaTypeMask + 1) ≠ ctaProtoDstPort)
    (hv : nlaHeaderLen + value.length < 65536)
    (hf : (encodeAttr typ value ++ tail).length ≤ f) :
    unmarshalProtoLoop f (n + 1) ⟨encodeAttr typ value ++ tail, ty0, d0, err⟩ p =
      unmarshalProtoLoop tail.length (n + 1)
        ⟨tail, typ, value, err⟩ p := by
  have hN := Next_encodeAttr ⟨encodeAttr typ value ++ tail, ty0, d0, err⟩ typ value tail ht hv rfl
  rw [unmarshalProtoLoop_step n p hf hN]
  simp [AttributeScanner.Type_, h1, h2, h3]

theorem unmarshalTupleIPLoop_src {f : Nat} (n : Nat) (t : IPTuple)
    {ty0 : Nat} {d0 : List Byte} {err : Option Error}
    {typ : Nat} {value tail : List Byte}
    (ht : typ < 65536)
    (hm : typ % (nlaTypeMask + 1) = ctaIPv4Src ∨ typ % (nlaTypeMask + 1) = ctaIPv6Src)
    (hv : nlaHeaderLen + value.length < 65536)
    (hf : (encodeAttr typ value ++ tail).length ≤ f) :
    unmarshalTupleIPLoop f (n + 1) ⟨encodeAttr typ value ++ tail, ty0, d0, err⟩ t =
      unmarshalTupleIPLoop tail.length n ⟨tail, typ, value, err⟩
        { t with Src := some value } := by
  have hN := Next_encodeAttr ⟨encodeAttr typ value ++ tail, ty0, d0, err⟩ typ value tail ht hv rfl
  rw [unmarshalTupleIPLoop_step n t hf hN]
  simp [AttributeScanner.Type_, AttributeScanner.Bytes, hm, copySlice_eq]

theorem unmarshalTupleIPLoop_dst {f : Nat} (n : Nat) (t : IPTuple)
    {ty0 : Nat} {d0 : List Byte} {err : Option Error}
    {typ : Nat} {value tail : List Byte}
    (ht : typ < 65536)
    (hm : typ % (nlaTypeMask + 1) = ctaIPv4Dst ∨ typ % (nlaTypeMask + 1) = ctaIPv6Dst)
    (hv : nlaHeaderLen + value.length < 65536)
    (hf : (encodeAttr typ value ++ tail).length ≤ f) :
    unmarshalTupleIPLoop f (n + 1) ⟨encodeAttr typ value ++ tail, ty0, d0, err⟩ t =
      unmarshalTupleIPLoop tail.length n ⟨tail, typ, value, err⟩
        { t with Dst := some value } := by
  have hN := Next_encodeAttr ⟨encodeAttr typ value ++ tail, ty0, d0, err⟩ typ value tail ht hv rfl
  have hns :
      ¬ (typ % (nlaTypeMask + 1) = ctaIPv4Src ∨ typ % (nlaTypeMask + 1) = ctaIPv6Src) := by
    simp only [ctaIPv4Src, ctaIPv6Src, ctaIPv4Dst, ctaIPv6Dst] at hm ⊢
    omega
  rw [unmarshalTupleIPLoop_step n t hf hN]
  simp [AttributeScanner.Type_, AttributeScanner.Bytes, hm, hns, copySlice_eq]

theorem unmarshalTupleIPLoop_skip {f : Nat} (n : Nat) (t : IPTuple)
    {ty0 : Nat} {d0 : List Byte} {err : Option Error}
    {typ : Nat} {value tail : List Byte}
    (ht : typ < 65536)
    (h1 : ¬ (typ % (nlaTypeMask + 1) = ctaIPv4Src ∨ typ % (nlaTypeMask + 1) = ctaIPv6Src))
    (h2 : ¬ (typ % (nlaTypeMask + 1) = ctaIPv4Dst ∨ typ % (nlaTypeMask + 1) = ctaIPv6Dst))
    (hv : nlaHeaderLen + value.length < 65536)
    (hf : (encodeAttr typ value ++ tail).length ≤ f) :
    unmarshalTupleIPLoop f (n + 1) ⟨encodeAttr typ value ++ tail, ty0, d0, err⟩ t =
      unmarshalTupleIPLoop tail.length (n + 1)
        ⟨tail, typ, value, err⟩ t := by
  have hN := Next_encodeAttr ⟨encodeAttr typ value ++ tail, ty0, d0, err⟩ typ value tail ht hv rfl
  rw [unmarshalTupleIPLoop_step n t hf hN]
  simp only [AttributeScanner.Type_, if_neg h1, if_neg h2]

theorem unmarshalTupleLoop_ip {f : Nat} (n : Nat) (t : IPTuple)
    {ty0 : Nat} {d0 : List Byte} {err : Option Error}
    {typ : Nat} {value tail : List Byte}
    (ht : typ < 65536) (hm : typ % (nlaTypeMask + 1) = ctaTupleIP)
    (hv : nlaHeaderLen + value.length < 65536)
    (hf : (encodeAttr typ value ++ tail).length ≤ f) :
    unmarshalTupleLoop f (n + 1) ⟨encodeAttr typ value ++ tail, ty0, d0, err⟩ t =
      match unmarshalTupleIP { rest := value, typ := 0, data := [], err := err } t with
      | .error e => .error e
      | .ok (s1, t1, _) =>
        unmarshalTupleLoop tail.length n
          { rest := tail, typ := typ, data := value, err := s1.err } t1 := by
  have hN := Next_encodeAttr ⟨encodeAttr typ value ++ tail, ty0, d0, err⟩ typ value tail ht hv rfl
  rw [unmarshalTupleLoop_step n t hf hN,
    Nested_of_err _ _ (fun _ _ _ _ h => unmarshalTupleIP_err h)]
  simp only [AttributeScanner.Type_, hm, if_true]
  cases unmarshalTupleIP { rest := value, typ := 0, data := [], err := err } t <;> rfl

theorem unmarshalTupleLoop_proto {f : Nat} (n : Nat) (t : IPTuple)
    {ty0 : Nat} {d0 : List Byte} {err : Option Error}
    {typ : Nat} {value tail : List Byte}
    (ht : typ < 65536) (hm : typ % (nlaTypeMask + 1) = ctaTupleProto)
    (hv : nlaHeaderLen + value.length < 65536)
    (hf : (encodeAttr typ value ++ tail).length ≤ f) :
    unmarshalTupleLoop f (n + 1) ⟨encodeAttr typ value ++ tail, ty0, d0, err⟩ t =
      match unmarshalProto { rest := value, typ := 0, data := [], err := err } t with
      | .error e => .error e
      | .ok (s1, t1, _) =>
        unmarshalTupleLoop tail.length n
          { rest := tail, typ := typ, data := value, err := s1.err } t1 := by
  have hN := Next_encodeAttr ⟨encodeAttr typ value ++ tail, ty0, d0, err⟩ typ value tail ht hv rfl
  have hne : ¬ (ctaTupleProto = ctaTupleIP) := by decide
  rw [unmarshalTupleLoop_step n t hf hN,
    Nested_of_err _ _ (fun _ _ _ _ h => unmarshalProto_err h)]
  simp only [AttributeScanner.Type_, hm, if_true, if_neg hne]
  cases unmarshalProto { rest := value, typ := 0, data := [], err := err } t <;> rfl

theorem unmarshalTupleLoop_skip {f : Nat} (n : Nat) (t : IPTuple)
    {ty0 : Nat} {d0 : List Byte} {err : Option Error}
    {typ : Nat} {value tail : List Byte}
    (ht : typ < 65536) (h1 : typ % (nlaTypeMask + 1) ≠ ctaTupleIP)
    (h2 : typ % (nlaTypeMask + 1) ≠ ctaTupleProto)
    (hv : nlaHeaderLen + value.length < 65536)
    (hf : (encodeAttr typ value ++ tail).length ≤ f) :
    unmarshalTupleLoop f (n + 1) ⟨encodeAttr typ value ++ tail, ty0, d0, err⟩ t =
      unmarshalTupleLoop tail.length (n + 1)
        ⟨tail, typ, value, err⟩ t := by
  have hN := Next_encodeAttr ⟨encodeAttr typ value ++ tail, ty0, d0, err⟩ typ value tail ht hv rfl
  rw [unmarshalTupleLoop_step n t hf hN]
  simp only [AttributeScanner.Type_, if_neg h1, if_neg h2]

theorem unmarshalConLoop_orig {f : Nat} (n : Nat) (o r : IPTuple)
    {ty0 : Nat} {d0 : List Byte} {err : Option Error}
    {typ : Nat} {value tail : List Byte}
    (ht : typ < 65536) (hm : typ % (nlaTypeMask + 1) = ctaTupleOrig)
    (hv : nlaHeaderLen + value.length < 65536)
    (hf : (encodeAttr typ value ++ tail).length ≤ f) :
    unmarshalConLoop f (n + 1) ⟨encodeAttr typ value ++ tail, ty0, d0, err⟩ o r =
      match unmarshalTuple { rest := value, typ := 0, data := [], err := err } o with
      | .error e => .error e
      | .ok (s1, o1, _) =>
        unmarshalConLoop tail.length n
          { rest := tail, typ := typ, data := value, err := s1.err } o1 r := by
  have hN := Next_encodeAttr ⟨encodeAttr typ value ++ tail, ty0, d0, err⟩ typ value tail ht hv rfl
  rw [unmarshalConLoop_step n o r hf hN,
    Nested_of_err _ _ (fun _ _ _ _ h => unmarshalTuple_err h)]
  simp only [AttributeScanner.Type_, hm, if_true]
  cases unmarshalTuple { rest := value, typ := 0, data := [], err := err } o <;> rfl

theorem unmarshalConLoop_reply {f : Nat} (n : Nat) (o r : IPTuple)
    {ty0 : Nat} {d0 : List Byte} {err : Option Error}
    {typ : Nat} {value tail : List Byte}
    (ht : typ < 65536) (hm : typ % (nlaTypeMask + 1) = ctaTupleReply)
    (hv : nlaHeaderLen + value.length < 65536)
    (hf : (encodeAttr typ value ++ tail).length ≤ f) :
    unmarshalConLoop f (n + 1) ⟨encodeAttr typ value ++ tail, ty0, d0, err⟩ o r =
      match unmarshalTuple { rest := value, typ := 0, data := [], err := err } r with
      | .error e => .error e
      | .ok (s1, r1, _) =>
        unmarshalConLoop tail.length n
          { rest := tail, typ := typ, data := value, err := s1.err } o r1 := by
  have hN := Next_encodeAttr ⟨encodeAttr typ value ++ tail, ty0, d0, err⟩ typ value tail ht hv rfl
  have hne : ¬ (ctaTupleReply = ctaTupleOrig) := by decide
  rw [unmarshalConLoop_step n o r hf hN]
  simp only [AttributeScanner.Type_, hm, if_true, if_neg hne]
  rw [Nested_of_err _ _ (fun _ _ _ _ h => unmarshalTuple_err h)]
  cases unmarshalTuple { rest := value, typ := 0, data := [], err := err } r <;> rfl

theorem unmarshalConLoop_skip {f : Nat} (n : Nat) (o r : IPTuple)
    {ty0 : Nat} {d0 : List Byte} {err : Option Error}
    {typ : Nat} {value tail : List Byte}
    (ht : typ < 65536) (h1 : typ % (nlaTypeMask + 1) ≠ ctaTupleOrig)
    (h2 : typ % (nlaTypeMask + 1) ≠ ctaTupleReply)
    (hv : nlaHeaderLen + value.length < 65536)
    (hf : (encodeAttr typ value ++ tail).length ≤ f) :
    unmarshalConLoop f (n + 1) ⟨encodeAttr typ value ++ tail, ty0, d0, err⟩ o r =
      unmarshalConLoop tail.length (n + 1)
        ⟨tail, typ, value, err⟩ o r := by
  have hN := Next_encodeAttr ⟨encodeAttr typ value ++ tail, ty0, d0, err⟩ typ value tail ht hv rfl
  rw [unmarshalConLoop_step n o r hf hN]
  simp only [AttributeScanner.Type_, if_neg h1, if_neg h2]


/-! ## The port a protocol tuple decodes to -/

/-- C9: a proto-src-port attribute whose value is the two bytes `b0, b1` is decoded to the
source port `256 * b0 + b1`, and a proto-dst-port attribute to that destination port, for
all bytes `b0` and `b1`. On a protocol tuple that holds the attribute alone,
`unmarshalProto` returns the tuple whose `Proto` has that port and no other field, with
the error the scanner held before; on the protocol tuple `proto-num, proto-src-port,
proto-dst-port` it returns the protocol number and both ports, each with its big-endian
value. In the loop, whatever has been decoded before and whatever the countdown, a port
attribute that ends the protocol tuple sets its port and keeps the other fields. Inside
a message, `unmarshalCon` returns the port in `Origin.Proto`. The value is below 65536,
and the value `0x00, 0x50` decodes to port 80. -/
theorem unmarshalProto_port_network_byte_order :
    (∀ (b0 b1 : Byte) (ty0 : Nat) (d0 : List Byte) (err : Option Error) (t : IPTuple),
      unmarshalProto ⟨encodeAttr ctaProtoSrcPort [b0, b1], ty0, d0, err⟩ t =
        .ok (⟨[], ctaProtoSrcPort, [b0, b1], err⟩,
             { Src := t.Src, Dst := t.Dst,
               Proto := some { Number := none, SrcPort := some (256 * b0.val + b1.val),
                               DstPort := none } }, err)) ∧
    (∀ (b0 b1 : Byte) (ty0 : Nat) (d0 : List Byte) (err : Option Error) (t : IPTuple),
      unmarshalProto ⟨encodeAttr ctaProtoDstPort [b0, b1], ty0, d0, err⟩ t =
        .ok (⟨[], ctaProtoDstPort, [b0, b1], err⟩,
             { Src := t.Src, Dst := t.Dst,
               Proto := some { Number := none, SrcPort := none,
                               DstPort := some (256 * b0.val + b1.val) } }, err)) ∧
    (∀ (num b0 b1 c0 c1 : Byte) (ty0 : Nat) (d0 : List Byte) (err : Option Error)
        (t : IPTuple),
      unmarshalProto
          ⟨encodeAttr ctaProtoNum [num] ++
            (encodeAttr ctaProtoSrcPort [b0, b1] ++ encodeAttr ctaProtoDstPort [c0, c1]),
            ty0, d0, err⟩ t =
        .ok (⟨[], ctaProtoDstPort, [c0, c1], err⟩,
             { Src := t.Src, Dst := t.Dst,
               Proto := some { Number := some num.val,
                               SrcPort := some (256 * b0.val + b1.val),
                               DstPort := some (256 * c0.val + c1.val) } }, err)) ∧
    (∀ (f n : Nat) (p : ProtoTuple) (b0 b1 : Byte) (ty0 : Nat) (d0 : List Byte)
        (err : Option Error),
      (encodeAttr ctaProtoSrcPort [b0, b1]).length ≤ f →
      unmarshalProtoLoop f (n + 1) ⟨encodeAttr ctaProtoSrcPort [b0, b1], ty0, d0, err⟩ p =
        .ok (⟨[], ctaProtoSrcPort, [b0, b1], err⟩,
             { Number := p.Number, SrcPort := some (256 * b0.val + b1.val),
               DstPort := p.DstPort })) ∧
    (∀ (f n : Nat) (p : ProtoTuple) (b0 b1 : Byte) (ty0 : Nat) (d0 : List Byte)
        (err : Option Error),
      (encodeAttr ctaProtoDstPort [b0, b1]).length ≤ f →
      unmarshalProtoLoop f (n + 1) ⟨encodeAttr ctaProtoDstPort [b0, b1], ty0, d0, err⟩ p =
        .ok (⟨[], ctaProtoDstPort, [b0, b1], err⟩,
             { Number := p.Number, SrcPort := p.SrcPort,
               DstPort := some (256 * b0.val + b1.val) })) ∧
    (∀ (b0 b1 : Byte) (c : Con),
      unmarshalCon (AttributeScanner.ResetTo NewAttributeScanner
          (encodeAttr ctaTupleOrig
            (encodeAttr ctaTupleProto (encodeAttr ctaProtoSrcPort [b0, b1])))) c =
        .ok (⟨[], ctaTupleOrig, encodeAttr ctaTupleProto (encodeAttr ctaProtoSrcPort [b0, b1]),
              none⟩,
             { Origin := some { Src := none, Dst := none,
                                Proto := some { Number := none,
                                                SrcPort := some (256 * b0.val + b1.val),
                                                DstPort := none } },
               Reply := some {} }, none)) ∧
    (∀ (b0 b1 : Byte) (c : Con),
      unmarshalCon (AttributeScanner.ResetTo NewAttributeScanner
          (encodeAttr ctaTupleReply
            (encodeAttr ctaTupleProto (encodeAttr ctaProtoDstPort [b0, b1])))) c =
        .ok (⟨[], ctaTupleReply, encodeAttr ctaTupleProto (encodeAttr ctaProtoDstPort [b0, b1]),
              none⟩,
             { Origin := some {},
               Reply := some { Src := none, Dst := none,
                               Proto := some { Number := none, SrcPort := none,
                                               DstPort := some (256 * b0.val + b1.val) } } },
             none)) ∧
    (∀ b0 b1 : Byte, 256 * b0.val + b1.val < 65536) ∧
    (∀ t : IPTuple, unmarshalProto { rest := encodeAttr ctaProtoSrcPort [0x00, 0x50] } t
      = .ok ({ rest := [], typ := ctaProtoSrcPort, data := [0x00, 0x50] },
             { t with Proto := some { SrcPort := some 80 } }, none)) := by
  have hlS : ∀ (f n : Nat) (p : ProtoTuple) (b0 b1 : Byte) (ty0 : Nat) (d0 : List Byte)
      (err : Option Error),
      (encodeAttr ctaProtoSrcPort [b0, b1]).length ≤ f →
      unmarshalProtoLoop f (n + 1) ⟨encodeAttr ctaProtoSrcPort [b0, b1], ty0, d0, err⟩ p =
        .ok (⟨[], ctaProtoSrcPort, [b0, b1], err⟩,
             { Number := p.Number, SrcPort := some (256 * b0.val + b1.val),
               DstPort := p.DstPort }) := by
    intro f n p b0 b1 ty0 d0 err hf
    have h : unmarshalProtoLoop f (n + 1)
        ⟨encodeAttr ctaProtoSrcPort [b0, b1] ++ [], ty0, d0, err⟩ p = _ :=
      unmarshalProtoLoop_srcPort n p (by decide) (by decide) (by simp [nlaHeaderLen])
        (by simpa using hf)
    rw [List.append_nil] at h
    rw [h]
    exact unmarshalProtoLoop_nil _ _ _ _ rfl
  have hlD : ∀ (f n : Nat) (p : ProtoTuple) (b0 b1 : Byte) (ty0 : Nat) (d0 : List Byte)
      (err : Option Error),
      (encodeAttr ctaProtoDstPort [b0, b1]).length ≤ f →
      unmarshalProtoLoop f (n + 1) ⟨encodeAttr ctaProtoDstPort [b0, b1], ty0, d0, err⟩ p =
        .ok (⟨[], ctaProtoDstPort, [b0, b1], err⟩,
             { Number := p.Number, SrcPort := p.SrcPort,
               DstPort := some (256 * b0.val + b1.val) }) := by
    intro f n p b0 b1 ty0 d0 err hf
    have h : unmarshalProtoLoop f (n + 1)
        ⟨encodeAttr ctaProtoDstPort [b0, b1] ++ [], ty0, d0, err⟩ p = _ :=
      unmarshalProtoLoop_dstPort n p (by decide) (by decide) (by simp [nlaHeaderLen])
        (by simpa using hf)
    rw [List.append_nil] at h
    rw [h]
    exact unmarshalProtoLoop_nil _ _ _ _ rfl
  have hS : ∀ (b0 b1 : Byte) (ty0 : Nat) (d0 : List Byte) (err : Option Error) (t : IPTuple),
      unmarshalProto ⟨encodeAttr ctaProtoSrcPort [b0, b1], ty0, d0, err⟩ t =
        .ok (⟨[], ctaProtoSrcPort, [b0, b1], err⟩,
             { Src := t.Src, Dst := t.Dst,
               Proto := some { Number := none, SrcPort := some (256 * b0.val + b1.val),
                               DstPort := none } }, err) := by
    intro b0 b1 ty0 d0 err t
    simp only [unmarshalProto, hlS _ 2 {} b0 b1 ty0 d0 err (le_refl _), AttributeScanner.Err]
  have hD : ∀ (b0 b1 : Byte) (ty0 : Nat) (d0 : List Byte) (err : Option Error) (t : IPTuple),
      unmarshalProto ⟨encodeAttr ctaProtoDstPort [b0, b1], ty0, d0, err⟩ t =
        .ok (⟨[], ctaProtoDstPort, [b0, b1], err⟩,
             { Src := t.Src, Dst := t.Dst,
               Proto := some { Number := none, SrcPort := none,
                               DstPort := some (256 * b0.val + b1.val) } }, err) := by
    intro b0 b1 ty0 d0 err t
    simp only [unmarshalProto, hlD _ 2 {} b0 b1 ty0 d0 err (le_refl _), AttributeScanner.Err]
  have hfit : ∀ b0 b1 : Byte, ∀ typ : Nat,
      (encodeAttr typ [b0, b1]).length = 8 := by
    intro b0 b1 typ
    simp [encodeAttr_length, nlaHeaderLen, nlaAlign]
  refine ⟨hS, hD, ?_, hlS, hlD, ?_, ?_, ?_, ?_⟩
  · intro num b0 b1 c0 c1 ty0 d0 err t
    have hloop : unmarshalProtoLoop
        (encodeAttr ctaProtoNum [num] ++
          (encodeAttr ctaProtoSrcPort [b0, b1] ++ encodeAttr ctaProtoDstPort [c0, c1])).length 3
        ⟨encodeAttr ctaProtoNum [num] ++
          (encodeAttr ctaProtoSrcPort [b0, b1] ++ encodeAttr ctaProtoDstPort [c0, c1]),
          ty0, d0, err⟩ {} =
        .ok (⟨[], ctaProtoDstPort, [c0, c1], err⟩,
          { Number := some num.val, SrcPort := some (256 * b0.val + b1.val),
            DstPort := some (256 * c0.val + c1.val) }) := by
      rw [unmarshalProtoLoop_num 2 _ (by decide) (by decide) (by simp [nlaHeaderLen])
          (le_refl _),
        unmarshalProtoLoop_srcPort 1 _ (by decide) (by decide) (by simp [nlaHeaderLen])
          (le_refl _)]
      exact hlD _ 0 _ c0 c1 _ _ err (le_refl _)
    simp only [unmarshalProto, hloop, AttributeScanner.Err]
  · intro b0 b1 c
    have hp : (encodeAttr ctaProtoSrcPort [b0, b1]).length = 8 := hfit b0 b1 _
    have ht : (encodeAttr ctaTupleProto (encodeAttr ctaProtoSrcPort [b0, b1])).length = 12 := by
      simp [encodeAttr_length, hp, nlaHeaderLen, nlaAlign]
    have hT : unmarshalTuple
        ⟨encodeAttr ctaTupleProto (encodeAttr ctaProtoSrcPort [b0, b1]), 0, [], none⟩ {} =
        .ok (⟨[], ctaTupleProto, encodeAttr ctaProtoSrcPort [b0, b1], none⟩,
          { Src := none, Dst := none,
            Proto := some { Number := none, SrcPort := some (256 * b0.val + b1.val),
                            DstPort := none } }, none) := by
      have h : unmarshalTupleLoop
          (encodeAttr ctaTupleProto (encodeAttr ctaProtoSrcPort [b0, b1])).length 2
          ⟨encodeAttr ctaTupleProto (encodeAttr ctaProtoSrcPort [b0, b1]) ++ [], 0, [], none⟩
          {} = _ :=
        unmarshalTupleLoop_proto 1 _ (by decide) (by decide)
          (by rw [hp]; decide) (by simp)
      rw [List.append_nil, hS] at h
      simp only [unmarshalTuple, h, List.length_nil,
        unmarshalTupleLoop_nil 0 1 ⟨[], ctaTupleProto, _, none⟩ _ rfl, AttributeScanner.Err]
    have h : unmarshalConLoop
        (encodeAttr ctaTupleOrig
          (encodeAttr ctaTupleProto (encodeAttr ctaProtoSrcPort [b0, b1]))).length 2
        ⟨encodeAttr ctaTupleOrig
          (encodeAttr ctaTupleProto (encodeAttr ctaProtoSrcPort [b0, b1])) ++ [], 0, [], none⟩
        {} {} = _ :=
      unmarshalConLoop_orig 1 _ _ (by decide) (by decide) (by rw [ht]; decide) (by simp)
    rw [List.append_nil, hT] at h
    simp only [unmarshalCon, AttributeScanner.ResetTo, h, List.length_nil,
      unmarshalConLoop_nil 0 1 ⟨[], ctaTupleOrig, _, none⟩ _ _ rfl, AttributeScanner.Err]
  · intro b0 b1 c
    have hp : (encodeAttr ctaProtoDstPort [b0, b1]).length = 8 := hfit b0 b1 _
    have ht : (encodeAttr ctaTupleProto (encodeAttr ctaProtoDstPort [b0, b1])).length = 12 := by
      simp [encodeAttr_length, hp, nlaHeaderLen, nlaAlign]
    have hT : unmarshalTuple
        ⟨encodeAttr ctaTupleProto (encodeAttr ctaProtoDstPort [b0, b1]), 0, [], none⟩ {} =
        .ok (⟨[], ctaTupleProto, encodeAttr ctaProtoDstPort [b0, b1], none⟩,
          { Src := none, Dst := none,
            Proto := some { Number := none, SrcPort := none,
                            DstPort := some (256 * b0.val + b1.val) } }, none) := by
      have h : unmarshalTupleLoop
          (encodeAttr ctaTupleProto (encodeAttr ctaProtoDstPort [b0, b1])).length 2
          ⟨encodeAttr ctaTupleProto (encodeAttr ctaProtoDstPort [b0, b1]) ++ [], 0, [], none⟩
          {} = _ :=
        unmarshalTupleLoop_proto 1 _ (by decide) (by decide)
          (by rw [hp]; decide) (by simp)
      rw [List.append_nil, hD] at h
      simp only [unmarshalTuple, h, List.length_nil,
        unmarshalTupleLoop_nil 0 1 ⟨[], ctaTupleProto, _, none⟩ _ rfl, AttributeScanner.Err]
    have h : unmarshalConLoop
        (encodeAttr ctaTupleReply
          (encodeAttr ctaTupleProto (encodeAttr ctaProtoDstPort [b0, b1]))).length 2
        ⟨encodeAttr ctaTupleReply
          (encodeAttr ctaTupleProto (encodeAttr ctaProtoDstPort [b0, b1])) ++ [], 0, [], none⟩
        {} {} = _ :=
      unmarshalConLoop_reply 1 _ _ (by decide) (by decide) (by rw [ht]; decide) (by simp)
    rw [List.append_nil, hT] at h
    simp only [unmarshalCon, AttributeScanner.ResetTo, h, List.length_nil,
      unmarshalConLoop_nil 0 1 ⟨[], ctaTupleReply, _, none⟩ _ _ rfl, AttributeScanner.Err]
  · intro b0 b1
    have h0 := b0.isLt
    have h1 := b1.isLt
    omega
  · intro t; rfl

theorem unmarshalProto_port_network_byte_order_witness :
    (encodeAttr ctaProtoDstPort [0x1F, 0x90]).length ≤ 8 ∧
    unmarshalProtoLoop 8 (2 + 1) ⟨encodeAttr ctaProtoDstPort [0x1F, 0x90], 0, [], none⟩
        { Number := some 6, SrcPort := some 80, DstPort := none } =
      .ok (⟨[], ctaProtoDstPort, [0x1F, 0x90], none⟩,
           { Number := some 6, SrcPort := some 80, DstPort := some (256 * 31 + 144) }) :=
  ⟨by decide, unmarshalProto_port_network_byte_order.2.2.2.2.1 8 2
    { Number := some 6, SrcPort := some 80, DstPort := none } 0x1F 0x90 0 [] none (by decide)⟩

/-! ## Decoding inverts the reference encoding -/

theorem ofNat_val_of_lt (n : Nat) (h : n < 256) : ((Fin.ofNat n : Byte)).val = n := by
  simp only [Fin.ofNat]
  omega

theorem encodePort_value (port : Nat) (h : port < 65536) :
    256 * ((Fin.ofNat (port / 256) : Byte)).val + ((Fin.ofNat port : Byte)).val = port := by
  simp only [Fin.ofNat]
  omega

theorem unmarshalProto_encodeProto (t : IPTuple) (fl : Flow) (hw : fl.WellFormed)
    (ty0 : Nat) (d0 : List Byte) (err : Option Error) :
    unmarshalProto ⟨encodeProto fl, ty0, d0, err⟩ t =
      .ok (⟨[], ctaProtoDstPort, encodePort fl.dstPort, err⟩,
           { t with Proto := some { Number := some fl.proto, SrcPort := some fl.srcPort,
                                    DstPort := some fl.dstPort } }, err) := by
  obtain ⟨-, hp, hsp, hdp⟩ := hw
  have hloop : unmarshalProtoLoop (encodeProto fl).length 3
      ⟨encodeProto fl, ty0, d0, err⟩ {} =
      .ok (⟨[], ctaProtoDstPort, encodePort fl.dstPort, err⟩,
        { Number := some fl.proto, SrcPort := some fl.srcPort, DstPort := some fl.dstPort }) := by
    simp only [encodeProto, encodePort]
    rw [unmarshalProtoLoop_num 2 _ (by decide) (by decide) (by simp [nlaHeaderLen]) (le_refl _),
      unmarshalProtoLoop_srcPort 1 _ (by decide) (by decide) (by simp [nlaHeaderLen])
        (le_refl _)]
    rw [← List.append_nil (encodeAttr ctaProtoDstPort _),
      unmarshalProtoLoop_dstPort 0 _ (by decide) (by decide) (by simp [nlaHeaderLen])
        (by simp),
      unmarshalProtoLoop_zero, ofNat_val_of_lt _ hp, encodePort_value _ hsp,
      encodePort_value _ hdp]
  simp only [unmarshalProto, hloop, AttributeScanner.Err]

theorem unmarshalTupleIP_encodeAddrs (t : IPTuple) (fl : Flow) (hw : fl.WellFormed)
    (ty0 : Nat) (d0 : List Byte) (err : Option Error) :
    unmarshalTupleIP ⟨encodeAddrs fl, ty0, d0, err⟩ t =
      .ok (⟨[], if fl.v6 then ctaIPv6Dst else ctaIPv4Dst, fl.dst, err⟩,
           { t with Src := some fl.src, Dst := some fl.dst }, err) := by
  obtain ⟨hlen, -, -, -⟩ := hw
  have hsrc : (if fl.v6 then ctaIPv6Src else ctaIPv4Src) < 65536 ∧
      ((if fl.v6 then ctaIPv6Src else ctaIPv4Src) % (nlaTypeMask + 1) = ctaIPv4Src ∨
       (if fl.v6 then ctaIPv6Src else ctaIPv4Src) % (nlaTypeMask + 1) = ctaIPv6Src) := by
    cases fl.v6 <;> decide
  have hdst : (if fl.v6 then ctaIPv6Dst else ctaIPv4Dst) < 65536 ∧
      ((if fl.v6 then ctaIPv6Dst else ctaIPv4Dst) % (nlaTypeMask + 1) = ctaIPv4Dst ∨
       (if fl.v6 then ctaIPv6Dst else ctaIPv4Dst) % (nlaTypeMask + 1) = ctaIPv6Dst) := by
    cases fl.v6 <;> decide
  have hloop : unmarshalTupleIPLoop (encodeAddrs fl).length 2
      ⟨encodeAddrs fl, ty0, d0, err⟩ t =
      (⟨[], if fl.v6 then ctaIPv6Dst else ctaIPv4Dst, fl.dst, err⟩,
        { t with Src := some fl.src, Dst := some fl.dst }) := by
    simp only [encodeAddrs]
    rw [unmarshalTupleIPLoop_src 1 _ hsrc.1 hsrc.2 (by simp only [nlaHeaderLen]; omega)
      (le_refl _)]
    rw [← List.append_nil (encodeAttr _ fl.dst),
      unmarshalTupleIPLoop_dst 0 _ hdst.1 hdst.2 (by simp only [nlaHeaderLen]; omega)
        (by simp),
      unmarshalTupleIPLoop_zero]
  simp only [unmarshalTupleIP, hloop, AttributeScanner.Err]

theorem encodeProto_length (fl : Flow) : (encodeProto fl).length = 24 := by
  simp [encodeProto, encodePort, encodeAttr_length, nlaHeaderLen, nlaAlign]

theorem encodeAddrs_length (fl : Flow) :
    (encodeAddrs fl).length = 8 + nlaAlign fl.src.length + nlaAlign fl.dst.length := by
  simp only [encodeAddrs, List.length_append, encodeAttr_length, nlaHeaderLen]
  omega

theorem encodeTuple_length (fl : Flow) :
    (encodeTuple fl).length = 40 + nlaAlign fl.src.length + nlaAlign fl.dst.length := by
  have h1 : nlaAlign 24 = 24 := by decide
  have h2 : ∀ a b, nlaAlign (8 + nlaAlign a + nlaAlign b) = 8 + nlaAlign a + nlaAlign b := by
    intro a b; unfold nlaAlign; omega
  simp only [encodeTuple, List.length_append, encodeAttr_length, nlaHeaderLen,
    encodeProto_length, encodeAddrs_length, h1, h2]
  omega

theorem unmarshalTuple_encodeTuple (t : IPTuple) (fl : Flow) (hw : fl.WellFormed)
    (ty0 : Nat) (d0 : List Byte) (err : Option Error) :
    unmarshalTuple ⟨encodeTuple fl, ty0, d0, err⟩ t =
      .ok (⟨[], ctaTupleProto, encodeProto fl, err⟩, fl.toIPTuple, err) := by
  have hlen := hw.1
  have ha1 := encodeAddrs_length fl
  have ha2 := encodeProto_length fl
  have hs : nlaAlign fl.src.length ≤ fl.src.length + 3 := by unfold nlaAlign; omega
  have hd : nlaAlign fl.dst.length ≤ fl.dst.length + 3 := by unfold nlaAlign; omega
  have hloop : unmarshalTupleLoop (encodeTuple fl).length 2
      ⟨encodeTuple fl, ty0, d0, err⟩ t =
      .ok (⟨[], ctaTupleProto, encodeProto fl, err⟩, fl.toIPTuple) := by
    simp only [encodeTuple]
    rw [unmarshalTupleLoop_ip 1 _ (by decide) (by decide) (by simp only [nlaHeaderLen]; omega)
      (le_refl _)]
    rw [unmarshalTupleIP_encodeAddrs _ fl hw]
    simp only []
    rw [← List.append_nil (encodeAttr ctaTupleProto _),
      unmarshalTupleLoop_proto 0 _ (by decide) (by decide)
        (by simp only [nlaHeaderLen]; omega) (by simp)]
    rw [unmarshalProto_encodeProto _ fl hw]
    simp only [unmarshalTupleLoop_zero, Flow.toIPTuple]
  simp only [unmarshalTuple, hloop, AttributeScanner.Err]


theorem encodeTuple_fits (fl : Flow) (hw : fl.WellFormed) :
    nlaHeaderLen + (encodeTuple fl).length < 65536 := by
  have hlen := hw.1
  have hs : nlaAlign fl.src.length ≤ fl.src.length + 3 := by unfold nlaAlign; omega
  have hd : nlaAlign fl.dst.length ≤ fl.dst.length + 3 := by unfold nlaAlign; omega
  rw [encodeTuple_length, nlaHeaderLen]
  omega

/-- C7: for all well-formed origin and reply values (the addresses fit an attribute, the
protocol number is below 256 and the ports below 65536), `unmarshalCon` decodes the
reference encoding `tuple-orig{tuple-ip{src,dst}, tuple-proto{num,sport,dport}}`,
`tuple-reply{...}` with no error into the tuple whose `Origin` and `Reply` have `Src`,
`Dst`, `Proto.Number`, `Proto.SrcPort` and `Proto.DstPort` set to the encoded values. -/
theorem unmarshalCon_encodeCon (origin reply : Flow) (c : Con)
    (ho : origin.WellFormed) (hr : reply.WellFormed) :
    unmarshalCon (AttributeScanner.ResetTo NewAttributeScanner (encodeCon origin reply)) c =
      .ok (⟨[], ctaTupleReply, encodeTuple reply, none⟩,
           { Origin := some origin.toIPTuple, Reply := some reply.toIPTuple }, none) := by
  have hol := encodeTuple_fits origin ho
  have hrl := encodeTuple_fits reply hr
  have hloop : unmarshalConLoop (encodeCon origin reply).length 2
      ⟨encodeCon origin reply, 0, [], none⟩ {} {} =
      .ok (⟨[], ctaTupleReply, encodeTuple reply, none⟩, origin.toIPTuple,
        reply.toIPTuple) := by
    simp only [encodeCon]
    rw [unmarshalConLoop_orig 1 _ _ (by decide) (by decide) hol (le_refl _)]
    rw [unmarshalTuple_encodeTuple _ origin ho]
    simp only []
    rw [← List.append_nil (encodeAttr ctaTupleReply _),
      unmarshalConLoop_reply 0 _ _ (by decide) (by decide) hrl (by simp)]
    rw [unmarshalTuple_encodeTuple _ reply hr]
    simp only [unmarshalConLoop_zero]
  simp only [unmarshalCon, AttributeScanner.ResetTo, hloop, AttributeScanner.Err]

theorem unmarshalCon_encodeCon_witness :
    (sampleFlow1.WellFormed ∧ sampleFlow2.WellFormed) ∧
    unmarshalCon (AttributeScanner.ResetTo NewAttributeScanner
        (encodeCon sampleFlow1 sampleFlow2)) {} =
      .ok (⟨[], ctaTupleReply, encodeTuple sampleFlow2, none⟩,
           { Origin := some sampleFlow1.toIPTuple, Reply := some sampleFlow2.toIPTuple },
           none) :=
  ⟨by decide, unmarshalCon_encodeCon _ _ {} (by decide) (by decide)⟩

/-! ## Attributes outside the dispatch table -/

theorem Next_congr (A : List Byte) (ty0 ty1 : Nat) (d0 d1 : List Byte) (err : Option Error) :
    AttributeScanner.Next ⟨A, ty1, d1, err⟩ =
      match AttributeScanner.Next ⟨A, ty0, d0, err⟩ with
      | (true, s1) => (true, s1)
      | (false, s1) => (false, { s1 with typ := ty1, data := d1 }) := by
  rcases A with _ | ⟨l0, _ | ⟨l1, _ | ⟨t0, _ | ⟨t1, body⟩⟩⟩⟩ <;>
    cases err <;> simp [AttributeScanner.Next, AttributeScanner.record] <;>
    split <;> simp

theorem Next_congr_true {A : List Byte} {ty0 : Nat} {d0 : List Byte} (ty1 : Nat)
    (d1 : List Byte) {err : Option Error} {s1 : AttributeScanner}
    (h : AttributeScanner.Next ⟨A, ty0, d0, err⟩ = (true, s1)) :
    AttributeScanner.Next ⟨A, ty1, d1, err⟩ = (true, s1) := by
  rw [Next_congr A ty0 ty1 d0 d1 err, h]

theorem Next_congr_false {A : List Byte} {ty0 : Nat} {d0 : List Byte} (ty1 : Nat)
    (d1 : List Byte) {err : Option Error} {s1 : AttributeScanner}
    (h : AttributeScanner.Next ⟨A, ty0, d0, err⟩ = (false, s1)) :
    ∃ s2, AttributeScanner.Next ⟨A, ty1, d1, err⟩ = (false, s2) ∧ s2.err = s1.err := by
  rw [Next_congr A ty0 ty1 d0 d1 err, h]
  exact ⟨_, rfl, rfl⟩

theorem SameOutcome_append_left {σ : Type}
    (L : Nat → Nat → AttributeScanner → σ → Except Panic (AttributeScanner × σ))
    (hcons : ∀ (a : Nat × List Byte) (A B : List Byte), AttrFits a → SameOutcome L A B →
      SameOutcome L (encodeAttr a.1 a.2 ++ A) (encodeAttr a.1 a.2 ++ B))
    (pre : List (Nat × List Byte)) (hpre : ∀ a ∈ pre, AttrFits a) (A B : List Byte)
    (h : SameOutcome L A B) :
    SameOutcome L (encodeAttrs pre ++ A) (encodeAttrs pre ++ B) := by
  induction pre with
  | nil => simpa [encodeAttrs] using h
  | cons a pre ih =>
    have h1 := ih (fun x hx => hpre x (List.mem_cons_of_mem _ hx))
    have h2 := hcons a _ _ (hpre a (List.mem_cons_self _ _)) h1
    simpa [encodeAttrs, List.append_assoc] using h2


theorem unmarshalProtoLoop_same (A : List Byte) : SameOutcome unmarshalProtoLoop A A := by
  intro n err ty0 ty1 d0 d1 x
  cases n with
  | zero => simp only [unmarshalProtoLoop_zero, observe]
  | succ n =>
    cases hN : AttributeScanner.Next ⟨A, ty0, d0, err⟩ with
    | mk b s1 =>
      cases b with
      | false =>
        obtain ⟨s2, hN2, he⟩ := Next_congr_false ty1 d1 hN
        rw [unmarshalProtoLoop_stop n x (le_refl _) hN,
          unmarshalProtoLoop_stop n x (le_refl _) hN2]
        simp only [observe, he]
      | true =>
        have hN2 := Next_congr_true ty1 d1 hN
        rw [unmarshalProtoLoop_step n x (le_refl _) hN,
          unmarshalProtoLoop_step n x (le_refl _) hN2]

theorem unmarshalProtoLoop_skip_same (typ : Nat) (value tail : List Byte)
    (ht : typ < 65536) (h1 : typ % (nlaTypeMask + 1) ≠ ctaProtoNum)
    (h2 : typ % (nlaTypeMask + 1) ≠ ctaProtoSrcPort)
    (h3 : typ % (nlaTypeMask + 1) ≠ ctaProtoDstPort)
    (hv : nlaHeaderLen + value.length < 65536) :
    SameOutcome unmarshalProtoLoop (encodeAttr typ value ++ tail) tail := by
  intro n err ty0 ty1 d0 d1 x
  cases n with
  | zero => simp only [unmarshalProtoLoop_zero, observe]
  | succ n =>
    rw [unmarshalProtoLoop_skip n x ht h1 h2 h3 hv (le_refl _)]
    exact unmarshalProtoLoop_same tail (n + 1) err typ ty1 value d1 x

theorem unmarshalProtoLoop_cons_same (a : Nat × List Byte) (A B : List Byte)
    (ha : AttrFits a) (h : SameOutcome unmarshalProtoLoop A B) :
    SameOutcome unmarshalProtoLoop (encodeAttr a.1 a.2 ++ A) (encodeAttr a.1 a.2 ++ B) := by
  intro n err ty0 ty1 d0 d1 x
  cases n with
  | zero => simp only [unmarshalProtoLoop_zero, observe]
  | succ n =>
    have hNA := Next_encodeAttr ⟨encodeAttr a.1 a.2 ++ A, ty0, d0, err⟩ a.1 a.2 A ha.1 ha.2 rfl
    have hNB := Next_encodeAttr ⟨encodeAttr a.1 a.2 ++ B, ty1, d1, err⟩ a.1 a.2 B ha.1 ha.2 rfl
    rw [unmarshalProtoLoop_step n x (le_refl _) hNA,
      unmarshalProtoLoop_step n x (le_refl _) hNB]
    simp only [AttributeScanner.Bytes, AttributeScanner.Type_]
    by_cases c1 : a.1 % (nlaTypeMask + 1) = ctaProtoNum
    · simp only [if_pos c1]
      cases firstByte a.2 with
      | error e => rfl
      | ok v => exact h _ _ _ _ _ _ _
    · by_cases c2 : a.1 % (nlaTypeMask + 1) = ctaProtoSrcPort
      · simp only [if_neg c1, if_pos c2]
        cases bigEndianUint16 a.2 with
        | error e => rfl
        | ok v => exact h _ _ _ _ _ _ _
      · by_cases c3 : a.1 % (nlaTypeMask + 1) = ctaProtoDstPort
        · simp only [if_neg c1, if_neg c2, if_pos c3]
          cases bigEndianUint16 a.2 with
          | error e => rfl
          | ok v => exact h _ _ _ _ _ _ _
        · simp only [if_neg c1, if_neg c2, if_neg c3]
          exact h _ _ _ _ _ _ _

theorem unmarshalTupleIPLoop_same (A : List Byte) :
    SameOutcome (fun f n s t => .ok (unmarshalTupleIPLoop f n s t)) A A := by
  intro n err ty0 ty1 d0 d1 x
  cases n with
  | zero => simp only [unmarshalTupleIPLoop_zero, observe]
  | succ n =>
    cases hN : AttributeScanner.Next ⟨A, ty0, d0, err⟩ with
    | mk b s1 =>
      cases b with
      | false =>
        obtain ⟨s2, hN2, he⟩ := Next_congr_false ty1 d1 hN
        simp only [unmarshalTupleIPLoop_stop n x (le_refl _) hN,
          unmarshalTupleIPLoop_stop n x (le_refl _) hN2, observe, he]
      | true =>
        have hN2 := Next_congr_true ty1 d1 hN
        simp only [unmarshalTupleIPLoop_step n x (le_refl _) hN,
          unmarshalTupleIPLoop_step n x (le_refl _) hN2]

theorem unmarshalTupleIPLoop_skip_same (typ : Nat) (value tail : List Byte)
    (ht : typ < 65536)
    (h1 : ¬ (typ % (nlaTypeMask + 1) = ctaIPv4Src ∨ typ % (nlaTypeMask + 1) = ctaIPv6Src))
    (h2 : ¬ (typ % (nlaTypeMask + 1) = ctaIPv4Dst ∨ typ % (nlaTypeMask + 1) = ctaIPv6Dst))
    (hv : nlaHeaderLen + value.length < 65536) :
    SameOutcome (fun f n s t => .ok (unmarshalTupleIPLoop f n s t))
      (encodeAttr typ value ++ tail) tail := by
  intro n err ty0 ty1 d0 d1 x
  cases n with
  | zero => simp only [unmarshalTupleIPLoop_zero, observe]
  | succ n =>
    simp only [unmarshalTupleIPLoop_skip n x ht h1 h2 hv (le_refl _)]
    exact unmarshalTupleIPLoop_same tail (n + 1) err typ ty1 value d1 x

theorem unmarshalTupleIPLoop_cons_same (a : Nat × List Byte) (A B : List Byte)
    (ha : AttrFits a)
    (h : SameOutcome (fun f n s t => .ok (unmarshalTupleIPLoop f n s t)) A B) :
    SameOutcome (fun f n s t => .ok (unmarshalTupleIPLoop f n s t))
      (encodeAttr a.1 a.2 ++ A) (encodeAttr a.1 a.2 ++ B) := by
  intro n err ty0 ty1 d0 d1 x
  cases n with
  | zero => simp only [unmarshalTupleIPLoop_zero, observe]
  | succ n =>
    have hNA := Next_encodeAttr ⟨encodeAttr a.1 a.2 ++ A, ty0, d0, err⟩ a.1 a.2 A ha.1 ha.2 rfl
    have hNB := Next_encodeAttr ⟨encodeAttr a.1 a.2 ++ B, ty1, d1, err⟩ a.1 a.2 B ha.1 ha.2 rfl
    simp only [unmarshalTupleIPLoop_step n x (le_refl _) hNA,
      unmarshalTupleIPLoop_step n x (le_refl _) hNB]
    simp only [AttributeScanner.Bytes, AttributeScanner.Type_]
    by_cases c1 : a.1 % (nlaTypeMask + 1) = ctaIPv4Src ∨ a.1 % (nlaTypeMask + 1) = ctaIPv6Src
    · simp only [if_pos c1]
      exact h _ _ _ _ _ _ _
    · by_cases c2 : a.1 % (nlaTypeMask + 1) = ctaIPv4Dst ∨ a.1 % (nlaTypeMask + 1) = ctaIPv6Dst
      · simp only [if_neg c1, if_pos c2]
        exact h _ _ _ _ _ _ _
      · simp only [if_neg c1, if_neg c2]
        exact h _ _ _ _ _ _ _

theorem unmarshalTupleLoop_same (A : List Byte) : SameOutcome unmarshalTupleLoop A A := by
  intro n err ty0 ty1 d0 d1 x
  cases n with
  | zero => simp only [unmarshalTupleLoop_zero, observe]
  | succ n =>
    cases hN : AttributeScanner.Next ⟨A, ty0, d0, err⟩ with
    | mk b s1 =>
      cases b with
      | false =>
        obtain ⟨s2, hN2, he⟩ := Next_congr_false ty1 d1 hN
        rw [unmarshalTupleLoop_stop n x (le_refl _) hN,
          unmarshalTupleLoop_stop n x (le_refl _) hN2]
        simp only [observe, he]
      | true =>
        have hN2 := Next_congr_true ty1 d1 hN
        rw [unmarshalTupleLoop_step n x (le_refl _) hN,
          unmarshalTupleLoop_step n x (le_refl _) hN2]

theorem unmarshalTupleLoop_skip_same (typ : Nat) (value tail : List Byte)
    (ht : typ < 65536) (h1 : typ % (nlaTypeMask + 1) ≠ ctaTupleIP)
    (h2 : typ % (nlaTypeMask + 1) ≠ ctaTupleProto)
    (hv : nlaHeaderLen + value.length < 65536) :
    SameOutcome unmarshalTupleLoop (encodeAttr typ value ++ tail) tail := by
  intro n err ty0 ty1 d0 d1 x
  cases n with
  | zero => simp only [unmarshalTupleLoop_zero, observe]
  | succ n =>
    rw [unmarshalTupleLoop_skip n x ht h1 h2 hv (le_refl _)]
    exact unmarshalTupleLoop_same tail (n + 1) err typ ty1 value d1 x

theorem unmarshalTupleLoop_cons_same (a : Nat × List Byte) (A B : List Byte)
    (ha : AttrFits a) (h : SameOutcome unmarshalTupleLoop A B) :
    SameOutcome unmarshalTupleLoop (encodeAttr a.1 a.2 ++ A) (encodeAttr a.1 a.2 ++ B) := by
  intro n err ty0 ty1 d0 d1 x
  cases n with
  | zero => simp only [unmarshalTupleLoop_zero, observe]
  | succ n =>
    by_cases c1 : a.1 % (nlaTypeMask + 1) = ctaTupleIP
    · rw [unmarshalTupleLoop_ip n x ha.1 c1 ha.2 (le_refl _),
        unmarshalTupleLoop_ip n x ha.1 c1 ha.2 (le_refl _)]
      cases unmarshalTupleIP ⟨a.2, 0, [], err⟩ x with
      | error e => rfl
      | ok r => exact h _ _ _ _ _ _ _
    · by_cases c2 : a.1 % (nlaTypeMask + 1) = ctaTupleProto
      · rw [unmarshalTupleLoop_proto n x ha.1 c2 ha.2 (le_refl _),
          unmarshalTupleLoop_proto n x ha.1 c2 ha.2 (le_refl _)]
        cases unmarshalProto ⟨a.2, 0, [], err⟩ x with
        | error e => rfl
        | ok r => exact h _ _ _ _ _ _ _
      · rw [unmarshalTupleLoop_skip n x ha.1 c1 c2 ha.2 (le_refl _),
          unmarshalTupleLoop_skip n x ha.1 c1 c2 ha.2 (le_refl _)]
        exact h _ _ _ _ _ _ _

theorem unmarshalConLoop_same (A : List Byte) :
    SameOutcome (fun f n s (x : IPTuple × IPTuple) => unmarshalConLoop f n s x.1 x.2) A A := by
  intro n err ty0 ty1 d0 d1 x
  cases n with
  | zero => simp only [unmarshalConLoop_zero, observe]
  | succ n =>
    cases hN : AttributeScanner.Next ⟨A, ty0, d0, err⟩ with
    | mk b s1 =>
      cases b with
      | false =>
        obtain ⟨s2, hN2, he⟩ := Next_congr_false ty1 d1 hN
        simp only [unmarshalConLoop_stop n x.1 x.2 (le_refl _) hN,
          unmarshalConLoop_stop n x.1 x.2 (le_refl _) hN2, observe, he]
      | true =>
        have hN2 := Next_congr_true ty1 d1 hN
        simp only [unmarshalConLoop_step n x.1 x.2 (le_refl _) hN,
          unmarshalConLoop_step n x.1 x.2 (le_refl _) hN2]

theorem unmarshalConLoop_skip_same (typ : Nat) (value tail : List Byte)
    (ht : typ < 65536) (h1 : typ % (nlaTypeMask + 1) ≠ ctaTupleOrig)
    (h2 : typ % (nlaTypeMask + 1) ≠ ctaTupleReply)
    (hv : nlaHeaderLen + value.length < 65536) :
    SameOutcome (fun f n s (x : IPTuple × IPTuple) => unmarshalConLoop f n s x.1 x.2)
      (encodeAttr typ value ++ tail) tail := by
  intro n err ty0 ty1 d0 d1 x
  cases n with
  | zero => simp only [unmarshalConLoop_zero, observe]
  | succ n =>
    simp only [unmarshalConLoop_skip n x.1 x.2 ht h1 h2 hv (le_refl _)]
    exact unmarshalConLoop_same tail (n + 1) err typ ty1 value d1 x

theorem unmarshalConLoop_cons_same (a : Nat × List Byte) (A B : List Byte)
    (ha : AttrFits a)
    (h : SameOutcome (fun f n s (x : IPTuple × IPTuple) => unmarshalConLoop f n s x.1 x.2)
      A B) :
    SameOutcome (fun f n s (x : IPTuple × IPTuple) => unmarshalConLoop f n s x.1 x.2)
      (encodeAttr a.1 a.2 ++ A) (encodeAttr a.1 a.2 ++ B) := by
  intro n err ty0 ty1 d0 d1 x
  cases n with
  | zero => simp only [unmarshalConLoop_zero, observe]
  | succ n =>
    by_cases c1 : a.1 % (nlaTypeMask + 1) = ctaTupleOrig
    · simp only [unmarshalConLoop_orig n x.1 x.2 ha.1 c1 ha.2 (le_refl _)]
      cases unmarshalTuple ⟨a.2, 0, [], err⟩ x.1 with
      | error e => rfl
      | ok r => exact h n r.1.err _ _ _ _ (r.2.1, x.2)
    · by_cases c2 : a.1 % (nlaTypeMask + 1) = ctaTupleReply
      · simp only [unmarshalConLoop_reply n x.1 x.2 ha.1 c2 ha.2 (le_refl _)]
        cases unmarshalTuple ⟨a.2, 0, [], err⟩ x.2 with
        | error e => rfl
        | ok r => exact h n r.1.err _ _ _ _ (x.1, r.2.1)
      · simp only [unmarshalConLoop_skip n x.1 x.2 ha.1 c1 c2 ha.2 (le_refl _)]
        exact h (n + 1) err _ _ _ _ x


theorem unmarshalProto_observe (s : AttributeScanner) (t : IPTuple) :
    Except.map (fun r => r.2) (unmarshalProto s t) =
      match observe (unmarshalProtoLoop s.rest.length 3 s {}) with
      | .error p => .error p
      | .ok (e, p) => .ok ({ t with Proto := some p }, e) := by
  unfold unmarshalProto
  cases unmarshalProtoLoop s.rest.length 3 s {} <;> rfl

theorem unmarshalTupleIP_observe (s : AttributeScanner) (t : IPTuple) :
    Except.map (fun r => r.2) (unmarshalTupleIP s t) =
      match observe (Except.ok (unmarshalTupleIPLoop s.rest.length 2 s t)) with
      | .error p => .error p
      | .ok (e, t1) => .ok (t1, e) := by
  rfl

theorem unmarshalTuple_observe (s : AttributeScanner) (t : IPTuple) :
    Except.map (fun r => r.2) (unmarshalTuple s t) =
      match observe (unmarshalTupleLoop s.rest.length 2 s t) with
      | .error p => .error p
      | .ok (e, t1) => .ok (t1, e) := by
  unfold unmarshalTuple
  cases unmarshalTupleLoop s.rest.length 2 s t <;> rfl

theorem unmarshalCon_observe (s : AttributeScanner) (c : Con) :
    Except.map (fun r => r.2) (unmarshalCon s c) =
      match observe (unmarshalConLoop s.rest.length 2 s {} {}) with
      | .error p => .error p
      | .ok (e, o, r) => .ok ({ c with Origin := some o, Reply := some r }, e) := by
  unfold unmarshalCon
  cases unmarshalConLoop s.rest.length 2 s {} {} <;> rfl

/-- C10: at each of the four levels, a well-formed attribute whose type code (the type
field without its two flag bits) is not in the dispatch table of the level is skipped.
Wherever it stands among well-formed attributes `pre` and whatever bytes `tail` follow
it, the decoded data and the error are those of the buffer with the attribute removed:
for `unmarshalCon` (type code other than 1 and 2), `unmarshalTuple` (other than 1 and 2,
for example tuple-zone = 3), `unmarshalTupleIP` (other than 1, 2, 3, 4) and
`unmarshalProto` (other than 1, 2, 3). -/
theorem unknown_attribute_skipped :
    (∀ (pre : List (Nat × List Byte)) (typ : Nat) (value tail : List Byte) (c : Con),
      (∀ a ∈ pre, AttrFits a) → AttrFits (typ, value) →
      typ % (nlaTypeMask + 1) ≠ ctaTupleOrig → typ % (nlaTypeMask + 1) ≠ ctaTupleReply →
      Except.map (fun r => r.2) (unmarshalCon
          (AttributeScanner.ResetTo NewAttributeScanner
            (encodeAttrs pre ++ (encodeAttr typ value ++ tail))) c)
        = Except.map (fun r => r.2) (unmarshalCon
          (AttributeScanner.ResetTo NewAttributeScanner (encodeAttrs pre ++ tail)) c)) ∧
    (∀ (pre : List (Nat × List Byte)) (typ : Nat) (value tail : List Byte)
        (ty0 : Nat) (d0 : List Byte) (err : Option Error) (t : IPTuple),
      (∀ a ∈ pre, AttrFits a) → AttrFits (typ, value) →
      typ % (nlaTypeMask + 1) ≠ ctaTupleIP → typ % (nlaTypeMask + 1) ≠ ctaTupleProto →
      Except.map (fun r => r.2) (unmarshalTuple
          ⟨encodeAttrs pre ++ (encodeAttr typ value ++ tail), ty0, d0, err⟩ t)
        = Except.map (fun r => r.2) (unmarshalTuple
          ⟨encodeAttrs pre ++ tail, ty0, d0, err⟩ t)) ∧
    (∀ (pre : List (Nat × List Byte)) (typ : Nat) (value tail : List Byte)
        (ty0 : Nat) (d0 : List Byte) (err : Option Error) (t : IPTuple),
      (∀ a ∈ pre, AttrFits a) → AttrFits (typ, value) →
      ¬ (typ % (nlaTypeMask + 1) = ctaIPv4Src ∨ typ % (nlaTypeMask + 1) = ctaIPv6Src) →
      ¬ (typ % (nlaTypeMask + 1) = ctaIPv4Dst ∨ typ % (nlaTypeMask + 1) = ctaIPv6Dst) →
      Except.map (fun r => r.2) (unmarshalTupleIP
          ⟨encodeAttrs pre ++ (encodeAttr typ value ++ tail), ty0, d0, err⟩ t)
        = Except.map (fun r => r.2) (unmarshalTupleIP
          ⟨encodeAttrs pre ++ tail, ty0, d0, err⟩ t)) ∧
    (∀ (pre : List (Nat × List Byte)) (typ : Nat) (value tail : List Byte)
        (ty0 : Nat) (d0 : List Byte) (err : Option Error) (t : IPTuple),
      (∀ a ∈ pre, AttrFits a) → AttrFits (typ, value) →
      typ % (nlaTypeMask + 1) ≠ ctaProtoNum → typ % (nlaTypeMask + 1) ≠ ctaProtoSrcPort →
      typ % (nlaTypeMask + 1) ≠ ctaProtoDstPort →
      Except.map (fun r => r.2) (unmarshalProto
          ⟨encodeAttrs pre ++ (encodeAttr typ value ++ tail), ty0, d0, err⟩ t)
        = Except.map (fun r => r.2) (unmarshalProto
          ⟨encodeAttrs pre ++ tail, ty0, d0, err⟩ t)) := by
  refine ⟨?_, ?_, ?_, ?_⟩
  · intro pre typ value tail c hpre ha h1 h2
    have h := SameOutcome_append_left _ unmarshalConLoop_cons_same pre hpre _ _
      (unmarshalConLoop_skip_same typ value tail ha.1 h1 h2 ha.2) 2 none 0 0 [] []
      (({} : IPTuple), ({} : IPTuple))
    simp only [unmarshalCon_observe, AttributeScanner.ResetTo]
    rw [h]
  · intro pre typ value tail ty0 d0 err t hpre ha h1 h2
    have h := SameOutcome_append_left _ unmarshalTupleLoop_cons_same pre hpre _ _
      (unmarshalTupleLoop_skip_same typ value tail ha.1 h1 h2 ha.2) 2 err ty0 ty0 d0 d0 t
    simp only [unmarshalTuple_observe]
    rw [h]
  · intro pre typ value tail ty0 d0 err t hpre ha h1 h2
    have h := SameOutcome_append_left _ unmarshalTupleIPLoop_cons_same pre hpre _ _
      (unmarshalTupleIPLoop_skip_same typ value tail ha.1 h1 h2 ha.2) 2 err ty0 ty0 d0 d0 t
    simp only [unmarshalTupleIP_observe]
    rw [h]
  · intro pre typ value tail ty0 d0 err t hpre ha h1 h2 h3
    have h := SameOutcome_append_left _ unmarshalProtoLoop_cons_same pre hpre _ _
      (unmarshalProtoLoop_skip_same typ value tail ha.1 h1 h2 h3 ha.2) 3 err ty0 ty0 d0 d0 {}
    simp only [unmarshalProto_observe]
    rw [h]


theorem unknown_attribute_skipped_witness :
    ((∀ a ∈ [(ctaTupleIP, encodeAddrs sampleFlow1)], AttrFits a) ∧
      AttrFits (ctaTupleZone, [0, 1]) ∧
      ctaTupleZone % (nlaTypeMask + 1) ≠ ctaTupleIP ∧
      ctaTupleZone % (nlaTypeMask + 1) ≠ ctaTupleProto) ∧
    Except.map (fun r => r.2) (unmarshalTuple
        ⟨encodeAttrs [(ctaTupleIP, encodeAddrs sampleFlow1)] ++
          (encodeAttr ctaTupleZone [0, 1] ++
            encodeAttr ctaTupleProto (encodeProto sampleFlow1)), 0, [], none⟩ {})
      = Except.map (fun r => r.2) (unmarshalTuple
        ⟨encodeAttrs [(ctaTupleIP, encodeAddrs sampleFlow1)] ++
          encodeAttr ctaTupleProto (encodeProto sampleFlow1), 0, [], none⟩ {}) :=
  ⟨by decide, unknown_attribute_skipped.2.1 _ _ _ _ _ _ _ _ (by decide) (by decide) (by decide)
    (by decide)⟩

/-! ## Two tuple-orig attributes in one message -/

/-- C6, as stated, fails: in `duplicateOrigMessage` the second tuple-orig attribute is
visited (it is the scanner's current attribute when `unmarshalCon` returns) and the
source address of `Origin` is the one of the second attribute, 10.9.9.9, where the first
attribute alone gives 10.0.0.1. -/
theorem unmarshalCon_second_orig_overwrites :
    unmarshalCon (AttributeScanner.ResetTo NewAttributeScanner duplicateOrigMessage.Data) {}
      = .ok (⟨[], ctaTupleOrig, [12, 0, 1, 0, 8, 0, 1, 0, 10, 9, 9, 9], none⟩,
             { Origin := some { Src := some [10, 9, 9, 9] }, Reply := some {} }, none) ∧
    unmarshalCon (AttributeScanner.ResetTo NewAttributeScanner firstOrigMessage.Data) {}
      = .ok (⟨[], ctaTupleOrig, [12, 0, 1, 0, 8, 0, 1, 0, 10, 0, 0, 1], none⟩,
             { Origin := some { Src := some [10, 0, 0, 1] }, Reply := some {} }, none) ∧
    Except.map (fun r => r.2.1.Origin)
        (unmarshalCon (AttributeScanner.ResetTo NewAttributeScanner duplicateOrigMessage.Data) {})
      ≠ Except.map (fun r => r.2.1.Origin)
        (unmarshalCon (AttributeScanner.ResetTo NewAttributeScanner firstOrigMessage.Data) {}) := by
  refine ⟨by rfl, by rfl, by decide⟩

/-- C6, amended: when a message starts with two well-formed tuple-orig attributes, both
are decoded, in order, into the same `Origin`: the second is decoded over the tuple the
first one left, so a field it supplies overwrites the first one's. The two attributes
use up the countdown of the connection level: `Reply` stays empty and the bytes `tail`
after them are left unread. When both attributes hold a full tuple, `Origin` holds the
values of the second. -/
theorem unmarshalCon_two_origs :
    (∀ (v1 v2 tail : List Byte) (c : Con),
      nlaHeaderLen + v1.length < 65536 → nlaHeaderLen + v2.length < 65536 →
      unmarshalCon (AttributeScanner.ResetTo NewAttributeScanner
          (encodeAttr ctaTupleOrig v1 ++ (encodeAttr ctaTupleOrig v2 ++ tail))) c =
        match unmarshalTuple ⟨v1, 0, [], none⟩ {} with
        | .error p => .error p
        | .ok (s1, o1, _) =>
          match unmarshalTuple ⟨v2, 0, [], s1.err⟩ o1 with
          | .error p => .error p
          | .ok (s2, o2, _) =>
            .ok (⟨tail, ctaTupleOrig, v2, s2.err⟩,
                 { Origin := some o2, Reply := some {} }, s2.err)) ∧
    (∀ (f1 f2 : Flow) (tail : List Byte) (c : Con), f1.WellFormed → f2.WellFormed →
      unmarshalCon (AttributeScanner.ResetTo NewAttributeScanner
          (encodeAttr ctaTupleOrig (encodeTuple f1) ++
            (encodeAttr ctaTupleOrig (encodeTuple f2) ++ tail))) c =
        .ok (⟨tail, ctaTupleOrig, encodeTuple f2, none⟩,
             { Origin := some f2.toIPTuple, Reply := some {} }, none)) := by
  have key : ∀ (v1 v2 tail : List Byte) (c : Con),
      nlaHeaderLen + v1.length < 65536 → nlaHeaderLen + v2.length < 65536 →
      unmarshalCon (AttributeScanner.ResetTo NewAttributeScanner
          (encodeAttr ctaTupleOrig v1 ++ (encodeAttr ctaTupleOrig v2 ++ tail))) c =
        match unmarshalTuple ⟨v1, 0, [], none⟩ {} with
        | .error p => .error p
        | .ok (s1, o1, _) =>
          match unmarshalTuple ⟨v2, 0, [], s1.err⟩ o1 with
          | .error p => .error p
          | .ok (s2, o2, _) =>
            .ok (⟨tail, ctaTupleOrig, v2, s2.err⟩,
                 { Origin := some o2, Reply := some {} }, s2.err) := by
    intro v1 v2 tail c h1 h2
    simp only [unmarshalCon, AttributeScanner.ResetTo]
    rw [unmarshalConLoop_orig 1 _ _ (by decide) (by decide) h1 (le_refl _)]
    cases unmarshalTuple ⟨v1, 0, [], none⟩ {} with
    | error p => rfl
    | ok r1 =>
      obtain ⟨s1, o1, e1⟩ := r1
      simp only []
      rw [unmarshalConLoop_orig 0 _ _ (by decide) (by decide) h2 (le_refl _)]
      cases unmarshalTuple ⟨v2, 0, [], s1.err⟩ o1 with
      | error p => rfl
      | ok r2 =>
        obtain ⟨s2, o2, e2⟩ := r2
        simp only [unmarshalConLoop_zero, AttributeScanner.Err]
  refine ⟨key, ?_⟩
  intro f1 f2 tail c hf1 hf2
  rw [key _ _ tail c (encodeTuple_fits f1 hf1) (encodeTuple_fits f2 hf2),
    unmarshalTuple_encodeTuple _ f1 hf1]
  simp only []
  rw [unmarshalTuple_encodeTuple _ f2 hf2]

theorem unmarshalCon_two_origs_witness :
    (nlaHeaderLen + [12, 0, 1, 0, 8, 0, 1, 0, (10 : Byte), 0, 0, 1].length < 65536 ∧
      nlaHeaderLen + [12, 0, 1, 0, 8, 0, 1, 0, (10 : Byte), 9, 9, 9].length < 65536) ∧
    unmarshalCon (AttributeScanner.ResetTo NewAttributeScanner
        (encodeAttr ctaTupleOrig [12, 0, 1, 0, 8, 0, 1, 0, 10, 0, 0, 1] ++
          (encodeAttr ctaTupleOrig [12, 0, 1, 0, 8, 0, 1, 0, 10, 9, 9, 9] ++ [1, 2, 3]))) {} =
      match unmarshalTuple ⟨[12, 0, 1, 0, 8, 0, 1, 0, 10, 0, 0, 1], 0, [], none⟩ {} with
      | .error p => .error p
      | .ok (s1, o1, _) =>
        match unmarshalTuple ⟨[12, 0, 1, 0, 8, 0, 1, 0, 10, 9, 9, 9], 0, [], s1.err⟩ o1 with
        | .error p => .error p
        | .ok (s2, o2, _) =>
          .ok (⟨[1, 2, 3], ctaTupleOrig, [12, 0, 1, 0, 8, 0, 1, 0, 10, 9, 9, 9], s2.err⟩,
               { Origin := some o2, Reply := some {} }, s2.err) :=
  ⟨by decide, unmarshalCon_two_origs.1 _ _ _ _ (by decide) (by decide)⟩

/-! ## The scanner on truncated and malformed headers -/

/-- C14: on a buffer with 1 to 3 bytes left at the current level, on a header whose
declared length is below the header size, and on a header whose declared length
extends past the bytes left, `Next` returns false, `Err` is non-none afterwards and
the cursor has not moved; when no byte is left, `Next` returns false and leaves the
scanner, hence `Err`, as it was. When `Next` returns true, the value of the attribute
and the new cursor lie inside the bytes that were left: nothing is read past the
buffer bound. -/
theorem Next_malformed_or_exhausted :
    (∀ s : AttributeScanner, 1 ≤ s.rest.length → s.rest.length ≤ 3 →
      s.Next.1 = false ∧ s.Next.2.Err ≠ none ∧ s.Next.2.rest = s.rest) ∧
    (∀ (s : AttributeScanner) (l0 l1 t0 t1 : Byte) (body : List Byte),
      s.rest = l0 :: l1 :: t0 :: t1 :: body → hostUint16 l0 l1 < nlaHeaderLen →
      s.Next.1 = false ∧ s.Next.2.Err ≠ none ∧ s.Next.2.rest = s.rest) ∧
    (∀ (s : AttributeScanner) (l0 l1 t0 t1 : Byte) (body : List Byte),
      s.rest = l0 :: l1 :: t0 :: t1 :: body → nlaHeaderLen + body.length < hostUint16 l0 l1 →
      s.Next.1 = false ∧ s.Next.2.Err ≠ none ∧ s.Next.2.rest = s.rest) ∧
    (∀ s : AttributeScanner, s.rest = [] → s.Next = (false, s)) ∧
    (∀ s s1 : AttributeScanner, s.Next = (true, s1) →
      s1.data <:+: s.rest ∧ s1.rest <:+ s.rest ∧ s1.Err = s.Err) := by
  have hrec : ∀ (s : AttributeScanner) (e : Error),
      (s.record e).Err ≠ none ∧ (s.record e).rest = s.rest := by
    intro s e
    unfold AttributeScanner.record AttributeScanner.Err
    cases h : s.err <;> simp [h]
  refine ⟨?_, ?_, ?_, ?_, ?_⟩
  · intro s h1 h3
    obtain ⟨rest, ty, d, e⟩ := s
    rcases rest with _ | ⟨a, _ | ⟨b, _ | ⟨c, _ | ⟨d1, body⟩⟩⟩⟩
    · simp at h1
    · exact ⟨rfl, hrec _ _⟩
    · exact ⟨rfl, hrec _ _⟩
    · exact ⟨rfl, hrec _ _⟩
    · simp at h3
  · intro s l0 l1 t0 t1 body hs hlen
    have hN : s.Next = (false, s.record Error.invalidAttribute) := by
      unfold AttributeScanner.Next
      rw [hs]
      simp only [hlen, true_or, if_true]
    rw [hN]
    exact ⟨rfl, hrec _ _⟩
  · intro s l0 l1 t0 t1 body hs hlen
    have hN : s.Next = (false, s.record Error.invalidAttribute) := by
      unfold AttributeScanner.Next
      rw [hs]
      simp only [hlen, or_true, if_true]
    rw [hN]
    exact ⟨rfl, hrec _ _⟩
  · intro s hs
    exact Next_nil hs
  · intro s s1 h
    unfold AttributeScanner.Next at h
    split at h
    · simp at h
    · rename_i l0 l1 t0 t1 body heq
      dsimp only at h
      split at h
      · simp at h
      · simp only [Prod.mk.injEq, true_and] at h
        subst h
        refine ⟨?_, ?_, rfl⟩
        · rw [heq]
          exact (List.take_prefix _ _).isInfix.trans
            (List.IsSuffix.isInfix ⟨[l0, l1, t0, t1], rfl⟩)
        · rw [heq]
          exact (List.drop_suffix _ _).trans ⟨[l0, l1, t0, t1], rfl⟩
    · simp at h

theorem Next_malformed_or_exhausted_witness :
    (1 ≤ ({ rest := [8, 0, 1] } : AttributeScanner).rest.length ∧
      ({ rest := [8, 0, 1] } : AttributeScanner).rest.length ≤ 3) ∧
    (AttributeScanner.Next { rest := [8, 0, 1] }).1 = false ∧
    (AttributeScanner.Next { rest := [8, 0, 1] }).2.Err ≠ none ∧
    (AttributeScanner.Next { rest := [8, 0, 1] }).2.rest
      = ({ rest := [8, 0, 1] } : AttributeScanner).rest :=
  ⟨by decide, Next_malformed_or_exhausted.1 { rest := [8, 0, 1] } (by decide) (by decide)⟩

/-! ## Address pairs -/

theorem unmarshalTupleIP_one_src (typ : Nat) (v tail : List Byte) (ty0 : Nat) (d0 : List Byte)
    (err : Option Error) (t : IPTuple) (n : Nat)
    (ht : typ = ctaIPv4Src ∨ typ = ctaIPv6Src) (hv : nlaHeaderLen + v.length < 65536) :
    unmarshalTupleIPLoop (encodeAttr typ v ++ tail).length (n + 1)
        ⟨encodeAttr typ v ++ tail, ty0, d0, err⟩ t =
      unmarshalTupleIPLoop tail.length n ⟨tail, typ, v, err⟩ { t with Src := some v } := by
  have h1 : typ < 65536 := by rcases ht with h | h <;> rw [h] <;> decide
  have h2 : typ % (nlaTypeMask + 1) = ctaIPv4Src ∨ typ % (nlaTypeMask + 1) = ctaIPv6Src := by
    rcases ht with h | h <;> rw [h] <;> decide
  exact unmarshalTupleIPLoop_src n t h1 h2 hv (le_refl _)

theorem unmarshalTupleIP_one_dst (typ : Nat) (v tail : List Byte) (ty0 : Nat) (d0 : List Byte)
    (err : Option Error) (t : IPTuple) (n : Nat)
    (ht : typ = ctaIPv4Dst ∨ typ = ctaIPv6Dst) (hv : nlaHeaderLen + v.length < 65536) :
    unmarshalTupleIPLoop (encodeAttr typ v ++ tail).length (n + 1)
        ⟨encodeAttr typ v ++ tail, ty0, d0, err⟩ t =
      unmarshalTupleIPLoop tail.length n ⟨tail, typ, v, err⟩ { t with Dst := some v } := by
  have h1 : typ < 65536 := by rcases ht with h | h <;> rw [h] <;> decide
  have h2 : typ % (nlaTypeMask + 1) = ctaIPv4Dst ∨ typ % (nlaTypeMask + 1) = ctaIPv6Dst := by
    rcases ht with h | h <;> rw [h] <;> decide
  exact unmarshalTupleIPLoop_dst n t h1 h2 hv (le_refl _)

/-- C12: on an address pair that holds only a source address attribute (ipv4-src or
ipv6-src), `unmarshalTupleIP` returns no error (the error returned is the one the
scanner held before, none on a scanner with no error) and sets `Src` to the value of
the attribute; `Dst` is left as it was, unset on a fresh tuple. Symmetrically, an
address pair that holds only a destination address attribute sets `Dst` and leaves
`Src` as it was. -/
theorem unmarshalTupleIP_single_side :
    (∀ (typ : Nat) (v : List Byte) (ty0 : Nat) (d0 : List Byte) (err : Option Error)
        (t : IPTuple),
      (typ = ctaIPv4Src ∨ typ = ctaIPv6Src) → nlaHeaderLen + v.length < 65536 →
      unmarshalTupleIP ⟨encodeAttr typ v, ty0, d0, err⟩ t =
        .ok (⟨[], typ, v, err⟩, { Src := some v, Dst := t.Dst, Proto := t.Proto }, err)) ∧
    (∀ (typ : Nat) (v : List Byte) (ty0 : Nat) (d0 : List Byte) (err : Option Error)
        (t : IPTuple),
      (typ = ctaIPv4Dst ∨ typ = ctaIPv6Dst) → nlaHeaderLen + v.length < 65536 →
      unmarshalTupleIP ⟨encodeAttr typ v, ty0, d0, err⟩ t =
        .ok (⟨[], typ, v, err⟩, { Src := t.Src, Dst := some v, Proto := t.Proto }, err)) ∧
    (∀ (v : List Byte), nlaHeaderLen + v.length < 65536 →
      unmarshalTupleIP ⟨encodeAttr ctaIPv4Src v, 0, [], none⟩ {} =
        .ok (⟨[], ctaIPv4Src, v, none⟩, { Src := some v, Dst := none, Proto := none }, none)) ∧
    (∀ (v : List Byte), nlaHeaderLen + v.length < 65536 →
      unmarshalTupleIP ⟨encodeAttr ctaIPv4Dst v, 0, [], none⟩ {} =
        .ok (⟨[], ctaIPv4Dst, v, none⟩, { Src := none, Dst := some v, Proto := none }, none)) := by
  have hsrc : ∀ (typ : Nat) (v : List Byte) (ty0 : Nat) (d0 : List Byte) (err : Option Error)
      (t : IPTuple),
      (typ = ctaIPv4Src ∨ typ = ctaIPv6Src) → nlaHeaderLen + v.length < 65536 →
      unmarshalTupleIP ⟨encodeAttr typ v, ty0, d0, err⟩ t =
        .ok (⟨[], typ, v, err⟩, { Src := some v, Dst := t.Dst, Proto := t.Proto }, err) := by
    intro typ v ty0 d0 err t ht hv
    have h := unmarshalTupleIP_one_src typ v [] ty0 d0 err t 1 ht hv
    simp only [List.append_nil] at h
    simp only [unmarshalTupleIP, h, List.length_nil,
      unmarshalTupleIPLoop_nil 0 1 ⟨[], typ, v, err⟩ _ rfl, AttributeScanner.Err]
  have hdst : ∀ (typ : Nat) (v : List Byte) (ty0 : Nat) (d0 : List Byte) (err : Option Error)
      (t : IPTuple),
      (typ = ctaIPv4Dst ∨ typ = ctaIPv6Dst) → nlaHeaderLen + v.length < 65536 →
      unmarshalTupleIP ⟨encodeAttr typ v, ty0, d0, err⟩ t =
        .ok (⟨[], typ, v, err⟩, { Src := t.Src, Dst := some v, Proto := t.Proto }, err) := by
    intro typ v ty0 d0 err t ht hv
    have h := unmarshalTupleIP_one_dst typ v [] ty0 d0 err t 1 ht hv
    simp only [List.append_nil] at h
    simp only [unmarshalTupleIP, h, List.length_nil,
      unmarshalTupleIPLoop_nil 0 1 ⟨[], typ, v, err⟩ _ rfl, AttributeScanner.Err]
  exact ⟨hsrc, hdst, fun v hv => hsrc _ v 0 [] none {} (Or.inl rfl) hv,
    fun v hv => hdst _ v 0 [] none {} (Or.inl rfl) hv⟩

theorem unmarshalTupleIP_single_side_witness :
    ((ctaIPv6Src = ctaIPv4Src ∨ ctaIPv6Src = ctaIPv6Src) ∧
      nlaHeaderLen + ([1, 2, 3, 4] : List Byte).length < 65536) ∧
    unmarshalTupleIP ⟨encodeAttr ctaIPv6Src [1, 2, 3, 4], 0, [], none⟩ {} =
      .ok (⟨[], ctaIPv6Src, [1, 2, 3, 4], none⟩,
        { Src := some [1, 2, 3, 4], Dst := none, Proto := none }, none) :=
  ⟨by decide, unmarshalTupleIP_single_side.1 ctaIPv6Src [1, 2, 3, 4] 0 [] none {}
    (by decide) (by decide)⟩

/-- C17: in an address pair whose attributes are, in order, ipv4-src with value `A`,
ipv6-src with value `B` and then anything else (in particular a destination address
attribute), `unmarshalTupleIP` sets `Src` to `B`: the second source attribute overwrites
the first, the two use up the countdown of 2, and what follows is left unread, so
`Dst` stays as it was (unset on a fresh tuple). -/
theorem unmarshalTupleIP_last_src_wins :
    (∀ (A B tail : List Byte) (ty0 : Nat) (d0 : List Byte) (err : Option Error) (t : IPTuple),
      nlaHeaderLen + A.length < 65536 → nlaHeaderLen + B.length < 65536 →
      unmarshalTupleIP
          ⟨encodeAttr ctaIPv4Src A ++ (encodeAttr ctaIPv6Src B ++ tail), ty0, d0, err⟩ t =
        .ok (⟨tail, ctaIPv6Src, B, err⟩,
             { Src := some B, Dst := t.Dst, Proto := t.Proto }, err)) ∧
    (∀ (A B D : List Byte), nlaHeaderLen + A.length < 65536 →
      nlaHeaderLen + B.length < 65536 →
      unmarshalTupleIP
          ⟨encodeAttr ctaIPv4Src A ++ (encodeAttr ctaIPv6Src B ++ encodeAttr ctaIPv4Dst D),
            0, [], none⟩ {} =
        .ok (⟨encodeAttr ctaIPv4Dst D, ctaIPv6Src, B, none⟩,
             { Src := some B, Dst := none, Proto := none }, none)) := by
  have key : ∀ (A B tail : List Byte) (ty0 : Nat) (d0 : List Byte) (err : Option Error)
      (t : IPTuple),
      nlaHeaderLen + A.length < 65536 → nlaHeaderLen + B.length < 65536 →
      unmarshalTupleIP
          ⟨encodeAttr ctaIPv4Src A ++ (encodeAttr ctaIPv6Src B ++ tail), ty0, d0, err⟩ t =
        .ok (⟨tail, ctaIPv6Src, B, err⟩,
             { Src := some B, Dst := t.Dst, Proto := t.Proto }, err) := by
    intro A B tail ty0 d0 err t hA hB
    have h1 := unmarshalTupleIP_one_src ctaIPv4Src A (encodeAttr ctaIPv6Src B ++ tail)
      ty0 d0 err t 1 (Or.inl rfl) hA
    have h2 := unmarshalTupleIP_one_src ctaIPv6Src B tail ctaIPv4Src A err
      { t with Src := some A } 0 (Or.inr rfl) hB
    simp only [unmarshalTupleIP, h1, h2, unmarshalTupleIPLoop_zero, AttributeScanner.Err]
  exact ⟨key, fun A B D hA hB => key A B _ 0 [] none {} hA hB⟩

theorem unmarshalTupleIP_last_src_wins_witness :
    (nlaHeaderLen + ([10, 0, 0, 1] : List Byte).length < 65536 ∧
      nlaHeaderLen + ([1, 2, 3, 4, 5, 6, 7, 8, 9, 10, 11, 12, 13, 14, 15, 16] : List Byte).length
        < 65536) ∧
    unmarshalTupleIP
        ⟨encodeAttr ctaIPv4Src [10, 0, 0, 1] ++
          (encodeAttr ctaIPv6Src [1, 2, 3, 4, 5, 6, 7, 8, 9, 10, 11, 12, 13, 14, 15, 16] ++
            encodeAttr ctaIPv4Dst [10, 0, 0, 2]), 0, [], none⟩ {} =
      .ok (⟨encodeAttr ctaIPv4Dst [10, 0, 0, 2], ctaIPv6Src,
            [1, 2, 3, 4, 5, 6, 7, 8, 9, 10, 11, 12, 13, 14, 15, 16], none⟩,
           { Src := some [1, 2, 3, 4, 5, 6, 7, 8, 9, 10, 11, 12, 13, 14, 15, 16],
             Dst := none, Proto := none }, none) :=
  ⟨by decide, unmarshalTupleIP_last_src_wins.2 _ _ _ (by decide) (by decide)⟩


/-- C18: an address attribute is stored as it is, with no check of its length or of the
address family. `copySlice` returns a sequence with the length and the content of its
argument. For every value `v` of any length that an attribute can carry, under each of
the four address type codes: `unmarshalTupleIP` on an address pair that holds the
attribute alone returns no error of its own (the error returned is the one the scanner
held before) and the tuple whose `Src` (for ipv4-src and ipv6-src) or `Dst` (for
ipv4-dst and ipv6-dst) is exactly `v`, so a value of `n` bytes is decoded to an address
of exactly `n` bytes, equal to it; on an address pair
with a source attribute of value `A` and a destination attribute of value `B`, of any
two lengths and under any two type codes, it returns `Src = A` and `Dst = B`; inside a
message, `unmarshalCon` returns them in `Origin`. This covers a value of 0, 3 or 5
bytes, a 16-byte value under an ipv4 type code and a value longer than 16 bytes. -/
theorem unmarshalTupleIP_address_verbatim :
    (∀ src : List Byte, copySlice src = src ∧ (copySlice src).length = src.length) ∧
    (∀ (typ : Nat) (v : List Byte) (ty0 : Nat) (d0 : List Byte) (err : Option Error)
        (t : IPTuple),
      (typ = ctaIPv4Src ∨ typ = ctaIPv6Src) → nlaHeaderLen + v.length < 65536 →
      unmarshalTupleIP ⟨encodeAttr typ v, ty0, d0, err⟩ t =
        .ok (⟨[], typ, v, err⟩, { Src := some v, Dst := t.Dst, Proto := t.Proto }, err)) ∧
    (∀ (typ : Nat) (v : List Byte) (ty0 : Nat) (d0 : List Byte) (err : Option Error)
        (t : IPTuple),
      (typ = ctaIPv4Dst ∨ typ = ctaIPv6Dst) → nlaHeaderLen + v.length < 65536 →
      unmarshalTupleIP ⟨encodeAttr typ v, ty0, d0, err⟩ t =
        .ok (⟨[], typ, v, err⟩, { Src := t.Src, Dst := some v, Proto := t.Proto }, err)) ∧
    (∀ (typS typD : Nat) (A B tail : List Byte) (ty0 : Nat) (d0 : List Byte)
        (err : Option Error) (t : IPTuple),
      (typS = ctaIPv4Src ∨ typS = ctaIPv6Src) → (typD = ctaIPv4Dst ∨ typD = ctaIPv6Dst) →
      nlaHeaderLen + A.length < 65536 → nlaHeaderLen + B.length < 65536 →
      unmarshalTupleIP ⟨encodeAttr typS A ++ (encodeAttr typD B ++ tail), ty0, d0, err⟩ t =
        .ok (⟨tail, typD, B, err⟩, { Src := some A, Dst := some B, Proto := t.Proto }, err)) ∧
    (∀ (typ n : Nat) (v : List Byte),
      (typ = ctaIPv4Src ∨ typ = ctaIPv6Src) → v.length = n → nlaHeaderLen + n < 65536 →
      ∃ (s1 : AttributeScanner) (a : List Byte),
        unmarshalTupleIP ⟨encodeAttr typ v, 0, [], none⟩ {} =
          .ok (s1, { Src := some a, Dst := none, Proto := none }, none) ∧
        a.length = n ∧ a = v) ∧
    (∀ (typ n : Nat) (v : List Byte),
      (typ = ctaIPv4Dst ∨ typ = ctaIPv6Dst) → v.length = n → nlaHeaderLen + n < 65536 →
      ∃ (s1 : AttributeScanner) (a : List Byte),
        unmarshalTupleIP ⟨encodeAttr typ v, 0, [], none⟩ {} =
          .ok (s1, { Src := none, Dst := some a, Proto := none }, none) ∧
        a.length = n ∧ a = v) ∧
    (∀ (typS typD : Nat) (A B : List Byte) (c : Con),
      (typS = ctaIPv4Src ∨ typS = ctaIPv6Src) → (typD = ctaIPv4Dst ∨ typD = ctaIPv6Dst) →
      A.length ≤ 16000 → B.length ≤ 16000 →
      unmarshalCon (AttributeScanner.ResetTo NewAttributeScanner
          (encodeAttr ctaTupleOrig
            (encodeAttr ctaTupleIP (encodeAttr typS A ++ encodeAttr typD B)))) c =
        .ok (⟨[], ctaTupleOrig,
              encodeAttr ctaTupleIP (encodeAttr typS A ++ encodeAttr typD B), none⟩,
             { Origin := some { Src := some A, Dst := some B, Proto := none },
               Reply := some {} }, none)) ∧
    unmarshalTupleIP ⟨encodeAttr ctaIPv4Src [], 0, [], none⟩ {} =
      .ok (⟨[], ctaIPv4Src, [], none⟩, { Src := some [] }, none) ∧
    unmarshalTupleIP ⟨encodeAttr ctaIPv6Dst [1, 2, 3], 0, [], none⟩ {} =
      .ok (⟨[], ctaIPv6Dst, [1, 2, 3], none⟩, { Dst := some [1, 2, 3] }, none) ∧
    unmarshalTupleIP ⟨encodeAttr ctaIPv4Dst [1, 2, 3, 4, 5], 0, [], none⟩ {} =
      .ok (⟨[], ctaIPv4Dst, [1, 2, 3, 4, 5], none⟩, { Dst := some [1, 2, 3, 4, 5] }, none) ∧
    unmarshalTupleIP
        ⟨encodeAttr ctaIPv4Src [1, 2, 3, 4, 5, 6, 7, 8, 9, 10, 11, 12, 13, 14, 15, 16],
          0, [], none⟩ {} =
      .ok (⟨[], ctaIPv4Src, [1, 2, 3, 4, 5, 6, 7, 8, 9, 10, 11, 12, 13, 14, 15, 16], none⟩,
           { Src := some [1, 2, 3, 4, 5, 6, 7, 8, 9, 10, 11, 12, 13, 14, 15, 16] }, none) := by
  have hsrc : ∀ (typ : Nat) (v : List Byte) (ty0 : Nat) (d0 : List Byte) (err : Option Error)
      (t : IPTuple),
      (typ = ctaIPv4Src ∨ typ = ctaIPv6Src) → nlaHeaderLen + v.length < 65536 →
      unmarshalTupleIP ⟨encodeAttr typ v, ty0, d0, err⟩ t =
        .ok (⟨[], typ, v, err⟩, { Src := some v, Dst := t.Dst, Proto := t.Proto }, err) := by
    intro typ v ty0 d0 err t ht hv
    have h := unmarshalTupleIP_one_src typ v [] ty0 d0 err t 1 ht hv
    simp only [List.append_nil] at h
    simp only [unmarshalTupleIP, h, List.length_nil,
      unmarshalTupleIPLoop_nil 0 1 ⟨[], typ, v, err⟩ _ rfl, AttributeScanner.Err]
  have hdst : ∀ (typ : Nat) (v : List Byte) (ty0 : Nat) (d0 : List Byte) (err : Option Error)
      (t : IPTuple),
      (typ = ctaIPv4Dst ∨ typ = ctaIPv6Dst) → nlaHeaderLen + v.length < 65536 →
      unmarshalTupleIP ⟨encodeAttr typ v, ty0, d0, err⟩ t =
        .ok (⟨[], typ, v, err⟩, { Src := t.Src, Dst := some v, Proto := t.Proto }, err) := by
    intro typ v ty0 d0 err t ht hv
    have h := unmarshalTupleIP_one_dst typ v [] ty0 d0 err t 1 ht hv
    simp only [List.append_nil] at h
    simp only [unmarshalTupleIP, h, List.length_nil,
      unmarshalTupleIPLoop_nil 0 1 ⟨[], typ, v, err⟩ _ rfl, AttributeScanner.Err]
  have hboth : ∀ (typS typD : Nat) (A B tail : List Byte) (ty0 : Nat) (d0 : List Byte)
      (err : Option Error) (t : IPTuple),
      (typS = ctaIPv4Src ∨ typS = ctaIPv6Src) → (typD = ctaIPv4Dst ∨ typD = ctaIPv6Dst) →
      nlaHeaderLen + A.length < 65536 → nlaHeaderLen + B.length < 65536 →
      unmarshalTupleIP ⟨encodeAttr typS A ++ (encodeAttr typD B ++ tail), ty0, d0, err⟩ t =
        .ok (⟨tail, typD, B, err⟩, { Src := some A, Dst := some B, Proto := t.Proto },
          err) := by
    intro typS typD A B tail ty0 d0 err t hS hD hA hB
    have h1 := unmarshalTupleIP_one_src typS A (encodeAttr typD B ++ tail) ty0 d0 err t 1 hS hA
    have h2 := unmarshalTupleIP_one_dst typD B tail typS A err { t with Src := some A } 0 hD hB
    simp only [unmarshalTupleIP, h1, h2, unmarshalTupleIPLoop_zero, AttributeScanner.Err]
  refine ⟨?_, hsrc, hdst, hboth, ?_, ?_, ?_, by rfl, by rfl, by rfl, by rfl⟩
  · intro src
    rw [copySlice_eq]
    exact ⟨rfl, rfl⟩
  · intro typ n v ht hn hv
    exact ⟨_, v, hsrc typ v 0 [] none {} ht (by rw [hn]; exact hv), hn, rfl⟩
  · intro typ n v ht hn hv
    exact ⟨_, v, hdst typ v 0 [] none {} ht (by rw [hn]; exact hv), hn, rfl⟩
  · intro typS typD A B c hS hD hA hB
    have hSl : typS < 65536 := by rcases hS with h | h <;> rw [h] <;> decide
    have hDl : typD < 65536 := by rcases hD with h | h <;> rw [h] <;> decide
    have hAa : nlaAlign A.length ≤ A.length + 3 := by unfold nlaAlign; omega
    have hBa : nlaAlign B.length ≤ B.length + 3 := by unfold nlaAlign; omega
    have hpair : (encodeAttr typS A ++ encodeAttr typD B).length ≤ 32014 := by
      simp only [List.length_append, encodeAttr_length, nlaHeaderLen]
      omega
    have hal : ∀ k : Nat, nlaAlign k ≤ k + 3 := by intro k; unfold nlaAlign; omega
    have hip : (encodeAttr ctaTupleIP (encodeAttr typS A ++ encodeAttr typD B)).length
        ≤ 32021 := by
      have := hal (encodeAttr typS A ++ encodeAttr typD B).length
      rw [encodeAttr_length, nlaHeaderLen]
      omega
    have hI : unmarshalTupleIP ⟨encodeAttr typS A ++ encodeAttr typD B, 0, [], none⟩ {} =
        .ok (⟨[], typD, B, none⟩, { Src := some A, Dst := some B, Proto := none }, none) := by
      have h := hboth typS typD A B [] 0 [] none {} hS hD
        (by rw [nlaHeaderLen]; omega) (by rw [nlaHeaderLen]; omega)
      rw [List.append_nil] at h
      exact h
    have hT : unmarshalTuple
        ⟨encodeAttr ctaTupleIP (encodeAttr typS A ++ encodeAttr typD B), 0, [], none⟩ {} =
        .ok (⟨[], ctaTupleIP, encodeAttr typS A ++ encodeAttr typD B, none⟩,
          { Src := some A, Dst := some B, Proto := none }, none) := by
      have h : unmarshalTupleLoop
          (encodeAttr ctaTupleIP (encodeAttr typS A ++ encodeAttr typD B)).length 2
          ⟨encodeAttr ctaTupleIP (encodeAttr typS A ++ encodeAttr typD B) ++ [], 0, [], none⟩
          {} = _ :=
        unmarshalTupleLoop_ip 1 _ (by decide) (by decide)
          (by rw [nlaHeaderLen]; omega) (by simp)
      rw [List.append_nil, hI] at h
      simp only [unmarshalTuple, h, List.length_nil,
        unmarshalTupleLoop_nil 0 1 ⟨[], ctaTupleIP, _, none⟩ _ rfl, AttributeScanner.Err]
    have h : unmarshalConLoop
        (encodeAttr ctaTupleOrig
          (encodeAttr ctaTupleIP (encodeAttr typS A ++ encodeAttr typD B))).length 2
        ⟨encodeAttr ctaTupleOrig
          (encodeAttr ctaTupleIP (encodeAttr typS A ++ encodeAttr typD B)) ++ [], 0, [], none⟩
        {} {} = _ :=
      unmarshalConLoop_orig 1 _ _ (by decide) (by decide) (by rw [nlaHeaderLen]; omega)
        (by simp)
    rw [List.append_nil, hT] at h
    simp only [unmarshalCon, AttributeScanner.ResetTo, h, List.length_nil,
      unmarshalConLoop_nil 0 1 ⟨[], ctaTupleOrig, _, none⟩ _ _ rfl, AttributeScanner.Err]

theorem unmarshalTupleIP_address_verbatim_witness :
    ((ctaIPv4Src = ctaIPv4Src ∨ ctaIPv4Src = ctaIPv6Src) ∧
      (ctaIPv6Dst = ctaIPv4Dst ∨ ctaIPv6Dst = ctaIPv6Dst) ∧
      nlaHeaderLen + ([1, 2, 3, 4, 5, 6, 7, 8, 9, 10, 11, 12, 13, 14, 15, 16, 17, 18, 19, 20]
        : List Byte).length < 65536 ∧
      nlaHeaderLen + ([7, 7, 7] : List Byte).length < 65536) ∧
    unmarshalTupleIP
        ⟨encodeAttr ctaIPv4Src
            [1, 2, 3, 4, 5, 6, 7, 8, 9, 10, 11, 12, 13, 14, 15, 16, 17, 18, 19, 20] ++
          (encodeAttr ctaIPv6Dst [7, 7, 7] ++ []), 0, [], none⟩ {} =
      .ok (⟨[], ctaIPv6Dst, [7, 7, 7], none⟩,
           { Src := some [1, 2, 3, 4, 5, 6, 7, 8, 9, 10, 11, 12, 13, 14, 15, 16, 17, 18, 19, 20],
             Dst := some [7, 7, 7], Proto := none }, none) :=
  ⟨by decide, unmarshalTupleIP_address_verbatim.2.2.2.1 ctaIPv4Src ctaIPv6Dst
    [1, 2, 3, 4, 5, 6, 7, 8, 9, 10, 11, 12, 13, 14, 15, 16, 17, 18, 19, 20] [7, 7, 7] [] 0 []
    none {} (by decide) (by decide) (by decide) (by decide)⟩

/-! ## Bytes after the last attribute a level decodes -/

theorem SameOutcomeUpTo_attrs {σ : Type}
    (L : Nat → Nat → AttributeScanner → σ → Except Panic (AttributeScanner × σ))
    (known : Nat → Prop)
    (hzero : ∀ A B : List Byte, SameOutcomeUpTo 0 L A B)
    (hcount : ∀ (a : Nat × List Byte) (A B : List Byte) (k : Nat), AttrFits a → known a.1 →
      SameOutcomeUpTo k L A B →
      SameOutcomeUpTo (k + 1) L (encodeAttr a.1 a.2 ++ A) (encodeAttr a.1 a.2 ++ B))
    (as : List (Nat × List Byte)) (has : ∀ a ∈ as, AttrFits a ∧ known a.1) (A B : List Byte) :
    SameOutcomeUpTo as.length L (encodeAttrs as ++ A) (encodeAttrs as ++ B) := by
  induction as with
  | nil => simpa [encodeAttrs] using hzero A B
  | cons a as ih =>
    have h1 := ih (fun x hx => has x (List.mem_cons_of_mem _ hx))
    have ha := has a (List.mem_cons_self _ _)
    have h2 := hcount a _ _ _ ha.1 ha.2 h1
    simpa [encodeAttrs, List.append_assoc] using h2

theorem unmarshalProtoLoop_upTo_zero (A B : List Byte) :
    SameOutcomeUpTo 0 unmarshalProtoLoop A B := by
  intro n hn err ty0 ty1 d0 d1 x
  have h0 : n = 0 := by omega
  subst h0
  simp only [unmarshalProtoLoop_zero, observe]

theorem unmarshalProtoLoop_upTo_cons (a : Nat × List Byte) (A B : List Byte) (k : Nat)
    (ha : AttrFits a) (hk : protoKnown a.1) (h : SameOutcomeUpTo k unmarshalProtoLoop A B) :
    SameOutcomeUpTo (k + 1) unmarshalProtoLoop
      (encodeAttr a.1 a.2 ++ A) (encodeAttr a.1 a.2 ++ B) := by
  intro n hn err ty0 ty1 d0 d1 x
  cases n with
  | zero => simp only [unmarshalProtoLoop_zero, observe]
  | succ n =>
    have hn1 : n ≤ k := by omega
    have hNA := Next_encodeAttr ⟨encodeAttr a.1 a.2 ++ A, ty0, d0, err⟩ a.1 a.2 A ha.1 ha.2 rfl
    have hNB := Next_encodeAttr ⟨encodeAttr a.1 a.2 ++ B, ty1, d1, err⟩ a.1 a.2 B ha.1 ha.2 rfl
    rw [unmarshalProtoLoop_step n x (le_refl _) hNA,
      unmarshalProtoLoop_step n x (le_refl _) hNB]
    simp only [AttributeScanner.Bytes, AttributeScanner.Type_]
    by_cases c1 : a.1 % (nlaTypeMask + 1) = ctaProtoNum
    · simp only [if_pos c1]
      cases firstByte a.2 with
      | error e => rfl
      | ok v => exact h n hn1 _ _ _ _ _ _
    · by_cases c2 : a.1 % (nlaTypeMask + 1) = ctaProtoSrcPort
      · simp only [if_neg c1, if_pos c2]
        cases bigEndianUint16 a.2 with
        | error e => rfl
        | ok v => exact h n hn1 _ _ _ _ _ _
      · by_cases c3 : a.1 % (nlaTypeMask + 1) = ctaProtoDstPort
        · simp only [if_neg c1, if_neg c2, if_pos c3]
          cases bigEndianUint16 a.2 with
          | error e => rfl
          | ok v => exact h n hn1 _ _ _ _ _ _
        · rcases hk with hk | hk | hk
          · exact absurd hk c1
          · exact absurd hk c2
          · exact absurd hk c3

theorem unmarshalTupleIPLoop_upTo_zero (A B : List Byte) :
    SameOutcomeUpTo 0 (fun f n s t => .ok (unmarshalTupleIPLoop f n s t)) A B := by
  intro n hn err ty0 ty1 d0 d1 x
  have h0 : n = 0 := by omega
  subst h0
  simp only [unmarshalTupleIPLoop_zero, observe]

theorem unmarshalTupleIPLoop_upTo_cons (a : Nat × List Byte) (A B : List Byte) (k : Nat)
    (ha : AttrFits a) (hk : addrKnown a.1)
    (h : SameOutcomeUpTo k (fun f n s t => .ok (unmarshalTupleIPLoop f n s t)) A B) :
    SameOutcomeUpTo (k + 1) (fun f n s t => .ok (unmarshalTupleIPLoop f n s t))
      (encodeAttr a.1 a.2 ++ A) (encodeAttr a.1 a.2 ++ B) := by
  intro n hn err ty0 ty1 d0 d1 x
  cases n with
  | zero => simp only [unmarshalTupleIPLoop_zero, observe]
  | succ n =>
    have hn1 : n ≤ k := by omega
    rcases hk with hk | hk
    · simp only [unmarshalTupleIPLoop_src n x ha.1 hk ha.2 (le_refl _)]
      exact h n hn1 _ _ _ _ _ _
    · simp only [unmarshalTupleIPLoop_dst n x ha.1 hk ha.2 (le_refl _)]
      exact h n hn1 _ _ _ _ _ _

theorem unmarshalTupleLoop_upTo_zero (A B : List Byte) :
    SameOutcomeUpTo 0 unmarshalTupleLoop A B := by
  intro n hn err ty0 ty1 d0 d1 x
  have h0 : n = 0 := by omega
  subst h0
  simp only [unmarshalTupleLoop_zero, observe]

theorem unmarshalTupleLoop_upTo_cons (a : Nat × List Byte) (A B : List Byte) (k : Nat)
    (ha : AttrFits a) (hk : tupleKnown a.1) (h : SameOutcomeUpTo k unmarshalTupleLoop A B) :
    SameOutcomeUpTo (k + 1) unmarshalTupleLoop
      (encodeAttr a.1 a.2 ++ A) (encodeAttr a.1 a.2 ++ B) := by
  intro n hn err ty0 ty1 d0 d1 x
  cases n with
  | zero => simp only [unmarshalTupleLoop_zero, observe]
  | succ n =>
    have hn1 : n ≤ k := by omega
    rcases hk with hk | hk
    · rw [unmarshalTupleLoop_ip n x ha.1 hk ha.2 (le_refl _),
        unmarshalTupleLoop_ip n x ha.1 hk ha.2 (le_refl _)]
      cases unmarshalTupleIP ⟨a.2, 0, [], err⟩ x with
      | error e => rfl
      | ok r => exact h n hn1 _ _ _ _ _ _
    · rw [unmarshalTupleLoop_proto n x ha.1 hk ha.2 (le_refl _),
        unmarshalTupleLoop_proto n x ha.1 hk ha.2 (le_refl _)]
      cases unmarshalProto ⟨a.2, 0, [], err⟩ x with
      | error e => rfl
      | ok r => exact h n hn1 _ _ _ _ _ _

theorem unmarshalConLoop_upTo_zero (A B : List Byte) :
    SameOutcomeUpTo 0
      (fun f n s (x : IPTuple × IPTuple) => unmarshalConLoop f n s x.1 x.2) A B := by
  intro n hn err ty0 ty1 d0 d1 x
  have h0 : n = 0 := by omega
  subst h0
  simp only [unmarshalConLoop_zero, observe]

theorem unmarshalConLoop_upTo_cons (a : Nat × List Byte) (A B : List Byte) (k : Nat)
    (ha : AttrFits a) (hk : conKnown a.1)
    (h : SameOutcomeUpTo k
      (fun f n s (x : IPTuple × IPTuple) => unmarshalConLoop f n s x.1 x.2) A B) :
    SameOutcomeUpTo (k + 1)
      (fun f n s (x : IPTuple × IPTuple) => unmarshalConLoop f n s x.1 x.2)
      (encodeAttr a.1 a.2 ++ A) (encodeAttr a.1 a.2 ++ B) := by
  intro n hn err ty0 ty1 d0 d1 x
  cases n with
  | zero => simp only [unmarshalConLoop_zero, observe]
  | succ n =>
    have hn1 : n ≤ k := by omega
    rcases hk with hk | hk
    · simp only [unmarshalConLoop_orig n x.1 x.2 ha.1 hk ha.2 (le_refl _)]
      cases unmarshalTuple ⟨a.2, 0, [], err⟩ x.1 with
      | error e => rfl
      | ok r => exact h n hn1 r.1.err _ _ _ _ (r.2.1, x.2)
    · simp only [unmarshalConLoop_reply n x.1 x.2 ha.1 hk ha.2 (le_refl _)]
      cases unmarshalTuple ⟨a.2, 0, [], err⟩ x.2 with
      | error e => rfl
      | ok r => exact h n hn1 r.1.err _ _ _ _ (x.1, r.2.1)


/-- C16: each level stops scanning once it has decoded as many recognised attributes
as its countdown allows: 2 at the connection level, 2 in an IP-tuple, 2 in an address
pair, 3 in a protocol tuple. The bytes after them are not examined: whatever bytes
follow, the decoded data and the error are the same. In particular, after a
well-formed tuple-orig and a well-formed tuple-reply attribute, appended bytes change
neither the tuple nor the error, and `sampleMessage1` followed by the single byte 1
(a truncated header) decodes to `sampleCon1` with no error. -/
theorem trailing_bytes_not_examined :
    (∀ (as : List (Nat × List Byte)) (tail1 tail2 : List Byte) (c : Con),
      (∀ a ∈ as, AttrFits a ∧ conKnown a.1) → as.length = 2 →
      Except.map (fun r => r.2) (unmarshalCon
          (AttributeScanner.ResetTo NewAttributeScanner (encodeAttrs as ++ tail1)) c)
        = Except.map (fun r => r.2) (unmarshalCon
          (AttributeScanner.ResetTo NewAttributeScanner (encodeAttrs as ++ tail2)) c)) ∧
    (∀ (as : List (Nat × List Byte)) (tail1 tail2 : List Byte)
        (ty0 : Nat) (d0 : List Byte) (err : Option Error) (t : IPTuple),
      (∀ a ∈ as, AttrFits a ∧ tupleKnown a.1) → as.length = 2 →
      Except.map (fun r => r.2) (unmarshalTuple ⟨encodeAttrs as ++ tail1, ty0, d0, err⟩ t)
        = Except.map (fun r => r.2)
            (unmarshalTuple ⟨encodeAttrs as ++ tail2, ty0, d0, err⟩ t)) ∧
    (∀ (as : List (Nat × List Byte)) (tail1 tail2 : List Byte)
        (ty0 : Nat) (d0 : List Byte) (err : Option Error) (t : IPTuple),
      (∀ a ∈ as, AttrFits a ∧ addrKnown a.1) → as.length = 2 →
      Except.map (fun r => r.2) (unmarshalTupleIP ⟨encodeAttrs as ++ tail1, ty0, d0, err⟩ t)
        = Except.map (fun r => r.2)
            (unmarshalTupleIP ⟨encodeAttrs as ++ tail2, ty0, d0, err⟩ t)) ∧
    (∀ (as : List (Nat × List Byte)) (tail1 tail2 : List Byte)
        (ty0 : Nat) (d0 : List Byte) (err : Option Error) (t : IPTuple),
      (∀ a ∈ as, AttrFits a ∧ protoKnown a.1) → as.length = 3 →
      Except.map (fun r => r.2) (unmarshalProto ⟨encodeAttrs as ++ tail1, ty0, d0, err⟩ t)
        = Except.map (fun r => r.2)
            (unmarshalProto ⟨encodeAttrs as ++ tail2, ty0, d0, err⟩ t)) ∧
    (∀ (v1 v2 tail : List Byte) (c : Con),
      nlaHeaderLen + v1.length < 65536 → nlaHeaderLen + v2.length < 65536 →
      Except.map (fun r => r.2) (unmarshalCon (AttributeScanner.ResetTo NewAttributeScanner
          (encodeAttr ctaTupleOrig v1 ++ (encodeAttr ctaTupleReply v2 ++ tail))) c)
        = Except.map (fun r => r.2) (unmarshalCon (AttributeScanner.ResetTo NewAttributeScanner
          (encodeAttr ctaTupleOrig v1 ++ encodeAttr ctaTupleReply v2)) c)) ∧
    Except.map (fun r => r.2) (unmarshalCon
        (AttributeScanner.ResetTo NewAttributeScanner (sampleMessage1.Data ++ [1])) {})
      = .ok (sampleCon1, none) := by
  have hcon : ∀ (as : List (Nat × List Byte)) (tail1 tail2 : List Byte) (c : Con),
      (∀ a ∈ as, AttrFits a ∧ conKnown a.1) → as.length = 2 →
      Except.map (fun r => r.2) (unmarshalCon
          (AttributeScanner.ResetTo NewAttributeScanner (encodeAttrs as ++ tail1)) c)
        = Except.map (fun r => r.2) (unmarshalCon
          (AttributeScanner.ResetTo NewAttributeScanner (encodeAttrs as ++ tail2)) c) := by
    intro as tail1 tail2 c has hlen
    have h := SameOutcomeUpTo_attrs _ conKnown unmarshalConLoop_upTo_zero
      unmarshalConLoop_upTo_cons as has tail1 tail2 2 (by omega) none 0 0 [] []
      (({} : IPTuple), ({} : IPTuple))
    simp only [unmarshalCon_observe, AttributeScanner.ResetTo]
    rw [h]
  refine ⟨hcon, ?_, ?_, ?_, ?_, by rfl⟩
  · intro as tail1 tail2 ty0 d0 err t has hlen
    have h := SameOutcomeUpTo_attrs _ tupleKnown unmarshalTupleLoop_upTo_zero
      unmarshalTupleLoop_upTo_cons as has tail1 tail2 2 (by omega) err ty0 ty0 d0 d0 t
    simp only [unmarshalTuple_observe]
    rw [h]
  · intro as tail1 tail2 ty0 d0 err t has hlen
    have h := SameOutcomeUpTo_attrs _ addrKnown unmarshalTupleIPLoop_upTo_zero
      unmarshalTupleIPLoop_upTo_cons as has tail1 tail2 2 (by omega) err ty0 ty0 d0 d0 t
    simp only [unmarshalTupleIP_observe]
    rw [h]
  · intro as tail1 tail2 ty0 d0 err t has hlen
    have h := SameOutcomeUpTo_attrs _ protoKnown unmarshalProtoLoop_upTo_zero
      unmarshalProtoLoop_upTo_cons as has tail1 tail2 3 (by omega) err ty0 ty0 d0 d0 {}
    simp only [unmarshalProto_observe]
    rw [h]
  · intro v1 v2 tail c h1 h2
    have h := hcon [(ctaTupleOrig, v1), (ctaTupleReply, v2)] tail [] c
      (by
        intro a ha
        simp only [List.mem_cons, List.mem_singleton, List.not_mem_nil, or_false] at ha
        rcases ha with rfl | rfl
        · exact ⟨⟨(by decide : ctaTupleOrig < 65536), h1⟩,
            Or.inl (by decide : ctaTupleOrig % (nlaTypeMask + 1) = ctaTupleOrig)⟩
        · exact ⟨⟨(by decide : ctaTupleReply < 65536), h2⟩,
            Or.inr (by decide : ctaTupleReply % (nlaTypeMask + 1) = ctaTupleReply)⟩)
      rfl
    simpa [encodeAttrs, List.append_assoc] using h

theorem trailing_bytes_not_examined_witness :
    (nlaHeaderLen + (encodeTuple sampleFlow1).length < 65536 ∧
      nlaHeaderLen + (encodeTuple sampleFlow2).length < 65536) ∧
    Except.map (fun r => r.2) (unmarshalCon (AttributeScanner.ResetTo NewAttributeScanner
        (encodeAttr ctaTupleOrig (encodeTuple sampleFlow1) ++
          (encodeAttr ctaTupleReply (encodeTuple sampleFlow2) ++ [3, 0, 9]))) {})
      = Except.map (fun r => r.2) (unmarshalCon (AttributeScanner.ResetTo NewAttributeScanner
        (encodeAttr ctaTupleOrig (encodeTuple sampleFlow1) ++
          encodeAttr ctaTupleReply (encodeTuple sampleFlow2))) {}) :=
  ⟨by decide, trailing_bytes_not_examined.2.2.2.2.1 _ _ [3, 0, 9] {} (by decide)
    (by decide)⟩

/-! ## A message with an origin tuple only -/

theorem SameOutcome_trans {σ : Type}
    {L : Nat → Nat → AttributeScanner → σ → Except Panic (AttributeScanner × σ)}
    {A B C : List Byte} (h1 : SameOutcome L A B) (h2 : SameOutcome L B C) :
    SameOutcome L A C := by
  intro n err ty0 ty1 d0 d1 x
  exact (h1 n err ty0 ty1 d0 d1 x).trans (h2 n err ty1 ty1 d1 d1 x)

theorem unmarshalConLoop_skip_attrs (us : List (Nat × List Byte))
    (hus : ∀ a ∈ us, AttrFits a ∧ ¬ conKnown a.1) (T : List Byte) :
    SameOutcome (fun f n s (x : IPTuple × IPTuple) => unmarshalConLoop f n s x.1 x.2)
      (encodeAttrs us ++ T) T := by
  induction us with
  | nil => simpa [encodeAttrs] using unmarshalConLoop_same T
  | cons a us ih =>
    have ha := hus a (List.mem_cons_self _ _)
    have h1 := ih (fun x hx => hus x (List.mem_cons_of_mem _ hx))
    have h2 := unmarshalConLoop_skip_same a.1 a.2 (encodeAttrs us ++ T) ha.1.1
      (fun h => ha.2 (Or.inl h)) (fun h => ha.2 (Or.inr h)) ha.1.2
    have h3 := SameOutcome_trans h2 h1
    simpa [encodeAttrs, List.append_assoc] using h3

/-- C11: on a connection buffer that holds one well-formed tuple-orig attribute with an
address pair and a protocol tuple, and no tuple-reply attribute, `unmarshalCon` returns
no error, the `Origin` of the tuple has the source address, the destination address,
the protocol number and both ports set to the encoded values, and `Reply` has `Src`,
`Dst` and `Proto` unset. This also holds when well-formed attributes of other type
codes stand before and after the tuple-orig attribute. -/
theorem unmarshalCon_origin_only :
    (∀ (fl : Flow) (c : Con), fl.WellFormed →
      unmarshalCon (AttributeScanner.ResetTo NewAttributeScanner
          (encodeAttr ctaTupleOrig (encodeTuple fl))) c =
        .ok (⟨[], ctaTupleOrig, encodeTuple fl, none⟩,
             { Origin := some fl.toIPTuple,
               Reply := some { Src := none, Dst := none, Proto := none } }, none)) ∧
    (∀ (pre post : List (Nat × List Byte)) (fl : Flow) (c : Con), fl.WellFormed →
      (∀ a ∈ pre, AttrFits a ∧ ¬ conKnown a.1) → (∀ a ∈ post, AttrFits a ∧ ¬ conKnown a.1) →
      Except.map (fun r => r.2) (unmarshalCon (AttributeScanner.ResetTo NewAttributeScanner
          (encodeAttrs pre ++ (encodeAttr ctaTupleOrig (encodeTuple fl) ++ encodeAttrs post))) c)
        = .ok ({ Origin := some fl.toIPTuple,
                 Reply := some { Src := none, Dst := none, Proto := none } }, none)) := by
  have key : ∀ (fl : Flow) (c : Con), fl.WellFormed →
      unmarshalCon (AttributeScanner.ResetTo NewAttributeScanner
          (encodeAttr ctaTupleOrig (encodeTuple fl))) c =
        .ok (⟨[], ctaTupleOrig, encodeTuple fl, none⟩,
             { Origin := some fl.toIPTuple,
               Reply := some { Src := none, Dst := none, Proto := none } }, none) := by
    intro fl c hw
    have h : unmarshalConLoop (encodeAttr ctaTupleOrig (encodeTuple fl) ++ []).length (1 + 1)
        ⟨encodeAttr ctaTupleOrig (encodeTuple fl) ++ [], 0, [], none⟩ {} {} = _ :=
      unmarshalConLoop_orig 1 {} {} (by decide : ctaTupleOrig < 65536)
        (by decide : ctaTupleOrig % (nlaTypeMask + 1) = ctaTupleOrig)
        (encodeTuple_fits fl hw) (le_refl _)
    rw [unmarshalTuple_encodeTuple _ fl hw] at h
    simp only [List.append_nil, List.length_nil] at h
    rw [unmarshalConLoop_nil 0 1 ⟨[], ctaTupleOrig, encodeTuple fl, none⟩ _ _ rfl] at h
    simp only [unmarshalCon, AttributeScanner.ResetTo, h, AttributeScanner.Err]
  refine ⟨key, ?_⟩
  intro pre post fl c hw hpre hpost
  have hfit : AttrFits (ctaTupleOrig, encodeTuple fl) :=
    ⟨(by decide : ctaTupleOrig < 65536), encodeTuple_fits fl hw⟩
  have h1 := unmarshalConLoop_skip_attrs pre hpre
    (encodeAttr ctaTupleOrig (encodeTuple fl) ++ encodeAttrs post)
  have h2 := unmarshalConLoop_cons_same (ctaTupleOrig, encodeTuple fl) _ _ hfit
    (unmarshalConLoop_skip_attrs post hpost [])
  simp only [List.append_nil] at h2
  have h3 := SameOutcome_trans h1 h2 2 none 0 0 [] [] (({} : IPTuple), ({} : IPTuple))
  have h4 := congrArg (Except.map (fun r => r.2)) (key fl c hw)
  rw [unmarshalCon_observe] at h4 ⊢
  simp only [AttributeScanner.ResetTo] at h4 ⊢
  rw [h3, h4]
  rfl

theorem unmarshalCon_origin_only_witness :
    sampleFlow1.WellFormed ∧
    unmarshalCon (AttributeScanner.ResetTo NewAttributeScanner
        (encodeAttr ctaTupleOrig (encodeTuple sampleFlow1))) {} =
      .ok (⟨[], ctaTupleOrig, encodeTuple sampleFlow1, none⟩,
           { Origin := some sampleFlow1.toIPTuple,
             Reply := some { Src := none, Dst := none, Proto := none } }, none) :=
  ⟨by decide, unmarshalCon_origin_only.1 sampleFlow1 {} (by decide)⟩

/-! ## The flag bits of the type field -/

theorem unmarshalProtoLoop_flags_same (t1 t2 : Nat) (v A : List Byte)
    (h1 : t1 < 65536) (h2 : t2 < 65536)
    (hm : t1 % (nlaTypeMask + 1) = t2 % (nlaTypeMask + 1))
    (hv : nlaHeaderLen + v.length < 65536) :
    SameOutcome unmarshalProtoLoop (encodeAttr t1 v ++ A) (encodeAttr t2 v ++ A) := by
  intro n err ty0 ty1 d0 d1 x
  cases n with
  | zero => simp only [unmarshalProtoLoop_zero, observe]
  | succ n =>
    have hNA := Next_encodeAttr ⟨encodeAttr t1 v ++ A, ty0, d0, err⟩ t1 v A h1 hv rfl
    have hNB := Next_encodeAttr ⟨encodeAttr t2 v ++ A, ty1, d1, err⟩ t2 v A h2 hv rfl
    have h := unmarshalProtoLoop_same A
    rw [unmarshalProtoLoop_step n x (le_refl _) hNA,
      unmarshalProtoLoop_step n x (le_refl _) hNB]
    simp only [AttributeScanner.Bytes, AttributeScanner.Type_, hm]
    by_cases c1 : t2 % (nlaTypeMask + 1) = ctaProtoNum
    · simp only [if_pos c1]
      cases firstByte v with
      | error e => rfl
      | ok w => exact h _ _ _ _ _ _ _
    · by_cases c2 : t2 % (nlaTypeMask + 1) = ctaProtoSrcPort
      · simp only [if_neg c1, if_pos c2]
        cases bigEndianUint16 v with
        | error e => rfl
        | ok w => exact h _ _ _ _ _ _ _
      · by_cases c3 : t2 % (nlaTypeMask + 1) = ctaProtoDstPort
        · simp only [if_neg c1, if_neg c2, if_pos c3]
          cases bigEndianUint16 v with
          | error e => rfl
          | ok w => exact h _ _ _ _ _ _ _
        · simp only [if_neg c1, if_neg c2, if_neg c3]
          exact h _ _ _ _ _ _ _

theorem unmarshalTupleIPLoop_flags_same (t1 t2 : Nat) (v A : List Byte)
    (h1 : t1 < 65536) (h2 : t2 < 65536)
    (hm : t1 % (nlaTypeMask + 1) = t2 % (nlaTypeMask + 1))
    (hv : nlaHeaderLen + v.length < 65536) :
    SameOutcome (fun f n s t => .ok (unmarshalTupleIPLoop f n s t))
      (encodeAttr t1 v ++ A) (encodeAttr t2 v ++ A) := by
  intro n err ty0 ty1 d0 d1 x
  cases n with
  | zero => simp only [unmarshalTupleIPLoop_zero, observe]
  | succ n =>
    have hNA := Next_encodeAttr ⟨encodeAttr t1 v ++ A, ty0, d0, err⟩ t1 v A h1 hv rfl
    have hNB := Next_encodeAttr ⟨encodeAttr t2 v ++ A, ty1, d1, err⟩ t2 v A h2 hv rfl
    have h := unmarshalTupleIPLoop_same A
    simp only [unmarshalTupleIPLoop_step n x (le_refl _) hNA,
      unmarshalTupleIPLoop_step n x (le_refl _) hNB]
    simp only [AttributeScanner.Bytes, AttributeScanner.Type_, hm]
    by_cases c1 : t2 % (nlaTypeMask + 1) = ctaIPv4Src ∨ t2 % (nlaTypeMask + 1) = ctaIPv6Src
    · simp only [if_pos c1]
      exact h _ _ _ _ _ _ _
    · by_cases c2 : t2 % (nlaTypeMask + 1) = ctaIPv4Dst ∨ t2 % (nlaTypeMask + 1) = ctaIPv6Dst
      · simp only [if_neg c1, if_pos c2]
        exact h _ _ _ _ _ _ _
      · simp only [if_neg c1, if_neg c2]
        exact h _ _ _ _ _ _ _

theorem unmarshalTupleLoop_flags_same (t1 t2 : Nat) (v A : List Byte)
    (h1 : t1 < 65536) (h2 : t2 < 65536)
    (hm : t1 % (nlaTypeMask + 1) = t2 % (nlaTypeMask + 1))
    (hv : nlaHeaderLen + v.length < 65536) :
    SameOutcome unmarshalTupleLoop (encodeAttr t1 v ++ A) (encodeAttr t2 v ++ A) := by
  intro n err ty0 ty1 d0 d1 x
  have h := unmarshalTupleLoop_same A
  cases n with
  | zero => simp only [unmarshalTupleLoop_zero, observe]
  | succ n =>
    by_cases c1 : t2 % (nlaTypeMask + 1) = ctaTupleIP
    · rw [unmarshalTupleLoop_ip n x h1 (hm.trans c1) hv (le_refl _),
        unmarshalTupleLoop_ip n x h2 c1 hv (le_refl _)]
      cases unmarshalTupleIP ⟨v, 0, [], err⟩ x with
      | error e => rfl
      | ok r => exact h _ _ _ _ _ _ _
    · by_cases c2 : t2 % (nlaTypeMask + 1) = ctaTupleProto
      · rw [unmarshalTupleLoop_proto n x h1 (hm.trans c2) hv (le_refl _),
          unmarshalTupleLoop_proto n x h2 c2 hv (le_refl _)]
        cases unmarshalProto ⟨v, 0, [], err⟩ x with
        | error e => rfl
        | ok r => exact h _ _ _ _ _ _ _
      · rw [unmarshalTupleLoop_skip n x h1 (fun e => c1 (hm.symm.trans e))
            (fun e => c2 (hm.symm.trans e)) hv (le_refl _),
          unmarshalTupleLoop_skip n x h2 c1 c2 hv (le_refl _)]
        exact h _ _ _ _ _ _ _

theorem unmarshalConLoop_flags_same (t1 t2 : Nat) (v A : List Byte)
    (h1 : t1 < 65536) (h2 : t2 < 65536)
    (hm : t1 % (nlaTypeMask + 1) = t2 % (nlaTypeMask + 1))
    (hv : nlaHeaderLen + v.length < 65536) :
    SameOutcome (fun f n s (x : IPTuple × IPTuple) => unmarshalConLoop f n s x.1 x.2)
      (encodeAttr t1 v ++ A) (encodeAttr t2 v ++ A) := by
  intro n err ty0 ty1 d0 d1 x
  have h := unmarshalConLoop_same A
  cases n with
  | zero => simp only [unmarshalConLoop_zero, observe]
  | succ n =>
    by_cases c1 : t2 % (nlaTypeMask + 1) = ctaTupleOrig
    · simp only [unmarshalConLoop_orig n x.1 x.2 h1 (hm.trans c1) hv (le_refl _),
        unmarshalConLoop_orig n x.1 x.2 h2 c1 hv (le_refl _)]
      cases unmarshalTuple ⟨v, 0, [], err⟩ x.1 with
      | error e => rfl
      | ok r => exact h n r.1.err _ _ _ _ (r.2.1, x.2)
    · by_cases c2 : t2 % (nlaTypeMask + 1) = ctaTupleReply
      · simp only [unmarshalConLoop_reply n x.1 x.2 h1 (hm.trans c2) hv (le_refl _),
          unmarshalConLoop_reply n x.1 x.2 h2 c2 hv (le_refl _)]
        cases unmarshalTuple ⟨v, 0, [], err⟩ x.2 with
        | error e => rfl
        | ok r => exact h n r.1.err _ _ _ _ (x.1, r.2.1)
      · simp only [unmarshalConLoop_skip n x.1 x.2 h1 (fun e => c1 (hm.symm.trans e))
            (fun e => c2 (hm.symm.trans e)) hv (le_refl _),
          unmarshalConLoop_skip n x.1 x.2 h2 c1 c2 hv (le_refl _)]
        exact h (n + 1) err _ _ _ _ x

/-- C15: dispatch reads the type field through the mask `0x3FFF`. At each of the four
levels, replacing the type field `t1` of an attribute by a type field `t2` with the
same low 14 bits (so setting or clearing the nested flag `0x8000` or the
network-byte-order flag `0x4000`) leaves the decoded data and the error unchanged,
wherever the attribute stands among well-formed attributes and whatever follows it.
A tuple-orig attribute with the type field `0x8001` is decoded into `Origin` like one
with the type field 1. -/
theorem type_flags_ignored :
    (∀ (pre : List (Nat × List Byte)) (t1 t2 : Nat) (v tail : List Byte) (c : Con),
      (∀ a ∈ pre, AttrFits a) → AttrFits (t1, v) → t2 < 65536 →
      t1 % (nlaTypeMask + 1) = t2 % (nlaTypeMask + 1) →
      Except.map (fun r => r.2) (unmarshalCon (AttributeScanner.ResetTo NewAttributeScanner
          (encodeAttrs pre ++ (encodeAttr t1 v ++ tail))) c)
        = Except.map (fun r => r.2) (unmarshalCon (AttributeScanner.ResetTo NewAttributeScanner
          (encodeAttrs pre ++ (encodeAttr t2 v ++ tail))) c)) ∧
    (∀ (pre : List (Nat × List Byte)) (t1 t2 : Nat) (v tail : List Byte)
        (ty0 : Nat) (d0 : List Byte) (err : Option Error) (t : IPTuple),
      (∀ a ∈ pre, AttrFits a) → AttrFits (t1, v) → t2 < 65536 →
      t1 % (nlaTypeMask + 1) = t2 % (nlaTypeMask + 1) →
      Except.map (fun r => r.2) (unmarshalTuple
          ⟨encodeAttrs pre ++ (encodeAttr t1 v ++ tail), ty0, d0, err⟩ t)
        = Except.map (fun r => r.2) (unmarshalTuple
          ⟨encodeAttrs pre ++ (encodeAttr t2 v ++ tail), ty0, d0, err⟩ t)) ∧
    (∀ (pre : List (Nat × List Byte)) (t1 t2 : Nat) (v tail : List Byte)
        (ty0 : Nat) (d0 : List Byte) (err : Option Error) (t : IPTuple),
      (∀ a ∈ pre, AttrFits a) → AttrFits (t1, v) → t2 < 65536 →
      t1 % (nlaTypeMask + 1) = t2 % (nlaTypeMask + 1) →
      Except.map (fun r => r.2) (unmarshalTupleIP
          ⟨encodeAttrs pre ++ (encodeAttr t1 v ++ tail), ty0, d0, err⟩ t)
        = Except.map (fun r => r.2) (unmarshalTupleIP
          ⟨encodeAttrs pre ++ (encodeAttr t2 v ++ tail), ty0, d0, err⟩ t)) ∧
    (∀ (pre : List (Nat × List Byte)) (t1 t2 : Nat) (v tail : List Byte)
        (ty0 : Nat) (d0 : List Byte) (err : Option Error) (t : IPTuple),
      (∀ a ∈ pre, AttrFits a) → AttrFits (t1, v) → t2 < 65536 →
      t1 % (nlaTypeMask + 1) = t2 % (nlaTypeMask + 1) →
      Except.map (fun r => r.2) (unmarshalProto
          ⟨encodeAttrs pre ++ (encodeAttr t1 v ++ tail), ty0, d0, err⟩ t)
        = Except.map (fun r => r.2) (unmarshalProto
          ⟨encodeAttrs pre ++ (encodeAttr t2 v ++ tail), ty0, d0, err⟩ t)) ∧
    (∀ (fl : Flow) (c : Con), fl.WellFormed →
      Except.map (fun r => r.2) (unmarshalCon (AttributeScanner.ResetTo NewAttributeScanner
          (encodeAttr 0x8001 (encodeTuple fl))) c)
        = .ok ({ Origin := some fl.toIPTuple, Reply := some {} }, none)) := by
  have hcon : ∀ (pre : List (Nat × List Byte)) (t1 t2 : Nat) (v tail : List Byte) (c : Con),
      (∀ a ∈ pre, AttrFits a) → AttrFits (t1, v) → t2 < 65536 →
      t1 % (nlaTypeMask + 1) = t2 % (nlaTypeMask + 1) →
      Except.map (fun r => r.2) (unmarshalCon (AttributeScanner.ResetTo NewAttributeScanner
          (encodeAttrs pre ++ (encodeAttr t1 v ++ tail))) c)
        = Except.map (fun r => r.2) (unmarshalCon (AttributeScanner.ResetTo NewAttributeScanner
          (encodeAttrs pre ++ (encodeAttr t2 v ++ tail))) c) := by
    intro pre t1 t2 v tail c hpre ha h2 hm
    have h := SameOutcome_append_left _ unmarshalConLoop_cons_same pre hpre _ _
      (unmarshalConLoop_flags_same t1 t2 v tail ha.1 h2 hm ha.2) 2 none 0 0 [] []
      (({} : IPTuple), ({} : IPTuple))
    simp only [unmarshalCon_observe, AttributeScanner.ResetTo]
    rw [h]
  refine ⟨hcon, ?_, ?_, ?_, ?_⟩
  · intro pre t1 t2 v tail ty0 d0 err t hpre ha h2 hm
    have h := SameOutcome_append_left _ unmarshalTupleLoop_cons_same pre hpre _ _
      (unmarshalTupleLoop_flags_same t1 t2 v tail ha.1 h2 hm ha.2) 2 err ty0 ty0 d0 d0 t
    simp only [unmarshalTuple_observe]
    rw [h]
  · intro pre t1 t2 v tail ty0 d0 err t hpre ha h2 hm
    have h := SameOutcome_append_left _ unmarshalTupleIPLoop_cons_same pre hpre _ _
      (unmarshalTupleIPLoop_flags_same t1 t2 v tail ha.1 h2 hm ha.2) 2 err ty0 ty0 d0 d0 t
    simp only [unmarshalTupleIP_observe]
    rw [h]
  · intro pre t1 t2 v tail ty0 d0 err t hpre ha h2 hm
    have h := SameOutcome_append_left _ unmarshalProtoLoop_cons_same pre hpre _ _
      (unmarshalProtoLoop_flags_same t1 t2 v tail ha.1 h2 hm ha.2) 3 err ty0 ty0 d0 d0 {}
    simp only [unmarshalProto_observe]
    rw [h]
  · intro fl c hw
    have hfit := encodeTuple_fits fl hw
    have h := hcon [] 0x8001 ctaTupleOrig (encodeTuple fl) [] c (by simp)
      ⟨by norm_num, hfit⟩ (by decide) (by decide)
    simp only [encodeAttrs, List.nil_append, List.append_nil] at h
    rw [h]
    have horig : unmarshalConLoop (encodeAttr ctaTupleOrig (encodeTuple fl) ++ []).length
        (1 + 1) ⟨encodeAttr ctaTupleOrig (encodeTuple fl) ++ [], 0, [], none⟩ {} {} = _ :=
      unmarshalConLoop_orig 1 {} {} (by decide : ctaTupleOrig < 65536)
        (by decide : ctaTupleOrig % (nlaTypeMask + 1) = ctaTupleOrig) hfit (le_refl _)
    rw [unmarshalTuple_encodeTuple _ fl hw] at horig
    simp only [List.append_nil, List.length_nil] at horig
    rw [unmarshalConLoop_nil 0 1 ⟨[], ctaTupleOrig, encodeTuple fl, none⟩ _ _ rfl] at horig
    simp only [unmarshalCon, AttributeScanner.ResetTo, horig, AttributeScanner.Err]
    rfl

theorem type_flags_ignored_witness :
    sampleFlow1.WellFormed ∧
    Except.map (fun r => r.2) (unmarshalCon (AttributeScanner.ResetTo NewAttributeScanner
        (encodeAttr 0x8001 (encodeTuple sampleFlow1))) {})
      = .ok ({ Origin := some sampleFlow1.toIPTuple, Reply := some {} }, none) :=
  ⟨by decide, type_flags_ignored.2.2.2.2 sampleFlow1 {} (by decide)⟩

/-! ## What the decoders do to the recorded error -/

theorem Next_err_inv (Q : Option Error → Prop)
    (hQ : ∀ s : AttributeScanner, Q s.err → Q (s.record Error.invalidAttribute).err)
    {s s1 : AttributeScanner} {b : Bool} (h : s.Next = (b, s1)) (hs : Q s.err) : Q s1.err := by
  unfold AttributeScanner.Next at h
  split at h
  · simp only [Prod.mk.injEq] at h
    rw [← h.2]; exact hs
  · dsimp only at h
    split at h
    · simp only [Prod.mk.injEq] at h
      rw [← h.2]; exact hQ s hs
    · simp only [Prod.mk.injEq] at h
      rw [← h.2]; exact hs
  · simp only [Prod.mk.injEq] at h
    rw [← h.2]; exact hQ s hs

theorem unmarshalProtoLoop_err_inv (Q : Option Error → Prop)
    (hQ : ∀ s : AttributeScanner, Q s.err → Q (s.record Error.invalidAttribute).err)
    (f n : Nat) (s s1 : AttributeScanner) (p p1 : ProtoTuple) (hs : Q s.err)
    (h : unmarshalProtoLoop f n s p = .ok (s1, p1)) : Q s1.err := by
  induction f generalizing n s p with
  | zero =>
    simp only [unmarshalProtoLoop, Except.ok.injEq, Prod.mk.injEq] at h
    rw [← h.1]; exact hs
  | succ f ih =>
    unfold unmarshalProtoLoop at h
    split at h
    · simp only [Except.ok.injEq, Prod.mk.injEq] at h
      rw [← h.1]; exact hs
    · cases hN : s.Next with
      | mk b s2 =>
        have h2 := Next_err_inv Q hQ hN hs
        rw [hN] at h
        cases b with
        | false =>
          simp only [Except.ok.injEq, Prod.mk.injEq] at h
          rw [← h.1]; exact h2
        | true =>
          dsimp only at h
          split at h
          · cases hb : firstByte s2.Bytes with
            | error e => rw [hb] at h; simp at h
            | ok v => rw [hb] at h; exact ih _ _ _ h2 h
          · split at h
            · cases hb : bigEndianUint16 s2.Bytes with
              | error e => rw [hb] at h; simp at h
              | ok v => rw [hb] at h; exact ih _ _ _ h2 h
            · split at h
              · cases hb : bigEndianUint16 s2.Bytes with
                | error e => rw [hb] at h; simp at h
                | ok v => rw [hb] at h; exact ih _ _ _ h2 h
              · exact ih _ _ _ h2 h

theorem unmarshalProto_err_inv (Q : Option Error → Prop)
    (hQ : ∀ s : AttributeScanner, Q s.err → Q (s.record Error.invalidAttribute).err)
    (s s1 : AttributeScanner) (t t1 : IPTuple) (e : Option Error) (hs : Q s.err)
    (h : unmarshalProto s t = .ok (s1, t1, e)) : Q s1.err := by
  unfold unmarshalProto at h
  cases hL : unmarshalProtoLoop s.rest.length 3 s {} with
  | error p => rw [hL] at h; simp at h
  | ok r =>
    rw [hL] at h
    simp only [Except.ok.injEq, Prod.mk.injEq] at h
    rw [← h.1]
    exact unmarshalProtoLoop_err_inv Q hQ _ _ _ _ _ _ hs hL

theorem unmarshalTupleIPLoop_err_inv (Q : Option Error → Prop)
    (hQ : ∀ s : AttributeScanner, Q s.err → Q (s.record Error.invalidAttribute).err)
    (f n : Nat) (s : AttributeScanner) (t : IPTuple) (hs : Q s.err) :
    Q (unmarshalTupleIPLoop f n s t).1.err := by
  induction f generalizing n s t with
  | zero => exact hs
  | succ f ih =>
    unfold unmarshalTupleIPLoop
    split
    · exact hs
    · cases hN : s.Next with
      | mk b s2 =>
        have h2 := Next_err_inv Q hQ hN hs
        cases b with
        | false => exact h2
        | true =>
          dsimp only
          split
          · exact ih _ _ _ h2
          · split
            · exact ih _ _ _ h2
            · exact ih _ _ _ h2

theorem unmarshalTupleIP_err_inv (Q : Option Error → Prop)
    (hQ : ∀ s : AttributeScanner, Q s.err → Q (s.record Error.invalidAttribute).err)
    (s s1 : AttributeScanner) (t t1 : IPTuple) (e : Option Error) (hs : Q s.err)
    (h : unmarshalTupleIP s t = .ok (s1, t1, e)) : Q s1.err := by
  unfold unmarshalTupleIP at h
  simp only [Except.ok.injEq, Prod.mk.injEq] at h
  rw [← h.1]
  exact unmarshalTupleIPLoop_err_inv Q hQ _ _ _ _ hs

theorem Nested_err_inv {α : Type} (Q : Option Error → Prop)
    (fn : AttributeScanner → Except Panic (AttributeScanner × α × Option Error))
    (hfn : ∀ s2 s1 a e, fn s2 = .ok (s1, a, e) → e = s1.err)
    (hinv : ∀ s2 s1 a e, Q s2.err → fn s2 = .ok (s1, a, e) → Q s1.err)
    {s s3 : AttributeScanner} {a : α} (hs : Q s.err) (h : s.Nested fn = .ok (s3, a)) :
    Q s3.err := by
  rw [Nested_of_err s fn hfn] at h
  cases hI : fn { rest := s.data, typ := 0, data := [], err := s.err } with
  | error p => rw [hI] at h; simp at h
  | ok r =>
    obtain ⟨s1, a1, e1⟩ := r
    rw [hI] at h
    simp only [Except.ok.injEq, Prod.mk.injEq] at h
    rw [← h.1]
    exact hinv { rest := s.data, typ := 0, data := [], err := s.err } s1 a1 e1 hs hI

theorem unmarshalTupleLoop_err_inv (Q : Option Error → Prop)
    (hQ : ∀ s : AttributeScanner, Q s.err → Q (s.record Error.invalidAttribute).err)
    (f n : Nat) (s s1 : AttributeScanner) (t t1 : IPTuple) (hs : Q s.err)
    (h : unmarshalTupleLoop f n s t = .ok (s1, t1)) : Q s1.err := by
  induction f generalizing n s t with
  | zero =>
    simp only [unmarshalTupleLoop, Except.ok.injEq, Prod.mk.injEq] at h
    rw [← h.1]; exact hs
  | succ f ih =>
    unfold unmarshalTupleLoop at h
    split at h
    · simp only [Except.ok.injEq, Prod.mk.injEq] at h
      rw [← h.1]; exact hs
    · cases hN : s.Next with
      | mk b s2 =>
        have h2 := Next_err_inv Q hQ hN hs
        rw [hN] at h
        cases b with
        | false =>
          simp only [Except.ok.injEq, Prod.mk.injEq] at h
          rw [← h.1]; exact h2
        | true =>
          dsimp only at h
          split at h
          · cases hI : s2.Nested (fun s2 => unmarshalTupleIP s2 t) with
            | error e => rw [hI] at h; simp at h
            | ok r =>
              rw [hI] at h
              exact ih _ _ _ (Nested_err_inv Q _ (fun _ _ _ _ h => unmarshalTupleIP_err h)
                (fun s2 s1 a e => unmarshalTupleIP_err_inv Q hQ s2 s1 t a e) h2 hI) h
          · split at h
            · cases hI : s2.Nested (fun s2 => unmarshalProto s2 t) with
              | error e => rw [hI] at h; simp at h
              | ok r =>
                rw [hI] at h
                exact ih _ _ _ (Nested_err_inv Q _ (fun _ _ _ _ h => unmarshalProto_err h)
                  (fun s2 s1 a e => unmarshalProto_err_inv Q hQ s2 s1 t a e) h2 hI) h
            · exact ih _ _ _ h2 h

theorem unmarshalTuple_err_inv (Q : Option Error → Prop)
    (hQ : ∀ s : AttributeScanner, Q s.err → Q (s.record Error.invalidAttribute).err)
    (s s1 : AttributeScanner) (t t1 : IPTuple) (e : Option Error) (hs : Q s.err)
    (h : unmarshalTuple s t = .ok (s1, t1, e)) : Q s1.err := by
  unfold unmarshalTuple at h
  cases hL : unmarshalTupleLoop s.rest.length 2 s t with
  | error p => rw [hL] at h; simp at h
  | ok r =>
    rw [hL] at h
    simp only [Except.ok.injEq, Prod.mk.injEq] at h
    rw [← h.1]
    exact unmarshalTupleLoop_err_inv Q hQ _ _ _ _ _ _ hs hL

theorem unmarshalConLoop_err_inv (Q : Option Error → Prop)
    (hQ : ∀ s : AttributeScanner, Q s.err → Q (s.record Error.invalidAttribute).err)
    (f n : Nat) (s s1 : AttributeScanner) (o r o1 r1 : IPTuple) (hs : Q s.err)
    (h : unmarshalConLoop f n s o r = .ok (s1, o1, r1)) : Q s1.err := by
  induction f generalizing n s o r with
  | zero =>
    simp only [unmarshalConLoop, Except.ok.injEq, Prod.mk.injEq] at h
    rw [← h.1]; exact hs
  | succ f ih =>
    unfold unmarshalConLoop at h
    split at h
    · simp only [Except.ok.injEq, Prod.mk.injEq] at h
      rw [← h.1]; exact hs
    · cases hN : s.Next with
      | mk b s2 =>
        have h2 := Next_err_inv Q hQ hN hs
        rw [hN] at h
        cases b with
        | false =>
          simp only [Except.ok.injEq, Prod.mk.injEq] at h
          rw [← h.1]; exact h2
        | true =>
          dsimp only at h
          split at h
          · cases hI : s2.Nested (fun s2 => unmarshalTuple s2 o) with
            | error e => rw [hI] at h; simp at h
            | ok x =>
              rw [hI] at h
              exact ih _ _ _ _ (Nested_err_inv Q _ (fun _ _ _ _ h => unmarshalTuple_err h)
                (fun s2 s1 a e => unmarshalTuple_err_inv Q hQ s2 s1 o a e) h2 hI) h
          · split at h
            · cases hI : s2.Nested (fun s2 => unmarshalTuple s2 r) with
              | error e => rw [hI] at h; simp at h
              | ok x =>
                rw [hI] at h
                exact ih _ _ _ _ (Nested_err_inv Q _ (fun _ _ _ _ h => unmarshalTuple_err h)
                  (fun s2 s1 a e => unmarshalTuple_err_inv Q hQ s2 s1 r a e) h2 hI) h
            · exact ih _ _ _ _ h2 h

theorem unmarshalCon_err_inv (Q : Option Error → Prop)
    (hQ : ∀ s : AttributeScanner, Q s.err → Q (s.record Error.invalidAttribute).err)
    (s s1 : AttributeScanner) (c c1 : Con) (e : Option Error) (hs : Q s.err)
    (h : unmarshalCon s c = .ok (s1, c1, e)) : Q s1.err ∧ e = s1.err := by
  unfold unmarshalCon at h
  cases hL : unmarshalConLoop s.rest.length 2 s {} {} with
  | error p => rw [hL] at h; simp at h
  | ok r =>
    obtain ⟨s2, o, rr⟩ := r
    rw [hL] at h
    simp only [Except.ok.injEq, Prod.mk.injEq] at h
    rw [← h.1, ← h.2.2]
    exact ⟨unmarshalConLoop_err_inv Q hQ _ _ _ _ _ _ _ _ hs hL, rfl⟩

theorem record_keeps_some (e : Error) (s : AttributeScanner) (h : s.err = some e) :
    (s.record Error.invalidAttribute).err = some e := by
  unfold AttributeScanner.record
  rw [h]
  exact h

theorem record_ne_none (s : AttributeScanner) (e : Error) : (s.record e).err ≠ none := by
  unfold AttributeScanner.record
  cases h : s.err <;> simp [h]

/-! ## A malformed header that a level reaches -/

theorem Next_malformed {b : List Byte} (hb : MalformedHeader b) (ty : Nat) (d : List Byte)
    (err : Option Error) :
    AttributeScanner.Next ⟨b, ty, d, err⟩ =
      (false, AttributeScanner.record ⟨b, ty, d, err⟩ Error.invalidAttribute) := by
  rcases hb with ⟨h1, h3⟩ | ⟨l0, l1, t0, t1, body, rfl, hlen⟩
  · rcases b with _ | ⟨a, _ | ⟨b, _ | ⟨c, _ | ⟨d1, body⟩⟩⟩⟩
    · simp at h1
    · rfl
    · rfl
    · rfl
    · simp at h3
  · unfold AttributeScanner.Next
    simp only [hlen, if_true]

theorem knownCount_cons (known : Nat → Prop) [DecidablePred known] (a : Nat × List Byte)
    (as : List (Nat × List Byte)) :
    knownCount known (a :: as) = (if known a.1 then 1 else 0) + knownCount known as := by
  unfold knownCount
  by_cases h : known a.1
  · simp [List.filter_cons, h]; omega
  · simp [List.filter_cons, h]

theorem unmarshalProtoLoop_reach (T : List Byte)
    (hT : ∀ (n ty : Nat) (d : List Byte) (err : Option Error) (x : ProtoTuple)
      (r : AttributeScanner × ProtoTuple),
      unmarshalProtoLoop T.length (n + 1) ⟨T, ty, d, err⟩ x = .ok r → r.1.err ≠ none)
    (pre : List (Nat × List Byte)) (hpre : ∀ a ∈ pre, AttrFits a)
    (n ty : Nat) (d : List Byte) (err : Option Error) (x : ProtoTuple)
    (r : AttributeScanner × ProtoTuple) (hn : knownCount protoKnown pre < n)
    (h : unmarshalProtoLoop (encodeAttrs pre ++ T).length n
      ⟨encodeAttrs pre ++ T, ty, d, err⟩ x = .ok r) : r.1.err ≠ none := by
  induction pre generalizing n ty d err x with
  | nil =>
    cases n with
    | zero => simp [knownCount] at hn
    | succ n => exact hT n ty d err x r (by simpa [encodeAttrs] using h)
  | cons a pre ih =>
    have ha := hpre a (List.mem_cons_self _ _)
    have hpre1 : ∀ x ∈ pre, AttrFits x := fun x hx => hpre x (List.mem_cons_of_mem _ hx)
    rw [knownCount_cons] at hn
    cases n with
    | zero => omega
    | succ n =>
      simp only [encodeAttrs, List.append_assoc] at h
      have hNA := Next_encodeAttr ⟨encodeAttr a.1 a.2 ++ (encodeAttrs pre ++ T), ty, d, err⟩
        a.1 a.2 _ ha.1 ha.2 rfl
      rw [unmarshalProtoLoop_step n x (le_refl _) hNA] at h
      simp only [AttributeScanner.Bytes, AttributeScanner.Type_] at h
      by_cases c1 : a.1 % (nlaTypeMask + 1) = ctaProtoNum
      · have hk : protoKnown a.1 := Or.inl c1
        simp only [if_pos c1, if_pos hk] at h hn
        cases hb : firstByte a.2 with
        | error e => rw [hb] at h; simp at h
        | ok v => rw [hb] at h; exact ih hpre1 n _ _ _ _ (by omega) h
      · by_cases c2 : a.1 % (nlaTypeMask + 1) = ctaProtoSrcPort
        · have hk : protoKnown a.1 := Or.inr (Or.inl c2)
          simp only [if_neg c1, if_pos c2, if_pos hk] at h hn
          cases hb : bigEndianUint16 a.2 with
          | error e => rw [hb] at h; simp at h
          | ok v => rw [hb] at h; exact ih hpre1 n _ _ _ _ (by omega) h
        · by_cases c3 : a.1 % (nlaTypeMask + 1) = ctaProtoDstPort
          · have hk : protoKnown a.1 := Or.inr (Or.inr c3)
            simp only [if_neg c1, if_neg c2, if_pos c3, if_pos hk] at h hn
            cases hb : bigEndianUint16 a.2 with
            | error e => rw [hb] at h; simp at h
            | ok v => rw [hb] at h; exact ih hpre1 n _ _ _ _ (by omega) h
          · have hk : ¬ protoKnown a.1 := by
              rintro (hk | hk | hk)
              · exact c1 hk
              · exact c2 hk
              · exact c3 hk
            simp only [if_neg c1, if_neg c2, if_neg c3, if_neg hk] at h hn
            exact ih hpre1 (n + 1) _ _ _ _ (by omega) h

theorem unmarshalTupleIPLoop_reach (T : List Byte)
    (hT : ∀ (n ty : Nat) (d : List Byte) (err : Option Error) (x : IPTuple),
      (unmarshalTupleIPLoop T.length (n + 1) ⟨T, ty, d, err⟩ x).1.err ≠ none)
    (pre : List (Nat × List Byte)) (hpre : ∀ a ∈ pre, AttrFits a)
    (n ty : Nat) (d : List Byte) (err : Option Error) (x : IPTuple)
    (hn : knownCount addrKnown pre < n) :
    (unmarshalTupleIPLoop (encodeAttrs pre ++ T).length n
      ⟨encodeAttrs pre ++ T, ty, d, err⟩ x).1.err ≠ none := by
  induction pre generalizing n ty d err x with
  | nil =>
    cases n with
    | zero => simp [knownCount] at hn
    | succ n => simpa [encodeAttrs] using hT n ty d err x
  | cons a pre ih =>
    have ha := hpre a (List.mem_cons_self _ _)
    have hpre1 : ∀ x ∈ pre, AttrFits x := fun x hx => hpre x (List.mem_cons_of_mem _ hx)
    rw [knownCount_cons] at hn
    cases n with
    | zero => omega
    | succ n =>
      simp only [encodeAttrs, List.append_assoc]
      by_cases c1 : a.1 % (nlaTypeMask + 1) = ctaIPv4Src ∨ a.1 % (nlaTypeMask + 1) = ctaIPv6Src
      · have hk : addrKnown a.1 := Or.inl c1
        simp only [if_pos hk] at hn
        rw [unmarshalTupleIPLoop_src n x ha.1 c1 ha.2 (le_refl _)]
        exact ih hpre1 n _ _ _ _ (by omega)
      · by_cases c2 :
            a.1 % (nlaTypeMask + 1) = ctaIPv4Dst ∨ a.1 % (nlaTypeMask + 1) = ctaIPv6Dst
        · have hk : addrKnown a.1 := Or.inr c2
          simp only [if_pos hk] at hn
          rw [unmarshalTupleIPLoop_dst n x ha.1 c2 ha.2 (le_refl _)]
          exact ih hpre1 n _ _ _ _ (by omega)
        · have hk : ¬ addrKnown a.1 := by
            rintro (hk | hk)
            · exact c1 hk
            · exact c2 hk
          simp only [if_neg hk] at hn
          rw [unmarshalTupleIPLoop_skip n x ha.1 c1 c2 ha.2 (le_refl _)]
          exact ih hpre1 (n + 1) _ _ _ _ (by omega)

theorem unmarshalTupleLoop_reach (T : List Byte)
    (hT : ∀ (n ty : Nat) (d : List Byte) (err : Option Error) (x : IPTuple)
      (r : AttributeScanner × IPTuple),
      unmarshalTupleLoop T.length (n + 1) ⟨T, ty, d, err⟩ x = .ok r → r.1.err ≠ none)
    (pre : List (Nat × List Byte)) (hpre : ∀ a ∈ pre, AttrFits a)
    (n ty : Nat) (d : List Byte) (err : Option Error) (x : IPTuple)
    (r : AttributeScanner × IPTuple) (hn : knownCount tupleKnown pre < n)
    (h : unmarshalTupleLoop (encodeAttrs pre ++ T).length n
      ⟨encodeAttrs pre ++ T, ty, d, err⟩ x = .ok r) : r.1.err ≠ none := by
  induction pre generalizing n ty d err x with
  | nil =>
    cases n with
    | zero => simp [knownCount] at hn
    | succ n => exact hT n ty d err x r (by simpa [encodeAttrs] using h)
  | cons a pre ih =>
    have ha := hpre a (List.mem_cons_self _ _)
    have hpre1 : ∀ x ∈ pre, AttrFits x := fun x hx => hpre x (List.mem_cons_of_mem _ hx)
    rw [knownCount_cons] at hn
    cases n with
    | zero => omega
    | succ n =>
      simp only [encodeAttrs, List.append_assoc] at h
      by_cases c1 : a.1 % (nlaTypeMask + 1) = ctaTupleIP
      · have hk : tupleKnown a.1 := Or.inl c1
        simp only [if_pos hk] at hn
        rw [unmarshalTupleLoop_ip n x ha.1 c1 ha.2 (le_refl _)] at h
        cases hI : unmarshalTupleIP ⟨a.2, 0, [], err⟩ x with
        | error e => rw [hI] at h; simp at h
        | ok v => rw [hI] at h; exact ih hpre1 n _ _ _ _ (by omega) h
      · by_cases c2 : a.1 % (nlaTypeMask + 1) = ctaTupleProto
        · have hk : tupleKnown a.1 := Or.inr c2
          simp only [if_pos hk] at hn
          rw [unmarshalTupleLoop_proto n x ha.1 c2 ha.2 (le_refl _)] at h
          cases hI : unmarshalProto ⟨a.2, 0, [], err⟩ x with
          | error e => rw [hI] at h; simp at h
          | ok v => rw [hI] at h; exact ih hpre1 n _ _ _ _ (by omega) h
        · have hk : ¬ tupleKnown a.1 := by
            rintro (hk | hk)
            · exact c1 hk
            · exact c2 hk
          simp only [if_neg hk] at hn
          rw [unmarshalTupleLoop_skip n x ha.1 c1 c2 ha.2 (le_refl _)] at h
          exact ih hpre1 (n + 1) _ _ _ _ (by omega) h

theorem unmarshalConLoop_reach (T : List Byte)
    (hT : ∀ (n ty : Nat) (d : List Byte) (err : Option Error) (o r : IPTuple)
      (res : AttributeScanner × IPTuple × IPTuple),
      unmarshalConLoop T.length (n + 1) ⟨T, ty, d, err⟩ o r = .ok res → res.1.err ≠ none)
    (pre : List (Nat × List Byte)) (hpre : ∀ a ∈ pre, AttrFits a)
    (n ty : Nat) (d : List Byte) (err : Option Error) (o r : IPTuple)
    (res : AttributeScanner × IPTuple × IPTuple) (hn : knownCount conKnown pre < n)
    (h : unmarshalConLoop (encodeAttrs pre ++ T).length n
      ⟨encodeAttrs pre ++ T, ty, d, err⟩ o r = .ok res) : res.1.err ≠ none := by
  induction pre generalizing n ty d err o r with
  | nil =>
    cases n with
    | zero => simp [knownCount] at hn
    | succ n => exact hT n ty d err o r res (by simpa [encodeAttrs] using h)
  | cons a pre ih =>
    have ha := hpre a (List.mem_cons_self _ _)
    have hpre1 : ∀ x ∈ pre, AttrFits x := fun x hx => hpre x (List.mem_cons_of_mem _ hx)
    rw [knownCount_cons] at hn
    cases n with
    | zero => omega
    | succ n =>
      simp only [encodeAttrs, List.append_assoc] at h
      by_cases c1 : a.1 % (nlaTypeMask + 1) = ctaTupleOrig
      · have hk : conKnown a.1 := Or.inl c1
        simp only [if_pos hk] at hn
        rw [unmarshalConLoop_orig n o r ha.1 c1 ha.2 (le_refl _)] at h
        cases hI : unmarshalTuple ⟨a.2, 0, [], err⟩ o with
        | error e => rw [hI] at h; simp at h
        | ok v => rw [hI] at h; exact ih hpre1 n _ _ _ _ _ (by omega) h
      · by_cases c2 : a.1 % (nlaTypeMask + 1) = ctaTupleReply
        · have hk : conKnown a.1 := Or.inr c2
          simp only [if_pos hk] at hn
          rw [unmarshalConLoop_reply n o r ha.1 c2 ha.2 (le_refl _)] at h
          cases hI : unmarshalTuple ⟨a.2, 0, [], err⟩ r with
          | error e => rw [hI] at h; simp at h
          | ok v => rw [hI] at h; exact ih hpre1 n _ _ _ _ _ (by omega) h
        · have hk : ¬ conKnown a.1 := by
            rintro (hk | hk)
            · exact c1 hk
            · exact c2 hk
          simp only [if_neg hk] at hn
          rw [unmarshalConLoop_skip n o r ha.1 c1 c2 ha.2 (le_refl _)] at h
          exact ih hpre1 (n + 1) _ _ _ _ _ (by omega) h


theorem ne_none_record (s : AttributeScanner) (_h : s.err ≠ none) :
    (s.record Error.invalidAttribute).err ≠ none :=
  record_ne_none s Error.invalidAttribute

theorem unmarshalProto_fails_of_loop (v : List Byte)
    (h : ∀ (ty : Nat) (d : List Byte) (err : Option Error) (r : AttributeScanner × ProtoTuple),
      unmarshalProtoLoop v.length 3 ⟨v, ty, d, err⟩ {} = .ok r → r.1.err ≠ none) :
    Fails unmarshalProto v := by
  intro ty d err x r hr
  unfold unmarshalProto at hr
  cases hL : unmarshalProtoLoop v.length 3 ⟨v, ty, d, err⟩ {} with
  | error p => simp only [hL] at hr; simp at hr
  | ok q =>
    simp only [hL] at hr
    simp only [Except.ok.injEq] at hr
    rw [← hr]
    exact h ty d err q hL

theorem unmarshalTuple_fails_of_loop (v : List Byte)
    (h : ∀ (ty : Nat) (d : List Byte) (err : Option Error) (x : IPTuple)
      (r : AttributeScanner × IPTuple),
      unmarshalTupleLoop v.length 2 ⟨v, ty, d, err⟩ x = .ok r → r.1.err ≠ none) :
    Fails unmarshalTuple v := by
  intro ty d err x r hr
  unfold unmarshalTuple at hr
  cases hL : unmarshalTupleLoop v.length 2 ⟨v, ty, d, err⟩ x with
  | error p => simp only [hL] at hr; simp at hr
  | ok q =>
    simp only [hL] at hr
    simp only [Except.ok.injEq] at hr
    rw [← hr]
    exact h ty d err x q hL

theorem unmarshalCon_fails_of_loop (v : List Byte)
    (h : ∀ (ty : Nat) (d : List Byte) (err : Option Error)
      (r : AttributeScanner × IPTuple × IPTuple),
      unmarshalConLoop v.length 2 ⟨v, ty, d, err⟩ {} {} = .ok r → r.1.err ≠ none) :
    Fails unmarshalCon v := by
  intro ty d err x r hr
  unfold unmarshalCon at hr
  cases hL : unmarshalConLoop v.length 2 ⟨v, ty, d, err⟩ {} {} with
  | error p => simp only [hL] at hr; simp at hr
  | ok q =>
    simp only [hL] at hr
    simp only [Except.ok.injEq] at hr
    rw [← hr]
    exact h ty d err q hL

theorem tupleOf_of_fails (m : Message) (h : Fails unmarshalCon m.Data) : tupleOf m = none := by
  unfold tupleOf decodeMessage
  have hreset : AttributeScanner.ResetTo NewAttributeScanner m.Data = ⟨m.Data, 0, [], none⟩ :=
    rfl
  rw [hreset]
  cases hU : unmarshalCon ⟨m.Data, 0, [], none⟩ {} with
  | error p => rfl
  | ok r =>
    obtain ⟨s1, c, e⟩ := r
    have he := h 0 [] none {} _ hU
    cases e with
    | none => exact absurd rfl he
    | some x => rfl

/-- Propagation of a malformed header when the decoders return. At each of the four
levels, when the attribute list holds well-formed attributes that do not use up the
countdown and then a malformed header, the decoder of the level returns a non-nil
error if it returns at all; it does not return when `unmarshalProto` panics on a short
value, and then nothing is said here. A decoder that fails in this sense on the value
of a recognised attribute makes the decoder of the enclosing level fail in the same
sense; an error the scanner holds already is the one `unmarshalCon` returns when it
returns. A message on which `unmarshalCon` fails contributes no tuple, and in a batch
in which no message panics `DecodeEvent` leaves it out: the batch of `sampleMessage1`
and of one message with a malformed header at each level yields `sampleCon1` alone. -/
theorem malformed_header_fails_if_returned :
    (∀ (pre : List (Nat × List Byte)) (bad : List Byte), (∀ a ∈ pre, AttrFits a) →
      knownCount conKnown pre < 2 → MalformedHeader bad →
      Fails unmarshalCon (encodeAttrs pre ++ bad)) ∧
    (∀ (pre : List (Nat × List Byte)) (bad : List Byte), (∀ a ∈ pre, AttrFits a) →
      knownCount tupleKnown pre < 2 → MalformedHeader bad →
      Fails unmarshalTuple (encodeAttrs pre ++ bad)) ∧
    (∀ (pre : List (Nat × List Byte)) (bad : List Byte), (∀ a ∈ pre, AttrFits a) →
      knownCount addrKnown pre < 2 → MalformedHeader bad →
      Fails unmarshalTupleIP (encodeAttrs pre ++ bad)) ∧
    (∀ (pre : List (Nat × List Byte)) (bad : List Byte), (∀ a ∈ pre, AttrFits a) →
      knownCount protoKnown pre < 3 → MalformedHeader bad →
      Fails unmarshalProto (encodeAttrs pre ++ bad)) ∧
    (∀ (pre : List (Nat × List Byte)) (typ : Nat) (v tail : List Byte),
      (∀ a ∈ pre, AttrFits a) → knownCount conKnown pre < 2 → AttrFits (typ, v) →
      conKnown typ → Fails unmarshalTuple v →
      Fails unmarshalCon (encodeAttrs pre ++ (encodeAttr typ v ++ tail))) ∧
    (∀ (pre : List (Nat × List Byte)) (typ : Nat) (v tail : List Byte),
      (∀ a ∈ pre, AttrFits a) → knownCount tupleKnown pre < 2 → AttrFits (typ, v) →
      ((typ % (nlaTypeMask + 1) = ctaTupleIP ∧ Fails unmarshalTupleIP v) ∨
        (typ % (nlaTypeMask + 1) = ctaTupleProto ∧ Fails unmarshalProto v)) →
      Fails unmarshalTuple (encodeAttrs pre ++ (encodeAttr typ v ++ tail))) ∧
    (∀ (s s1 : AttributeScanner) (c c1 : Con) (e : Error) (e1 : Option Error),
      s.err = some e → unmarshalCon s c = .ok (s1, c1, e1) → e1 = some e) ∧
    (∀ m : Message, Fails unmarshalCon m.Data → tupleOf m = none) ∧
    (∀ (scanner : AttributeScanner) (before after : List Message) (m : Message),
      (∀ x ∈ before ++ m :: after, (decodeMessage x).isOk = true) →
      Fails unmarshalCon m.Data →
      ∃ scanner1, DecodeEvent scanner { Reply := before ++ m :: after, Error := none }
        = .ok (scanner1, some (before.filterMap tupleOf ++ after.filterMap tupleOf), none)) ∧
    (∃ scanner1, DecodeEvent NewAttributeScanner
        { Reply := [malformedAtCon, malformedMessage, sampleMessage1, malformedAtAddrs,
                    malformedAtProto], Error := none }
      = .ok (scanner1, some [sampleCon1], none)) := by
  have hne : ∀ s : AttributeScanner, s.err ≠ none →
      (s.record Error.invalidAttribute).err ≠ none := ne_none_record
  refine ⟨?_, ?_, ?_, ?_, ?_, ?_, ?_, tupleOf_of_fails, ?_, ⟨_, rfl⟩⟩
  · intro pre bad hpre hn hbad
    apply unmarshalCon_fails_of_loop
    intro ty d err r h
    refine unmarshalConLoop_reach bad ?_ pre hpre 2 ty d err {} {} r hn h
    intro n ty d err o r res h
    rw [unmarshalConLoop_stop n o r (le_refl _) (Next_malformed hbad ty d err)] at h
    simp only [Except.ok.injEq] at h
    rw [← h]
    exact record_ne_none _ _
  · intro pre bad hpre hn hbad
    apply unmarshalTuple_fails_of_loop
    intro ty d err x r h
    refine unmarshalTupleLoop_reach bad ?_ pre hpre 2 ty d err x r hn h
    intro n ty d err x r h
    rw [unmarshalTupleLoop_stop n x (le_refl _) (Next_malformed hbad ty d err)] at h
    simp only [Except.ok.injEq] at h
    rw [← h]
    exact record_ne_none _ _
  · intro pre bad hpre hn hbad ty d err x r hr
    unfold unmarshalTupleIP at hr
    simp only [Except.ok.injEq] at hr
    rw [← hr]
    refine unmarshalTupleIPLoop_reach bad ?_ pre hpre 2 ty d err x hn
    intro n ty d err x
    rw [unmarshalTupleIPLoop_stop n x (le_refl _) (Next_malformed hbad ty d err)]
    exact record_ne_none _ _
  · intro pre bad hpre hn hbad
    apply unmarshalProto_fails_of_loop
    intro ty d err r h
    refine unmarshalProtoLoop_reach bad ?_ pre hpre 3 ty d err {} r hn h
    intro n ty d err x r h
    rw [unmarshalProtoLoop_stop n x (le_refl _) (Next_malformed hbad ty d err)] at h
    simp only [Except.ok.injEq] at h
    rw [← h]
    exact record_ne_none _ _
  · intro pre typ v tail hpre hn ha hk hv
    apply unmarshalCon_fails_of_loop
    intro ty d err r h
    refine unmarshalConLoop_reach (encodeAttr typ v ++ tail) ?_ pre hpre 2 ty d err {} {} r
      hn h
    intro n ty d err o r res h
    rcases hk with hk | hk
    · rw [unmarshalConLoop_orig n o r ha.1 hk ha.2 (le_refl _)] at h
      cases hI : unmarshalTuple ⟨v, 0, [], err⟩ o with
      | error e => rw [hI] at h; simp at h
      | ok q =>
        obtain ⟨s1, o1, e1⟩ := q
        rw [hI] at h
        have he : s1.err ≠ none := by
          rw [← unmarshalTuple_err hI]
          exact hv 0 [] err o _ hI
        obtain ⟨s2, o2, r2⟩ := res
        dsimp only at h
        exact unmarshalConLoop_err_inv (fun e => e ≠ none) hne _ _ ⟨tail, typ, v, s1.err⟩
          _ _ _ _ _ he h
    · rw [unmarshalConLoop_reply n o r ha.1 hk ha.2 (le_refl _)] at h
      cases hI : unmarshalTuple ⟨v, 0, [], err⟩ r with
      | error e => rw [hI] at h; simp at h
      | ok q =>
        obtain ⟨s1, o1, e1⟩ := q
        rw [hI] at h
        have he : s1.err ≠ none := by
          rw [← unmarshalTuple_err hI]
          exact hv 0 [] err r _ hI
        obtain ⟨s2, o2, r2⟩ := res
        dsimp only at h
        exact unmarshalConLoop_err_inv (fun e => e ≠ none) hne _ _ ⟨tail, typ, v, s1.err⟩
          _ _ _ _ _ he h
  · intro pre typ v tail hpre hn ha hk
    apply unmarshalTuple_fails_of_loop
    intro ty d err x r h
    refine unmarshalTupleLoop_reach (encodeAttr typ v ++ tail) ?_ pre hpre 2 ty d err x r hn h
    intro n ty d err x r h
    rcases hk with ⟨hk, hv⟩ | ⟨hk, hv⟩
    · rw [unmarshalTupleLoop_ip n x ha.1 hk ha.2 (le_refl _)] at h
      cases hI : unmarshalTupleIP ⟨v, 0, [], err⟩ x with
      | error e => rw [hI] at h; simp at h
      | ok q =>
        obtain ⟨s1, o1, e1⟩ := q
        rw [hI] at h
        have he : s1.err ≠ none := by
          rw [← unmarshalTupleIP_err hI]
          exact hv 0 [] err x _ hI
        obtain ⟨s2, t2⟩ := r
        dsimp only at h
        exact unmarshalTupleLoop_err_inv (fun e => e ≠ none) hne _ _ ⟨tail, typ, v, s1.err⟩
          _ _ _ he h
    · rw [unmarshalTupleLoop_proto n x ha.1 hk ha.2 (le_refl _)] at h
      cases hI : unmarshalProto ⟨v, 0, [], err⟩ x with
      | error e => rw [hI] at h; simp at h
      | ok q =>
        obtain ⟨s1, o1, e1⟩ := q
        rw [hI] at h
        have he : s1.err ≠ none := by
          rw [← unmarshalProto_err hI]
          exact hv 0 [] err x _ hI
        obtain ⟨s2, t2⟩ := r
        dsimp only at h
        exact unmarshalTupleLoop_err_inv (fun e => e ≠ none) hne _ _ ⟨tail, typ, v, s1.err⟩
          _ _ _ he h
  · intro s s1 c c1 e e1 hs h
    have h1 := unmarshalCon_err_inv (fun x => x = some e) (record_keeps_some e) s s1 c c1 e1
      hs h
    rw [h1.2]
    exact h1.1
  · intro scanner before after m hok hm
    obtain ⟨sc1, h1⟩ := decodeLoop_append (before ++ m :: after) scanner [] hok
    refine ⟨sc1, ?_⟩
    simp only [DecodeEvent, h1, List.filterMap_append, List.filterMap_cons,
      tupleOf_of_fails m hm, List.nil_append]

theorem malformed_header_fails_if_returned_witness :
    ((∀ a ∈ ([] : List (Nat × List Byte)), AttrFits a) ∧
      knownCount tupleKnown [] < 2 ∧ MalformedHeader [3, 0, 1, 0]) ∧
    Fails unmarshalTuple (encodeAttrs [] ++ [3, 0, 1, 0]) :=
  have hbad : MalformedHeader [3, 0, 1, 0] :=
    Or.inr ⟨3, 0, 1, 0, [], rfl, Or.inl (by decide)⟩
  ⟨⟨by simp, by decide, hbad⟩,
    malformed_header_fails_if_returned.2.1 [] [3, 0, 1, 0] (by simp) (by decide) hbad⟩

/-! ## Decoding does not depend on the error recorded before -/

theorem firstError_none_right (a : Option Error) : firstError a none = a := by
  cases a <;> rfl

theorem firstError_assoc (a b c : Option Error) :
    firstError a (firstError b c) = firstError (firstError a b) c := by
  cases a <;> rfl

theorem withErr_withErr {σ : Type} (a b : Option Error)
    (r : Except Panic (AttributeScanner × σ)) :
    withErr a (withErr b r) = withErr (firstError a b) r := by
  cases r with
  | error p => rfl
  | ok q => simp only [withErr, firstError_assoc]

theorem Next_withErr (A : List Byte) (ty : Nat) (d : List Byte) (err0 : Option Error) :
    AttributeScanner.Next ⟨A, ty, d, err0⟩ =
      ((AttributeScanner.Next ⟨A, ty, d, none⟩).1,
        { (AttributeScanner.Next ⟨A, ty, d, none⟩).2 with
          err := firstError err0 (AttributeScanner.Next ⟨A, ty, d, none⟩).2.err }) := by
  rcases A with _ | ⟨l0, _ | ⟨l1, _ | ⟨t0, _ | ⟨t1, body⟩⟩⟩⟩ <;>
    cases err0 <;>
    simp [AttributeScanner.Next, AttributeScanner.record, firstError]
  all_goals (split <;> simp)

theorem Next_true_err {s s1 : AttributeScanner} (h : s.Next = (true, s1)) :
    s1.err = s.err := by
  unfold AttributeScanner.Next at h
  split at h
  · simp at h
  · dsimp only at h
    split at h
    · simp at h
    · simp only [Prod.mk.injEq, true_and] at h
      rw [← h]
  · simp at h

theorem unmarshalProtoLoop_withErr (f n : Nat) (A : List Byte) (ty : Nat) (d : List Byte)
    (err0 : Option Error) (x : ProtoTuple) :
    unmarshalProtoLoop f n ⟨A, ty, d, err0⟩ x =
      withErr err0 (unmarshalProtoLoop f n ⟨A, ty, d, none⟩ x) := by
  induction f generalizing n A ty d x with
  | zero => simp only [unmarshalProtoLoop, withErr, firstError_none_right]
  | succ f ih =>
    by_cases hn : n = 0
    · subst hn
      simp only [unmarshalProtoLoop_zero, withErr, firstError_none_right]
    · unfold unmarshalProtoLoop
      simp only [if_neg hn]
      rw [Next_withErr A ty d err0]
      cases hN : AttributeScanner.Next ⟨A, ty, d, none⟩ with
      | mk b s1 =>
        cases b with
        | false => simp only [withErr]
        | true =>
          have he := Next_true_err hN
          obtain ⟨r1, t1, d1, e1⟩ := s1
          simp only at he
          subst he
          simp only [firstError_none_right, AttributeScanner.Type_, AttributeScanner.Bytes]
          by_cases c1 : t1 % (nlaTypeMask + 1) = ctaProtoNum
          · simp only [if_pos c1]
            cases firstByte d1 with
            | error e => rfl
            | ok v => exact ih _ _ _ _ _
          · by_cases c2 : t1 % (nlaTypeMask + 1) = ctaProtoSrcPort
            · simp only [if_neg c1, if_pos c2]
              cases bigEndianUint16 d1 with
              | error e => rfl
              | ok v => exact ih _ _ _ _ _
            · by_cases c3 : t1 % (nlaTypeMask + 1) = ctaProtoDstPort
              · simp only [if_neg c1, if_neg c2, if_pos c3]
                cases bigEndianUint16 d1 with
                | error e => rfl
                | ok v => exact ih _ _ _ _ _
              · simp only [if_neg c1, if_neg c2, if_neg c3]
                exact ih _ _ _ _ _

theorem unmarshalProto_withErr (A : List Byte) (ty : Nat) (d : List Byte)
    (err0 : Option Error) (t : IPTuple) :
    unmarshalProto ⟨A, ty, d, err0⟩ t =
      withErrReturned err0 (unmarshalProto ⟨A, ty, d, none⟩ t) := by
  unfold unmarshalProto
  simp only [unmarshalProtoLoop_withErr A.length 3 A ty d err0]
  cases unmarshalProtoLoop A.length 3 ⟨A, ty, d, none⟩ {} with
  | error p => rfl
  | ok q => rfl

theorem unmarshalTupleIPLoop_withErr (f n : Nat) (A : List Byte) (ty : Nat) (d : List Byte)
    (err0 : Option Error) (x : IPTuple) :
    unmarshalTupleIPLoop f n ⟨A, ty, d, err0⟩ x =
      ({ (unmarshalTupleIPLoop f n ⟨A, ty, d, none⟩ x).1 with
          err := firstError err0 (unmarshalTupleIPLoop f n ⟨A, ty, d, none⟩ x).1.err },
        (unmarshalTupleIPLoop f n ⟨A, ty, d, none⟩ x).2) := by
  induction f generalizing n A ty d x with
  | zero => simp only [unmarshalTupleIPLoop, firstError_none_right]
  | succ f ih =>
    by_cases hn : n = 0
    · subst hn
      simp only [unmarshalTupleIPLoop_zero, firstError_none_right]
    · unfold unmarshalTupleIPLoop
      simp only [if_neg hn]
      rw [Next_withErr A ty d err0]
      cases hN : AttributeScanner.Next ⟨A, ty, d, none⟩ with
      | mk b s1 =>
        cases b with
        | false => rfl
        | true =>
          have he := Next_true_err hN
          obtain ⟨r1, t1, d1, e1⟩ := s1
          simp only at he
          subst he
          simp only [firstError_none_right, AttributeScanner.Type_, AttributeScanner.Bytes]
          by_cases c1 :
              t1 % (nlaTypeMask + 1) = ctaIPv4Src ∨ t1 % (nlaTypeMask + 1) = ctaIPv6Src
          · simp only [if_pos c1]
            exact ih _ _ _ _ _
          · by_cases c2 :
                t1 % (nlaTypeMask + 1) = ctaIPv4Dst ∨ t1 % (nlaTypeMask + 1) = ctaIPv6Dst
            · simp only [if_neg c1, if_pos c2]
              exact ih _ _ _ _ _
            · simp only [if_neg c1, if_neg c2]
              exact ih _ _ _ _ _

theorem unmarshalTupleIP_withErr (A : List Byte) (ty : Nat) (d : List Byte)
    (err0 : Option Error) (t : IPTuple) :
    unmarshalTupleIP ⟨A, ty, d, err0⟩ t =
      withErrReturned err0 (unmarshalTupleIP ⟨A, ty, d, none⟩ t) := by
  unfold unmarshalTupleIP
  simp only [unmarshalTupleIPLoop_withErr A.length 2 A ty d err0]
  rfl


theorem unmarshalTupleLoop_withErr (f n : Nat) (A : List Byte) (ty : Nat) (d : List Byte)
    (err0 : Option Error) (x : IPTuple) :
    unmarshalTupleLoop f n ⟨A, ty, d, err0⟩ x =
      withErr err0 (unmarshalTupleLoop f n ⟨A, ty, d, none⟩ x) := by
  induction f generalizing n A ty d err0 x with
  | zero => simp only [unmarshalTupleLoop, withErr, firstError_none_right]
  | succ f ih =>
    by_cases hn : n = 0
    · subst hn
      simp only [unmarshalTupleLoop_zero, withErr, firstError_none_right]
    · unfold unmarshalTupleLoop
      simp only [if_neg hn]
      rw [Next_withErr A ty d err0]
      cases hN : AttributeScanner.Next ⟨A, ty, d, none⟩ with
      | mk b s1 =>
        cases b with
        | false => simp only [withErr]
        | true =>
          have he := Next_true_err hN
          obtain ⟨r1, t1, d1, e1⟩ := s1
          simp only at he
          subst he
          simp only [firstError_none_right, AttributeScanner.Type_,
            Nested_of_err _ _ (fun _ _ _ _ h => unmarshalTupleIP_err h),
            Nested_of_err _ _ (fun _ _ _ _ h => unmarshalProto_err h)]
          by_cases c1 : t1 % (nlaTypeMask + 1) = ctaTupleIP
          · simp only [if_pos c1]
            rw [unmarshalTupleIP_withErr d1 0 [] err0 x]
            cases unmarshalTupleIP ⟨d1, 0, [], none⟩ x with
            | error e => rfl
            | ok q =>
              obtain ⟨si, a, e⟩ := q
              simp only [withErrReturned]
              rw [ih (n - 1) r1 t1 d1 (firstError err0 si.err) a,
                ih (n - 1) r1 t1 d1 si.err a, withErr_withErr]
          · by_cases c2 : t1 % (nlaTypeMask + 1) = ctaTupleProto
            · simp only [if_neg c1, if_pos c2]
              rw [unmarshalProto_withErr d1 0 [] err0 x]
              cases unmarshalProto ⟨d1, 0, [], none⟩ x with
              | error e => rfl
              | ok q =>
                obtain ⟨si, a, e⟩ := q
                simp only [withErrReturned]
                rw [ih (n - 1) r1 t1 d1 (firstError err0 si.err) a,
                  ih (n - 1) r1 t1 d1 si.err a, withErr_withErr]
            · simp only [if_neg c1, if_neg c2]
              exact ih _ _ _ _ _ _

theorem unmarshalTuple_withErr (A : List Byte) (ty : Nat) (d : List Byte)
    (err0 : Option Error) (t : IPTuple) :
    unmarshalTuple ⟨A, ty, d, err0⟩ t =
      withErrReturned err0 (unmarshalTuple ⟨A, ty, d, none⟩ t) := by
  unfold unmarshalTuple
  simp only [unmarshalTupleLoop_withErr A.length 2 A ty d err0]
  cases unmarshalTupleLoop A.length 2 ⟨A, ty, d, none⟩ t with
  | error p => rfl
  | ok q => rfl

/-- The errors a scanner records by itself: none, or the malformed-attribute error. -/
theorem record_scanner_error (s : AttributeScanner)
    (h : s.err = none ∨ s.err = some Error.invalidAttribute) :
    (s.record Error.invalidAttribute).err = none ∨
      (s.record Error.invalidAttribute).err = some Error.invalidAttribute := by
  unfold AttributeScanner.record
  rcases h with h | h <;> simp [h]

theorem firstError_comm_of_scanner (a b : Option Error)
    (ha : a = none ∨ a = some Error.invalidAttribute)
    (hb : b = none ∨ b = some Error.invalidAttribute) :
    firstError a b = firstError b a := by
  rcases ha with rfl | rfl <;> rcases hb with rfl | rfl <;> rfl

theorem unmarshalTupleIPLoop_proto (f n : Nat) (s : AttributeScanner)
    (S D : Option (List Byte)) (P0 P : Option ProtoTuple) :
    unmarshalTupleIPLoop f n s ⟨S, D, P⟩ =
      ((unmarshalTupleIPLoop f n s ⟨S, D, P0⟩).1,
        ⟨(unmarshalTupleIPLoop f n s ⟨S, D, P0⟩).2.Src,
          (unmarshalTupleIPLoop f n s ⟨S, D, P0⟩).2.Dst, P⟩) := by
  induction f generalizing n s S D with
  | zero => rfl
  | succ f ih =>
    unfold unmarshalTupleIPLoop
    by_cases hn : n = 0
    · simp only [if_pos hn]
    · simp only [if_neg hn]
      cases hN : s.Next with
      | mk b s1 =>
        cases b with
        | false => rfl
        | true =>
          dsimp only
          by_cases c1 : s1.Type_ = ctaIPv4Src ∨ s1.Type_ = ctaIPv6Src
          · simp only [if_pos c1]
            exact ih (n - 1) s1 (some (copySlice s1.Bytes)) D
          · by_cases c2 : s1.Type_ = ctaIPv4Dst ∨ s1.Type_ = ctaIPv6Dst
            · simp only [if_neg c1, if_pos c2]
              exact ih (n - 1) s1 S (some (copySlice s1.Bytes))
            · simp only [if_neg c1, if_neg c2]
              exact ih n s1 S D

/-! ## The order of two attributes of different kinds -/

theorem unmarshalConLoop_orig_reply (v1 v2 tail : List Byte) (ty : Nat) (d : List Byte)
    (o r : IPTuple) (h1 : nlaHeaderLen + v1.length < 65536)
    (h2 : nlaHeaderLen + v2.length < 65536) :
    unmarshalConLoop (encodeAttr ctaTupleOrig v1 ++ (encodeAttr ctaTupleReply v2 ++ tail)).length
        2 ⟨encodeAttr ctaTupleOrig v1 ++ (encodeAttr ctaTupleReply v2 ++ tail), ty, d, none⟩ o r =
      match unmarshalTuple ⟨v1, 0, [], none⟩ o with
      | .error p => .error p
      | .ok (s1, o1, _) =>
        match unmarshalTuple ⟨v2, 0, [], none⟩ r with
        | .error p => .error p
        | .ok (s2, r1, _) =>
          .ok (⟨tail, ctaTupleReply, v2, firstError s1.err s2.err⟩, o1, r1) := by
  rw [unmarshalConLoop_orig 1 o r (by decide : ctaTupleOrig < 65536)
    (by decide : ctaTupleOrig % (nlaTypeMask + 1) = ctaTupleOrig) h1 (le_refl _)]
  cases unmarshalTuple ⟨v1, 0, [], none⟩ o with
  | error p => rfl
  | ok q =>
    obtain ⟨s1, o1, e1⟩ := q
    dsimp only
    rw [unmarshalConLoop_reply 0 o1 r (by decide : ctaTupleReply < 65536)
      (by decide : ctaTupleReply % (nlaTypeMask + 1) = ctaTupleReply) h2 (le_refl _),
      unmarshalTuple_withErr v2 0 [] s1.err r]
    cases unmarshalTuple ⟨v2, 0, [], none⟩ r with
    | error p => rfl
    | ok q2 => simp only [withErrReturned, unmarshalConLoop_zero]

theorem unmarshalConLoop_reply_orig (v1 v2 tail : List Byte) (ty : Nat) (d : List Byte)
    (o r : IPTuple) (h1 : nlaHeaderLen + v1.length < 65536)
    (h2 : nlaHeaderLen + v2.length < 65536) :
    unmarshalConLoop (encodeAttr ctaTupleReply v2 ++ (encodeAttr ctaTupleOrig v1 ++ tail)).length
        2 ⟨encodeAttr ctaTupleReply v2 ++ (encodeAttr ctaTupleOrig v1 ++ tail), ty, d, none⟩ o r =
      match unmarshalTuple ⟨v2, 0, [], none⟩ r with
      | .error p => .error p
      | .ok (s2, r1, _) =>
        match unmarshalTuple ⟨v1, 0, [], none⟩ o with
        | .error p => .error p
        | .ok (s1, o1, _) =>
          .ok (⟨tail, ctaTupleOrig, v1, firstError s2.err s1.err⟩, o1, r1) := by
  rw [unmarshalConLoop_reply 1 o r (by decide : ctaTupleReply < 65536)
    (by decide : ctaTupleReply % (nlaTypeMask + 1) = ctaTupleReply) h2 (le_refl _)]
  cases unmarshalTuple ⟨v2, 0, [], none⟩ r with
  | error p => rfl
  | ok q =>
    obtain ⟨s2, r1, e2⟩ := q
    dsimp only
    rw [unmarshalConLoop_orig 0 o r1 (by decide : ctaTupleOrig < 65536)
      (by decide : ctaTupleOrig % (nlaTypeMask + 1) = ctaTupleOrig) h1 (le_refl _),
      unmarshalTuple_withErr v1 0 [] s2.err o]
    cases unmarshalTuple ⟨v1, 0, [], none⟩ o with
    | error p => rfl
    | ok q2 => simp only [withErrReturned, unmarshalConLoop_zero]

theorem unmarshalTupleLoop_ip_proto (v1 v2 tail : List Byte) (ty : Nat) (d : List Byte)
    (t : IPTuple) (h1 : nlaHeaderLen + v1.length < 65536)
    (h2 : nlaHeaderLen + v2.length < 65536) :
    unmarshalTupleLoop (encodeAttr ctaTupleIP v1 ++ (encodeAttr ctaTupleProto v2 ++ tail)).length
        2 ⟨encodeAttr ctaTupleIP v1 ++ (encodeAttr ctaTupleProto v2 ++ tail), ty, d, none⟩ t =
      match unmarshalTupleIP ⟨v1, 0, [], none⟩ t with
      | .error p => .error p
      | .ok (s1, t1, _) =>
        match unmarshalProto ⟨v2, 0, [], none⟩ t1 with
        | .error p => .error p
        | .ok (s2, t2, _) =>
          .ok (⟨tail, ctaTupleProto, v2, firstError s1.err s2.err⟩, t2) := by
  rw [unmarshalTupleLoop_ip 1 t (by decide : ctaTupleIP < 65536)
    (by decide : ctaTupleIP % (nlaTypeMask + 1) = ctaTupleIP) h1 (le_refl _)]
  cases unmarshalTupleIP ⟨v1, 0, [], none⟩ t with
  | error p => rfl
  | ok q =>
    obtain ⟨s1, t1, e1⟩ := q
    dsimp only
    rw [unmarshalTupleLoop_proto 0 t1 (by decide : ctaTupleProto < 65536)
      (by decide : ctaTupleProto % (nlaTypeMask + 1) = ctaTupleProto) h2 (le_refl _),
      unmarshalProto_withErr v2 0 [] s1.err t1]
    cases unmarshalProto ⟨v2, 0, [], none⟩ t1 with
    | error p => rfl
    | ok q2 => simp only [withErrReturned, unmarshalTupleLoop_zero]

theorem unmarshalTupleLoop_proto_ip (v1 v2 tail : List Byte) (ty : Nat) (d : List Byte)
    (t : IPTuple) (h1 : nlaHeaderLen + v1.length < 65536)
    (h2 : nlaHeaderLen + v2.length < 65536) :
    unmarshalTupleLoop (encodeAttr ctaTupleProto v2 ++ (encodeAttr ctaTupleIP v1 ++ tail)).length
        2 ⟨encodeAttr ctaTupleProto v2 ++ (encodeAttr ctaTupleIP v1 ++ tail), ty, d, none⟩ t =
      match unmarshalProto ⟨v2, 0, [], none⟩ t with
      | .error p => .error p
      | .ok (s2, t2, _) =>
        match unmarshalTupleIP ⟨v1, 0, [], none⟩ t2 with
        | .error p => .error p
        | .ok (s1, t3, _) =>
          .ok (⟨tail, ctaTupleIP, v1, firstError s2.err s1.err⟩, t3) := by
  rw [unmarshalTupleLoop_proto 1 t (by decide : ctaTupleProto < 65536)
    (by decide : ctaTupleProto % (nlaTypeMask + 1) = ctaTupleProto) h2 (le_refl _)]
  cases unmarshalProto ⟨v2, 0, [], none⟩ t with
  | error p => rfl
  | ok q =>
    obtain ⟨s2, t2, e2⟩ := q
    dsimp only
    rw [unmarshalTupleLoop_ip 0 t2 (by decide : ctaTupleIP < 65536)
      (by decide : ctaTupleIP % (nlaTypeMask + 1) = ctaTupleIP) h1 (le_refl _),
      unmarshalTupleIP_withErr v1 0 [] s2.err t2]
    cases unmarshalTupleIP ⟨v1, 0, [], none⟩ t2 with
    | error p => rfl
    | ok q2 => simp only [withErrReturned, unmarshalTupleLoop_zero]


/-- C19: the order of two attributes of different kinds within a level does not change
what is decoded. The message with tuple-reply first and tuple-orig second gives the
same tuple and the same error as the one with tuple-orig first (and both panic or
neither does); in an IP-tuple, tuple-proto before tuple-ip gives the same as tuple-ip
before tuple-proto; in an address pair, a destination attribute before a source
attribute gives the same as the source before the destination. Bytes after the two
attributes play no part. -/
theorem attribute_order_irrelevant :
    (∀ (v1 v2 tail : List Byte) (c : Con),
      nlaHeaderLen + v1.length < 65536 → nlaHeaderLen + v2.length < 65536 →
      Except.map (fun r => r.2) (unmarshalCon (AttributeScanner.ResetTo NewAttributeScanner
          (encodeAttr ctaTupleReply v2 ++ (encodeAttr ctaTupleOrig v1 ++ tail))) c)
        = Except.map (fun r => r.2) (unmarshalCon (AttributeScanner.ResetTo NewAttributeScanner
          (encodeAttr ctaTupleOrig v1 ++ (encodeAttr ctaTupleReply v2 ++ tail))) c)) ∧
    (∀ (v1 v2 tail : List Byte) (ty0 : Nat) (d0 : List Byte) (err : Option Error)
        (t : IPTuple),
      nlaHeaderLen + v1.length < 65536 → nlaHeaderLen + v2.length < 65536 →
      Except.map (fun r => r.2) (unmarshalTuple
          ⟨encodeAttr ctaTupleProto v2 ++ (encodeAttr ctaTupleIP v1 ++ tail), ty0, d0, err⟩ t)
        = Except.map (fun r => r.2) (unmarshalTuple
          ⟨encodeAttr ctaTupleIP v1 ++ (encodeAttr ctaTupleProto v2 ++ tail), ty0, d0, err⟩ t)) ∧
    (∀ (typS typD : Nat) (A B tail : List Byte) (ty0 : Nat) (d0 : List Byte)
        (err : Option Error) (t : IPTuple),
      (typS = ctaIPv4Src ∨ typS = ctaIPv6Src) → (typD = ctaIPv4Dst ∨ typD = ctaIPv6Dst) →
      nlaHeaderLen + A.length < 65536 → nlaHeaderLen + B.length < 65536 →
      Except.map (fun r => r.2) (unmarshalTupleIP
          ⟨encodeAttr typD B ++ (encodeAttr typS A ++ tail), ty0, d0, err⟩ t)
        = Except.map (fun r => r.2) (unmarshalTupleIP
          ⟨encodeAttr typS A ++ (encodeAttr typD B ++ tail), ty0, d0, err⟩ t)) := by
  have hQ := record_scanner_error
  refine ⟨?_, ?_, ?_⟩
  · intro v1 v2 tail c h1 h2
    simp only [unmarshalCon_observe, AttributeScanner.ResetTo]
    rw [unmarshalConLoop_reply_orig v1 v2 tail 0 [] {} {} h1 h2,
      unmarshalConLoop_orig_reply v1 v2 tail 0 [] {} {} h1 h2]
    cases hA : unmarshalTuple ⟨v1, 0, [], none⟩ {} with
    | error p =>
      cases hB : unmarshalTuple ⟨v2, 0, [], none⟩ {} with
      | error q => cases p; cases q; rfl
      | ok q => rfl
    | ok qa =>
      obtain ⟨s1, o1, e1⟩ := qa
      cases hB : unmarshalTuple ⟨v2, 0, [], none⟩ {} with
      | error q => rfl
      | ok qb =>
        obtain ⟨s2, r1, e2⟩ := qb
        have r1' := unmarshalTuple_err_inv
          (fun e => e = none ∨ e = some Error.invalidAttribute) hQ _ _ _ _ _
          (Or.inl rfl) hA
        have r2' := unmarshalTuple_err_inv
          (fun e => e = none ∨ e = some Error.invalidAttribute) hQ _ _ _ _ _
          (Or.inl rfl) hB
        simp only [observe, firstError_comm_of_scanner _ _ r2' r1']
  · intro v1 v2 tail ty0 d0 err t h1 h2
    rw [unmarshalTuple_withErr _ ty0 d0 err t, unmarshalTuple_withErr _ ty0 d0 err t]
    have key : Except.map (fun r => r.2) (unmarshalTuple
          ⟨encodeAttr ctaTupleProto v2 ++ (encodeAttr ctaTupleIP v1 ++ tail), ty0, d0, none⟩ t)
        = Except.map (fun r => r.2) (unmarshalTuple
          ⟨encodeAttr ctaTupleIP v1 ++ (encodeAttr ctaTupleProto v2 ++ tail), ty0, d0, none⟩
          t) := by
      simp only [unmarshalTuple_observe]
      rw [unmarshalTupleLoop_proto_ip v1 v2 tail ty0 d0 t h1 h2,
        unmarshalTupleLoop_ip_proto v1 v2 tail ty0 d0 t h1 h2]
      simp only [unmarshalTupleIP, unmarshalProto, AttributeScanner.Err]
      cases hP : unmarshalProtoLoop v2.length 3 ⟨v2, 0, [], none⟩ {} with
      | error p => rfl
      | ok qp =>
        obtain ⟨sP, p⟩ := qp
        have r2' := unmarshalProtoLoop_err_inv
          (fun e => e = none ∨ e = some Error.invalidAttribute) hQ _ _ _ _ _ _
          (Or.inl rfl) hP
        have r1' := unmarshalTupleIPLoop_err_inv
          (fun e => e = none ∨ e = some Error.invalidAttribute) hQ v1.length 2
          ⟨v1, 0, [], none⟩ t (Or.inl rfl)
        have hcarry := unmarshalTupleIPLoop_proto v1.length 2 ⟨v1, 0, [], none⟩ t.Src t.Dst
          t.Proto (some p)
        simp only [hcarry, observe, firstError_comm_of_scanner _ _ r2' r1']
    cases hL : unmarshalTuple
        ⟨encodeAttr ctaTupleProto v2 ++ (encodeAttr ctaTupleIP v1 ++ tail), ty0, d0, none⟩ t with
    | error p =>
      rw [hL] at key
      cases hR : unmarshalTuple
          ⟨encodeAttr ctaTupleIP v1 ++ (encodeAttr ctaTupleProto v2 ++ tail), ty0, d0, none⟩
          t with
      | error q => cases p; cases q; rfl
      | ok q => rw [hR] at key; simp [Except.map] at key
    | ok ql =>
      rw [hL] at key
      cases hR : unmarshalTuple
          ⟨encodeAttr ctaTupleIP v1 ++ (encodeAttr ctaTupleProto v2 ++ tail), ty0, d0, none⟩
          t with
      | error q => rw [hR] at key; simp [Except.map] at key
      | ok qr =>
        rw [hR] at key
        simp only [Except.map, Except.ok.injEq] at key
        simp only [withErrReturned, Except.map, key]
  · intro typS typD A B tail ty0 d0 err t hS hD hA hB
    have e1 := unmarshalTupleIP_one_dst typD B (encodeAttr typS A ++ tail) ty0 d0 err t 1 hD hB
    have e2 := unmarshalTupleIP_one_src typS A tail typD B err { t with Dst := some B } 0 hS hA
    have e3 := unmarshalTupleIP_one_src typS A (encodeAttr typD B ++ tail) ty0 d0 err t 1 hS hA
    have e4 := unmarshalTupleIP_one_dst typD B tail typS A err { t with Src := some A } 0 hD hB
    simp only [unmarshalTupleIP, e1, e2, e3, e4, unmarshalTupleIPLoop_zero,
      AttributeScanner.Err, Except.map]

theorem attribute_order_irrelevant_witness :
    (nlaHeaderLen + (encodeTuple sampleFlow1).length < 65536 ∧
      nlaHeaderLen + (encodeTuple sampleFlow2).length < 65536) ∧
    Except.map (fun r => r.2) (unmarshalCon (AttributeScanner.ResetTo NewAttributeScanner
        (encodeAttr ctaTupleReply (encodeTuple sampleFlow2) ++
          (encodeAttr ctaTupleOrig (encodeTuple sampleFlow1) ++ []))) {})
      = Except.map (fun r => r.2) (unmarshalCon (AttributeScanner.ResetTo NewAttributeScanner
        (encodeAttr ctaTupleOrig (encodeTuple sampleFlow1) ++
          (encodeAttr ctaTupleReply (encodeTuple sampleFlow2) ++ []))) {}) :=
  ⟨by decide, attribute_order_irrelevant.1 _ _ [] {} (by decide) (by decide)⟩

/-! ## A recorded error followed by a short protocol value -/

/-- C13: evaluation at the failing input `malformedThenShortProto`, whose tuple-orig holds
a tuple-ip with a header of declared length 3 and then a tuple-proto whose proto-num
attribute has an empty value. The scanner records a malformed-attribute error at the
address-pair level: `unmarshalTupleIP` on the tuple-ip value returns it, and after the
nested scope the outer scanner holds it. On the message with the same tuple-ip and no
tuple-proto, `unmarshalCon` returns that error and `DecodeEvent` omits the message. On
the failing input, `unmarshalProto` then indexes the empty value and panics, so `unmarshalTuple`
and `unmarshalCon` return nothing, neither a tuple nor an error, and `DecodeEvent` on
the batch of `sampleMessage1`, the message and `sampleMessage3` panics too: no output is
returned for the batch, where the claim has `sampleCon1` and `sampleCon3` returned and
the one message omitted, as `DecodeEvent` does on the batch without the message. -/
theorem unmarshalCon_panics_after_recorded_error :
    unmarshalTupleIP ⟨[3, 0, 1, 0], 0, [], none⟩ {} =
      .ok (⟨[3, 0, 1, 0], 0, [], some Error.invalidAttribute⟩, {},
           some Error.invalidAttribute) ∧
    AttributeScanner.Nested ⟨[8, 0, 2, 0, 4, 0, 1, 0], ctaTupleIP, [3, 0, 1, 0], none⟩
        (fun s2 => unmarshalTupleIP s2 {}) =
      .ok (⟨[8, 0, 2, 0, 4, 0, 1, 0], ctaTupleIP, [3, 0, 1, 0],
            some Error.invalidAttribute⟩, {}) ∧
    (∃ s1 c, unmarshalCon (AttributeScanner.ResetTo NewAttributeScanner
        [12, 0, 1, 0, 8, 0, 1, 0, 3, 0, 1, 0]) {} =
      .ok (s1, c, some Error.invalidAttribute)) ∧
    (∃ s1, DecodeEvent NewAttributeScanner
        { Reply := [sampleMessage1, ⟨[12, 0, 1, 0, 8, 0, 1, 0, 3, 0, 1, 0]⟩, sampleMessage3],
          Error := none } =
      .ok (s1, some [sampleCon1, sampleCon3], none)) ∧
    (∀ (err : Option Error) (t : IPTuple),
      unmarshalProto ⟨[4, 0, 1, 0], 0, [], err⟩ t = .error Panic.indexOutOfRange) ∧
    unmarshalTuple ⟨[8, 0, 1, 0, 3, 0, 1, 0, 8, 0, 2, 0, 4, 0, 1, 0], 0, [], none⟩ {} =
      .error Panic.indexOutOfRange ∧
    unmarshalCon (AttributeScanner.ResetTo NewAttributeScanner malformedThenShortProto.Data) {} =
      .error Panic.indexOutOfRange ∧
    decodeMessage malformedThenShortProto = .error Panic.indexOutOfRange ∧
    DecodeEvent NewAttributeScanner
        { Reply := [sampleMessage1, malformedThenShortProto, sampleMessage3], Error := none } =
      .error Panic.indexOutOfRange ∧
    (∃ s1, DecodeEvent NewAttributeScanner
        { Reply := [sampleMessage1, sampleMessage3], Error := none } =
      .ok (s1, some [sampleCon1, sampleCon3], none)) := by
  refine ⟨rfl, rfl, ⟨_, _, rfl⟩, ⟨_, rfl⟩, ?_, rfl, rfl, rfl, rfl, ⟨_, rfl⟩⟩
  intro err t
  rfl

end Netlink
